import Mathlib

/-!
Verification of the MemoryCard save-sync engine.

The embedding models the two Rust engines in `src-tauri/src/lib.rs`:

* `sync_game_saves` (MemoryCard revision, policy-aware conflict reporting),
* `sync_game_saves_v0` (earlier desktop-app revision, silent newest-wins),
* `copy_file` and `resolve_conflict`.

The filesystem under one root is modelled as an association list from the
root-relative path (a list of components) to the file's record
(modified time, size, content).  This is exactly the information
`get_files_recursive` plus `fs::metadata` expose to the engine; the
modified time is an abstract totally ordered value (`Nat`) standing for
`SystemTime`.  Fallible I/O calls (`fs::copy`, `fs::create_dir_all`,
`fs::metadata`) are mediated by an oracle `Op → Option String` giving the
operating-system error message of a call that fails, and every run
returns the final state of both trees, the trace of I/O operations that
were actually performed, and `Except String SyncResult` mirroring Rust's
`Result<SyncResult, String>`.
-/

/-- Root-relative path: the list of path components below a sync root. -/
abbrev RelPath := List String

/-- Which of the two sync roots an absolute path lives under. -/
inductive Side where
  | loc : Side
  | cld : Side
deriving DecidableEq, Repr

/-- Absolute path: a root designator together with a root-relative path. -/
abbrev AbsPath := Side × RelPath

/-- The data of one on-disk file as the engine can observe it:
last-write timestamp (`SystemTime`, modelled as `Nat`), byte size, and
an abstract content value. -/
structure File where
  modified : Nat
  size : Nat
  content : Nat
deriving DecidableEq, Repr

/-- The files under one root: an association list from relative path to
file record.  A real directory walk yields each relative path at most
once, so theorems assume `Nodup` keys where they need it. -/
abbrev FsTree := List (RelPath × File)

/-- Lookup the value stored at a key in an association list (the model of
`HashMap::get` and of reading a file at a path). -/
def findEntry {α : Type} (p : RelPath) : List (RelPath × α) → Option α
  | [] => none
  | (q, v) :: rest => if q = p then some v else findEntry p rest

/-- Overwrite or insert the value at a key in an association list (the
model of writing a file at a path: `fs::copy` truncates and replaces an
existing destination). -/
def setEntry {α : Type} (p : RelPath) (v : α) : List (RelPath × α) → List (RelPath × α)
  | [] => [(p, v)]
  | (q, w) :: rest => if q = p then (p, v) :: rest else (q, w) :: setEntry p v rest

/-- Keys of an association list. -/
def keysOf {α : Type} : List (RelPath × α) → List RelPath
  | [] => []
  | (q, _) :: rest => q :: keysOf rest

/-- One fallible I/O operation the engine can perform. -/
inductive Op where
  | mkdirAll : AbsPath → Op
  | copy : AbsPath → AbsPath → Op
  | metadata : AbsPath → Op
deriving DecidableEq, Repr

/-- The environment's disposition of each I/O call: `some e` means the
call fails with operating-system message `e`, `none` means it succeeds. -/
abbrev IOOracle := Op → Option String

/-- The oracle under which every I/O call succeeds. -/
def reliable : IOOracle := fun _ => none

/-- Joint state of the two directory trees during a run. -/
structure St where
  ltree : FsTree
  ctree : FsTree
deriving DecidableEq, Repr

/-- Read the file at an absolute path. -/
def St.read (st : St) : AbsPath → Option File
  | (Side.loc, p) => findEntry p st.ltree
  | (Side.cld, p) => findEntry p st.ctree

/-- Write a file at an absolute path, overwriting any existing file. -/
def St.write (st : St) : AbsPath → File → St
  | (Side.loc, p), f => { st with ltree := setEntry p f st.ltree }
  | (Side.cld, p), f => { st with ctree := setEntry p f st.ctree }

/-- Result of one engine fragment: the state after it, the I/O operations
it performed (in order), and either its value or the error that aborted
it.  A failing call contributes no operation to the trace. -/
structure StepOut (α : Type) where
  st : St
  ops : List Op
  res : Except String α
deriving Repr

/-- Model of the Rust helper `copy_file` (`fs::copy(src, dst)?`): on
success the destination holds exactly the source's file record and the
copy is recorded in the trace; the environment may fail the call, and a
copy from a path holding no file fails as the OS would. -/
def copy_file (oracle : IOOracle) (st : St) (src dst : AbsPath) : StepOut Unit :=
  match oracle (Op.copy src dst) with
  | some e => ⟨st, [], Except.error e⟩
  | none =>
    match st.read src with
    | none => ⟨st, [], Except.error "No such file or directory (os error 2)"⟩
    | some f => ⟨st.write dst f, [Op.copy src dst], Except.ok ()⟩

/-- Model of `fs::create_dir_all` on the parent of a destination: it has
no effect on the file map, but the call may fail and is traced. -/
def mkdir_all (oracle : IOOracle) (st : St) (d : AbsPath) : StepOut Unit :=
  match oracle (Op.mkdirAll d) with
  | some e => ⟨st, [], Except.error e⟩
  | none => ⟨st, [Op.mkdirAll d], Except.ok ()⟩

/-- Size of the file at an absolute path as `fs::metadata(..).len()`
reports it (0 if absent; the engine only queries existing files). -/
def sizeAt (st : St) (a : AbsPath) : Nat :=
  match st.read a with
  | some f => f.size
  | none => 0

/-- One unresolved conflict record, mirroring the Rust `FileConflict`
struct (paths kept structured rather than stringified). -/
structure FileConflict where
  relative_path : RelPath
  local_path : AbsPath
  cloud_path : AbsPath
  local_modified : Nat
  cloud_modified : Nat
  local_size : Nat
  cloud_size : Nat
deriving DecidableEq, Repr

/-- Mirror of the Rust `SyncResult` struct returned by `sync_game_saves`. -/
structure SyncResult where
  success : Bool
  message : String
  files_synced : Nat
  conflicts : List FileConflict
deriving DecidableEq, Repr

/-- Record a conflict for a path present on both sides: read both sides'
metadata (each read fallible, in source order local then cloud) and
produce the `FileConflict` record; no file is transferred. -/
def recordConflict (oracle : IOOracle) (st : St) (p : RelPath) (lm cm : Nat) :
    StepOut (Nat × List FileConflict) :=
  match oracle (Op.metadata (Side.loc, p)) with
  | some e => ⟨st, [], Except.error e⟩
  | none =>
    match oracle (Op.metadata (Side.cld, p)) with
    | some e => ⟨st, [Op.metadata (Side.loc, p)], Except.error e⟩
    | none =>
      ⟨st, [Op.metadata (Side.loc, p), Op.metadata (Side.cld, p)],
        Except.ok (0, [⟨p, (Side.loc, p), (Side.cld, p), lm, cm,
          sizeAt st (Side.loc, p), sizeAt st (Side.cld, p)⟩])⟩

/-- Copy one file in the first loop of `sync_game_saves` and count it. -/
def copyCounted (oracle : IOOracle) (st : St) (src dst : AbsPath) :
    StepOut (Nat × List FileConflict) :=
  match copy_file oracle st src dst with
  | ⟨st', ops, Except.error e⟩ => ⟨st', ops, Except.error e⟩
  | ⟨st', ops, Except.ok _⟩ => ⟨st', ops, Except.ok (1, [])⟩

/-- Body of the first loop of the MemoryCard `sync_game_saves` for the
local-map entry `(p, lm)`: if the path is also in the cloud map, equal
timestamps mean identical (no action), unequal timestamps are resolved
by the `auto_resolve` policy string exactly as the Rust `match` does
(`"local"`, `"cloud"`, `"newer"` with ties copying cloud to local, any
other or absent policy records a conflict); a path missing from the
cloud map is copied local→cloud after creating the destination's parent
directories. -/
def syncEntry1 (oracle : IOOracle) (auto : Option String)
    (cmap : List (RelPath × Nat)) (st : St) (p : RelPath) (lm : Nat) :
    StepOut (Nat × List FileConflict) :=
  match findEntry p cmap with
  | some cm =>
    if lm ≠ cm then
      match auto with
      | some s =>
        if s = "local" then
          copyCounted oracle st (Side.loc, p) (Side.cld, p)
        else if s = "cloud" then
          copyCounted oracle st (Side.cld, p) (Side.loc, p)
        else if s = "newer" then
          if lm > cm then
            copyCounted oracle st (Side.loc, p) (Side.cld, p)
          else
            copyCounted oracle st (Side.cld, p) (Side.loc, p)
        else
          recordConflict oracle st p lm cm
      | none => recordConflict oracle st p lm cm
    else
      ⟨st, [], Except.ok (0, [])⟩
  | none =>
    match mkdir_all oracle st (Side.cld, p.dropLast) with
    | ⟨st', ops, Except.error e⟩ => ⟨st', ops, Except.error e⟩
    | ⟨st', ops, Except.ok _⟩ =>
      match copyCounted oracle st' (Side.loc, p) (Side.cld, p) with
      | ⟨st'', ops', r⟩ => ⟨st'', ops ++ ops', r⟩

/-- Combine one entry's successful contribution (count `k`, conflicts
`cs`, trace `ops`) with the outcome of the rest of the loop. -/
def combine1 (k : Nat) (cs : List FileConflict) (ops : List Op)
    (out : StepOut (Nat × List FileConflict)) : StepOut (Nat × List FileConflict) :=
  match out with
  | ⟨st'', ops', Except.error e⟩ => ⟨st'', ops ++ ops', Except.error e⟩
  | ⟨st'', ops', Except.ok (n, cs')⟩ =>
    ⟨st'', ops ++ ops', Except.ok (k + n, cs ++ cs')⟩

/-- First loop of `sync_game_saves`: fold `syncEntry1` over the local
map's entries, aborting at the first error, concatenating traces and
conflict lists and summing the copy counts. -/
def runLoop1 (oracle : IOOracle) (auto : Option String)
    (cmap : List (RelPath × Nat)) :
    List (RelPath × Nat) → St → StepOut (Nat × List FileConflict)
  | [], st => ⟨st, [], Except.ok (0, [])⟩
  | (p, lm) :: rest, st =>
    match syncEntry1 oracle auto cmap st p lm with
    | ⟨st', ops, Except.error e⟩ => ⟨st', ops, Except.error e⟩
    | ⟨st', ops, Except.ok (k, cs)⟩ =>
      combine1 k cs ops (runLoop1 oracle auto cmap rest st')

/-- Body of the second loop of `sync_game_saves` for the cloud-map entry
`p`: a path already in the local map is skipped; otherwise the parent
directories of the local destination are created and the file is copied
cloud→local. -/
def syncEntry2 (oracle : IOOracle) (lmap : List (RelPath × Nat))
    (st : St) (p : RelPath) : StepOut Nat :=
  match findEntry p lmap with
  | some _ => ⟨st, [], Except.ok 0⟩
  | none =>
    match mkdir_all oracle st (Side.loc, p.dropLast) with
    | ⟨st', ops, Except.error e⟩ => ⟨st', ops, Except.error e⟩
    | ⟨st', ops, Except.ok _⟩ =>
      match copy_file oracle st' (Side.cld, p) (Side.loc, p) with
      | ⟨st'', ops', Except.error e⟩ => ⟨st'', ops ++ ops', Except.error e⟩
      | ⟨st'', ops', Except.ok _⟩ => ⟨st'', ops ++ ops', Except.ok 1⟩

/-- Combine one entry's successful count and trace with the outcome of
the rest of a counting loop. -/
def combine2 (k : Nat) (ops : List Op) (out : StepOut Nat) : StepOut Nat :=
  match out with
  | ⟨st'', ops', Except.error e⟩ => ⟨st'', ops ++ ops', Except.error e⟩
  | ⟨st'', ops', Except.ok n⟩ => ⟨st'', ops ++ ops', Except.ok (k + n)⟩

/-- Second loop of `sync_game_saves`: fold `syncEntry2` over the cloud
map's entries, aborting at the first error. -/
def runLoop2 (oracle : IOOracle) (lmap : List (RelPath × Nat)) :
    List (RelPath × Nat) → St → StepOut Nat
  | [], st => ⟨st, [], Except.ok 0⟩
  | (p, _) :: rest, st =>
    match syncEntry2 oracle lmap st p with
    | ⟨st', ops, Except.error e⟩ => ⟨st', ops, Except.error e⟩
    | ⟨st', ops, Except.ok k⟩ => combine2 k ops (runLoop2 oracle lmap rest st')

/-- What the filesystem says about a root path handed to the engine:
absent, present but a plain file, or a directory holding a tree. -/
inductive RootState where
  | missing : RootState
  | plainFile : RootState
  | dir : FsTree → RootState
deriving DecidableEq, Repr

/-- Model of Rust `Path::exists` on a root. -/
def RootState.pathExists : RootState → Bool
  | RootState.missing => false
  | _ => true

/-- Model of `get_files_recursive` on a root: a directory yields its
tree of files; anything that is not a directory yields the empty list
(the Rust function checks `dir.is_dir()` and otherwise returns an empty
vector). -/
def RootState.treeOf : RootState → FsTree
  | RootState.dir t => t
  | _ => []

/-- Model of building `local_map` / `cloud_map`: strip the root prefix
and keep each file's modification time, keyed by relative path. -/
def indexTree (t : FsTree) : List (RelPath × Nat) :=
  t.map (fun e => (e.1, e.2.modified))

/-- Outcome of one whole engine invocation: final state of the two
trees, the I/O trace, and Rust's `Result` value. -/
structure RunOut (ρ : Type) where
  state : St
  trace : List Op
  result : Except String ρ
deriving Repr

/-- Model of the MemoryCard `sync_game_saves` command: validate that
both roots exist (local first, each failure message naming the side and
path), index both trees, run the two loops, and assemble the
`SyncResult` with `success` iff no conflicts and the exact Rust
messages. -/
def sync_game_saves (oracle : IOOracle) (local_path cloud_path : String)
    (localRoot cloudRoot : RootState) (auto_resolve : Option String) :
    RunOut SyncResult :=
  let st0 : St := ⟨localRoot.treeOf, cloudRoot.treeOf⟩
  if localRoot.pathExists = false then
    ⟨st0, [], Except.error ("Local path does not exist: " ++ local_path)⟩
  else if cloudRoot.pathExists = false then
    ⟨st0, [], Except.error ("Cloud path does not exist: " ++ cloud_path)⟩
  else
    let lmap := indexTree st0.ltree
    let cmap := indexTree st0.ctree
    match runLoop1 oracle auto_resolve cmap lmap st0 with
    | ⟨st1, ops1, Except.error e⟩ => ⟨st1, ops1, Except.error e⟩
    | ⟨st1, ops1, Except.ok (n1, cs)⟩ =>
      match runLoop2 oracle lmap cmap st1 with
      | ⟨st2, ops2, Except.error e⟩ => ⟨st2, ops1 ++ ops2, Except.error e⟩
      | ⟨st2, ops2, Except.ok n2⟩ =>
        ⟨st2, ops1 ++ ops2, Except.ok
          { success := cs.isEmpty
            message :=
              if cs.isEmpty then
                "Successfully synced " ++ toString (n1 + n2) ++ " file(s)"
              else
                "Found " ++ toString cs.length ++ " conflict(s) - user resolution required"
            files_synced := n1 + n2
            conflicts := cs }⟩

/-- Mirror of the earlier desktop-app `SyncResult` (no conflicts field). -/
structure SyncResultV0 where
  success : Bool
  message : String
  files_synced : Nat
deriving DecidableEq, Repr

/-- Body of the first loop of the earlier desktop-app `sync_game_saves`:
for a path on both sides the strictly newer file silently overwrites the
other (equal timestamps: no action); a path missing from the cloud map
is copied local→cloud exactly as in the later revision. -/
def syncEntry1V0 (oracle : IOOracle) (cmap : List (RelPath × Nat))
    (st : St) (p : RelPath) (lm : Nat) : StepOut Nat :=
  match findEntry p cmap with
  | some cm =>
    if lm > cm then
      match copy_file oracle st (Side.loc, p) (Side.cld, p) with
      | ⟨st', ops, Except.error e⟩ => ⟨st', ops, Except.error e⟩
      | ⟨st', ops, Except.ok _⟩ => ⟨st', ops, Except.ok 1⟩
    else if cm > lm then
      match copy_file oracle st (Side.cld, p) (Side.loc, p) with
      | ⟨st', ops, Except.error e⟩ => ⟨st', ops, Except.error e⟩
      | ⟨st', ops, Except.ok _⟩ => ⟨st', ops, Except.ok 1⟩
    else
      ⟨st, [], Except.ok 0⟩
  | none =>
    match mkdir_all oracle st (Side.cld, p.dropLast) with
    | ⟨st', ops, Except.error e⟩ => ⟨st', ops, Except.error e⟩
    | ⟨st', ops, Except.ok _⟩ =>
      match copy_file oracle st' (Side.loc, p) (Side.cld, p) with
      | ⟨st'', ops', Except.error e⟩ => ⟨st'', ops ++ ops', Except.error e⟩
      | ⟨st'', ops', Except.ok _⟩ => ⟨st'', ops ++ ops', Except.ok 1⟩

/-- First loop of the earlier desktop-app engine. -/
def runLoop1V0 (oracle : IOOracle) (cmap : List (RelPath × Nat)) :
    List (RelPath × Nat) → St → StepOut Nat
  | [], st => ⟨st, [], Except.ok 0⟩
  | (p, lm) :: rest, st =>
    match syncEntry1V0 oracle cmap st p lm with
    | ⟨st', ops, Except.error e⟩ => ⟨st', ops, Except.error e⟩
    | ⟨st', ops, Except.ok k⟩ => combine2 k ops (runLoop1V0 oracle cmap rest st')

/-- Model of the earlier desktop-app `sync_game_saves`: same validation
and same second loop as the later revision, newest-wins first loop, and
a result whose `success` field is the literal `true`. -/
def sync_game_saves_v0 (oracle : IOOracle) (local_path cloud_path : String)
    (localRoot cloudRoot : RootState) : RunOut SyncResultV0 :=
  let st0 : St := ⟨localRoot.treeOf, cloudRoot.treeOf⟩
  if localRoot.pathExists = false then
    ⟨st0, [], Except.error ("Local path does not exist: " ++ local_path)⟩
  else if cloudRoot.pathExists = false then
    ⟨st0, [], Except.error ("Cloud path does not exist: " ++ cloud_path)⟩
  else
    let lmap := indexTree st0.ltree
    let cmap := indexTree st0.ctree
    match runLoop1V0 oracle cmap lmap st0 with
    | ⟨st1, ops1, Except.error e⟩ => ⟨st1, ops1, Except.error e⟩
    | ⟨st1, ops1, Except.ok n1⟩ =>
      match runLoop2 oracle lmap cmap st1 with
      | ⟨st2, ops2, Except.error e⟩ => ⟨st2, ops1 ++ ops2, Except.error e⟩
      | ⟨st2, ops2, Except.ok n2⟩ =>
        ⟨st2, ops1 ++ ops2, Except.ok
          { success := true
            message := "Successfully synced " ++ toString (n1 + n2) ++ " file(s)"
            files_synced := n1 + n2 }⟩

/-- Model of the Rust `resolve_conflict` command: a bare `copy_file`
local→cloud when `use_local` is true and cloud→local otherwise, with no
directory creation of any kind. -/
def resolve_conflict (oracle : IOOracle) (st : St)
    (localP cloudP : AbsPath) (use_local : Bool) : StepOut Unit :=
  if use_local then copy_file oracle st localP cloudP
  else copy_file oracle st cloudP localP

/-- Modelled from the spec: the Transfer primitive of section 4.4, which
is absent as a named unit in the source — copy a single file to a
destination after first creating all missing intermediate destination
directories (`create_dir_all` on the destination's parent). -/
def transferPrimitiveSpec (oracle : IOOracle) (st : St)
    (src dst : AbsPath) : StepOut Unit :=
  match mkdir_all oracle st (dst.1, dst.2.dropLast) with
  | ⟨st', ops, Except.error e⟩ => ⟨st', ops, Except.error e⟩
  | ⟨st', ops, Except.ok _⟩ =>
    match copy_file oracle st' src dst with
    | ⟨st'', ops', r⟩ => ⟨st'', ops ++ ops', r⟩

/-- The four classes of the tree diff. -/
inductive FileClass where
  | local_only : FileClass
  | cloud_only : FileClass
  | identical : FileClass
  | divergent : FileClass
deriving DecidableEq, Repr

/-- Classification of one relative path against the two indexes, read
off the branch structure of `sync_game_saves`: present in both with
bit-for-bit equal modification times is identical, present in both
otherwise is divergent, present on one side only is local-only or
cloud-only, absent from both is unclassified. -/
def classify (lmap cmap : List (RelPath × Nat)) (p : RelPath) : Option FileClass :=
  match findEntry p lmap, findEntry p cmap with
  | some lm, some cm =>
    some (if lm = cm then FileClass.identical else FileClass.divergent)
  | some _, none => some FileClass.local_only
  | none, some _ => some FileClass.cloud_only
  | none, none => none

/-- The three possible decisions for a divergent entry. -/
inductive SyncAction where
  | toCloud : SyncAction
  | toLocal : SyncAction
  | unresolved : SyncAction
deriving DecidableEq, Repr

/-- The policy dispatch of `sync_game_saves` for a divergent entry, read
off the Rust `match resolution.as_str()`: `"local"` copies local→cloud,
`"cloud"` copies cloud→local, `"newer"` copies the strictly newer side
(with the `else` branch, hence ties, copying cloud→local), and any other
or absent policy leaves the entry unresolved. -/
def resolveAction (auto : Option String) (lm cm : Nat) : SyncAction :=
  match auto with
  | some s =>
    if s = "local" then SyncAction.toCloud
    else if s = "cloud" then SyncAction.toLocal
    else if s = "newer" then
      if lm > cm then SyncAction.toCloud else SyncAction.toLocal
    else SyncAction.unresolved
  | none => SyncAction.unresolved

/-- Replay of one traced operation on a state: a copy re-performs the
write, directory creation and metadata reads do not touch the file map. -/
def applyOp (st : St) : Op → St
  | Op.copy src dst =>
    match st.read src with
    | some f => st.write dst f
    | none => st
  | _ => st

/-- Replay of a whole trace. -/
def applyTrace (st : St) (ops : List Op) : St :=
  ops.foldl applyOp st

/-- Whether an operation is a file copy. -/
def Op.isCopyOp : Op → Bool
  | Op.copy _ _ => true
  | _ => false

/-- Whether an operation is a directory creation. -/
def Op.isMkdirOp : Op → Bool
  | Op.mkdirAll _ => true
  | _ => false

/-- Whether an operation is a file copy whose source or destination has
the given relative path. -/
def Op.copyTouches (op : Op) (p : RelPath) : Bool :=
  match op with
  | Op.copy src dst => src.2 = p ∨ dst.2 = p
  | _ => false

/-! ### Association-list lemmas -/

theorem findEntry_nil {α : Type} (p : RelPath) : findEntry p ([] : List (RelPath × α)) = none := rfl

theorem findEntry_cons {α : Type} (p q : RelPath) (v : α) (l : List (RelPath × α)) :
    findEntry p ((q, v) :: l) = if q = p then some v else findEntry p l := rfl

theorem findEntry_setEntry_self {α : Type} (p : RelPath) (v : α) (l : List (RelPath × α)) :
    findEntry p (setEntry p v l) = some v := by
  induction l with
  | nil => simp [setEntry, findEntry]
  | cons hd tl ih =>
    obtain ⟨q, w⟩ := hd
    by_cases h : q = p
    · subst h
      simp [setEntry, findEntry]
    · simp [setEntry, findEntry, h, ih]

theorem findEntry_setEntry_ne {α : Type} {p q : RelPath} (h : q ≠ p) (v : α)
    (l : List (RelPath × α)) :
    findEntry p (setEntry q v l) = findEntry p l := by
  induction l with
  | nil => simp [setEntry, findEntry, h]
  | cons hd tl ih =>
    obtain ⟨r, w⟩ := hd
    by_cases hr : r = q
    · subst hr
      simp [setEntry, findEntry, h, ih]
    · simp [setEntry, findEntry, hr, ih]

theorem findEntry_mem {α : Type} {p : RelPath} {v : α} {l : List (RelPath × α)}
    (h : findEntry p l = some v) : (p, v) ∈ l := by
  induction l with
  | nil => simp [findEntry] at h
  | cons hd tl ih =>
    obtain ⟨q, w⟩ := hd
    by_cases hq : q = p
    · subst hq
      simp [findEntry] at h
      simp [h]
    · simp [findEntry, hq] at h
      exact List.mem_cons_of_mem _ (ih h)


theorem findEntry_isSome_of_mem {α : Type} {p : RelPath} {v : α} {l : List (RelPath × α)}
    (h : (p, v) ∈ l) : (findEntry p l).isSome := by
  induction l with
  | nil => simp at h
  | cons hd tl ih =>
    obtain ⟨q, w⟩ := hd
    by_cases hq : q = p
    · simp [findEntry, hq]
    · rcases List.mem_cons.mp h with h1 | h2
      · exfalso
        apply hq
        have := congrArg Prod.fst h1
        simpa using this.symm
      · simpa [findEntry, hq] using ih h2

theorem findEntry_isSome_iff {α : Type} {p : RelPath} {l : List (RelPath × α)} :
    (findEntry p l).isSome ↔ p ∈ keysOf l := by
  induction l with
  | nil => simp [findEntry, keysOf]
  | cons hd tl ih =>
    obtain ⟨q, w⟩ := hd
    by_cases hq : q = p
    · simp [findEntry, hq, keysOf]
    · simp only [findEntry, hq, if_false, keysOf, List.mem_cons]
      rw [ih]
      constructor
      · exact fun h => Or.inr h
      · rintro (h | h)
        · exact absurd h.symm hq
        · exact h

theorem findEntry_eq_none_iff {α : Type} {p : RelPath} {l : List (RelPath × α)} :
    findEntry p l = none ↔ p ∉ keysOf l := by
  rw [← findEntry_isSome_iff]
  cases h : findEntry p l <;> simp [h]

theorem findEntry_of_nodup_mem {α : Type} {p : RelPath} {v : α} {l : List (RelPath × α)}
    (hnd : (keysOf l).Nodup) (h : (p, v) ∈ l) : findEntry p l = some v := by
  induction l with
  | nil => simp at h
  | cons hd tl ih =>
    obtain ⟨q, w⟩ := hd
    rw [show keysOf ((q, w) :: tl) = q :: keysOf tl from rfl, List.nodup_cons] at hnd
    rcases List.mem_cons.mp h with h1 | h2
    · have hq : q = p := by
        have := congrArg Prod.fst h1
        simpa using this.symm
      have hw : w = v := by
        have := congrArg Prod.snd h1
        simpa using this.symm
      simp [findEntry, hq, hw]
    · have hq : q ≠ p := by
        intro hqp
        subst hqp
        apply hnd.1
        rw [← findEntry_isSome_iff]
        exact findEntry_isSome_of_mem h2
      simp only [findEntry, hq, if_false]
      exact ih hnd.2 h2

theorem keys_value_unique {α : Type} {p : RelPath} {v w : α} {l : List (RelPath × α)}
    (hnd : (keysOf l).Nodup) (hv : (p, v) ∈ l) (hw : (p, w) ∈ l) : v = w := by
  have h1 := findEntry_of_nodup_mem hnd hv
  have h2 := findEntry_of_nodup_mem hnd hw
  rw [h1] at h2
  exact Option.some.inj h2

theorem keysOf_setEntry {α : Type} (p : RelPath) (v : α) (l : List (RelPath × α)) :
    keysOf (setEntry p v l) = if p ∈ keysOf l then keysOf l else keysOf l ++ [p] := by
  induction l with
  | nil => simp [setEntry, keysOf]
  | cons hd tl ih =>
    obtain ⟨q, w⟩ := hd
    by_cases hq : q = p
    · subst hq
      simp [setEntry, keysOf]
    · simp only [setEntry, hq, if_false, keysOf, ih]
      by_cases hmem : p ∈ keysOf tl
      · simp [hmem, List.mem_cons, Ne.symm hq]
      · simp [hmem, List.mem_cons, Ne.symm hq]

theorem nodup_keys_setEntry {α : Type} {l : List (RelPath × α)} (p : RelPath) (v : α)
    (hnd : (keysOf l).Nodup) : (keysOf (setEntry p v l)).Nodup := by
  rw [keysOf_setEntry]
  by_cases hmem : p ∈ keysOf l
  · simpa [hmem] using hnd
  · simp only [hmem, if_false]
    rw [List.nodup_append]
    exact ⟨hnd, List.nodup_singleton p, by simpa using hmem⟩

theorem findEntry_indexTree (p : RelPath) (t : FsTree) :
    findEntry p (indexTree t) = (findEntry p t).map File.modified := by
  induction t with
  | nil => simp [indexTree, findEntry]
  | cons hd tl ih =>
    obtain ⟨q, f⟩ := hd
    by_cases hq : q = p
    · simp [indexTree, findEntry, hq]
    · simpa [indexTree, findEntry, hq] using ih

theorem keysOf_indexTree (t : FsTree) : keysOf (indexTree t) = keysOf t := by
  induction t with
  | nil => rfl
  | cons hd tl ih =>
    obtain ⟨q, f⟩ := hd
    show q :: keysOf (indexTree tl) = q :: keysOf tl
    rw [ih]

theorem mem_indexTree {p : RelPath} {m : Nat} {t : FsTree} :
    (p, m) ∈ indexTree t ↔ ∃ f : File, (p, f) ∈ t ∧ f.modified = m := by
  simp only [indexTree, List.mem_map]
  constructor
  · rintro ⟨⟨q, f⟩, hmem, heq⟩
    have hq : q = p := by
      have := congrArg Prod.fst heq
      simpa using this
    have hm : f.modified = m := by
      have := congrArg Prod.snd heq
      simpa using this
    exact ⟨f, hq ▸ hmem, hm⟩
  · rintro ⟨f, hmem, hm⟩
    exact ⟨(p, f), hmem, by simp [hm]⟩

/-! ### State read/write lemmas -/

theorem St.read_write (st : St) (x y : AbsPath) (f : File) :
    (st.write x f).read y = if x = y then some f else st.read y := by
  obtain ⟨xs, xp⟩ := x
  obtain ⟨ys, yp⟩ := y
  cases xs <;> cases ys <;> by_cases hp : xp = yp <;>
    simp [St.write, St.read, hp, findEntry_setEntry_self, findEntry_setEntry_ne,
      Prod.ext_iff]

theorem St.read_write_self (st : St) (x : AbsPath) (f : File) :
    (st.write x f).read x = some f := by
  simp [St.read_write]

theorem St.read_write_ne {x y : AbsPath} (st : St) (f : File) (h : x ≠ y) :
    (st.write x f).read y = st.read y := by
  simp [St.read_write, h]

theorem St.isSome_read_write (st : St) (x y : AbsPath) (f : File)
    (h : (st.read y).isSome) : ((st.write x f).read y).isSome := by
  rw [St.read_write]
  by_cases hxy : x = y <;> simp [hxy, h]

/-- Both trees of a state have duplicate-free keys. -/
def StNodup (st : St) : Prop :=
  (keysOf st.ltree).Nodup ∧ (keysOf st.ctree).Nodup

theorem StNodup.write {st : St} (h : StNodup st) (x : AbsPath) (f : File) :
    StNodup (st.write x f) := by
  obtain ⟨xs, xp⟩ := x
  cases xs
  · exact ⟨nodup_keys_setEntry xp f h.1, h.2⟩
  · exact ⟨h.1, nodup_keys_setEntry xp f h.2⟩

/-! ### Characterizations of the primitive I/O steps -/

theorem copy_file_ok {oracle : IOOracle} {st : St} {src dst : AbsPath} {v : Unit}
    (h : (copy_file oracle st src dst).res = Except.ok v) :
    ∃ f, st.read src = some f ∧ oracle (Op.copy src dst) = none ∧
      copy_file oracle st src dst = ⟨st.write dst f, [Op.copy src dst], Except.ok ()⟩ := by
  cases ho : oracle (Op.copy src dst) with
  | some e => simp [copy_file, ho] at h
  | none =>
    cases hr : st.read src with
    | none => simp [copy_file, ho, hr] at h
    | some f => exact ⟨f, rfl, rfl, by simp [copy_file, ho, hr]⟩

theorem copy_file_error {oracle : IOOracle} {st : St} {src dst : AbsPath} {e : String}
    (h : (copy_file oracle st src dst).res = Except.error e) :
    copy_file oracle st src dst = ⟨st, [], Except.error e⟩ ∧
      (oracle (Op.copy src dst) = some e ∨ st.read src = none) := by
  cases ho : oracle (Op.copy src dst) with
  | some e' =>
    have he : e' = e := by simpa [copy_file, ho] using h
    subst he
    exact ⟨by simp [copy_file, ho], Or.inl rfl⟩
  | none =>
    cases hr : st.read src with
    | none =>
      have he : "No such file or directory (os error 2)" = e := by
        simpa [copy_file, ho, hr] using h
      exact ⟨by simp [copy_file, ho, hr, he], Or.inr rfl⟩
    | some f => simp [copy_file, ho, hr] at h

theorem copy_file_of_none {oracle : IOOracle} {st : St} {src dst : AbsPath} {f : File}
    (ho : oracle (Op.copy src dst) = none) (hr : st.read src = some f) :
    copy_file oracle st src dst = ⟨st.write dst f, [Op.copy src dst], Except.ok ()⟩ := by
  unfold copy_file
  rw [ho, hr]

theorem copy_file_of_isSome {oracle : IOOracle} {st : St} {src dst : AbsPath} {e : String}
    (hr : (st.read src).isSome)
    (h : (copy_file oracle st src dst).res = Except.error e) :
    oracle (Op.copy src dst) = some e := by
  rcases (copy_file_error h).2 with h1 | h1
  · exact h1
  · rw [h1] at hr; simp at hr

theorem mkdir_all_cases (oracle : IOOracle) (st : St) (d : AbsPath) :
    mkdir_all oracle st d = ⟨st, [Op.mkdirAll d], Except.ok ()⟩ ∧ oracle (Op.mkdirAll d) = none ∨
    ∃ e, mkdir_all oracle st d = ⟨st, [], Except.error e⟩ ∧ oracle (Op.mkdirAll d) = some e := by
  unfold mkdir_all
  cases ho : oracle (Op.mkdirAll d) with
  | some e => exact Or.inr ⟨e, rfl, rfl⟩
  | none => exact Or.inl ⟨rfl, rfl⟩

theorem recordConflict_cases (oracle : IOOracle) (st : St) (p : RelPath) (lm cm : Nat) :
    recordConflict oracle st p lm cm =
      ⟨st, [Op.metadata (Side.loc, p), Op.metadata (Side.cld, p)],
        Except.ok (0, [⟨p, (Side.loc, p), (Side.cld, p), lm, cm,
          sizeAt st (Side.loc, p), sizeAt st (Side.cld, p)⟩])⟩ ∨
    ∃ e ops, recordConflict oracle st p lm cm = ⟨st, ops, Except.error e⟩ ∧
      (oracle (Op.metadata (Side.loc, p)) = some e ∨
        oracle (Op.metadata (Side.cld, p)) = some e) ∧
      (∀ op ∈ ops, op.isCopyOp = false ∧ oracle op = none) := by
  unfold recordConflict
  cases h1 : oracle (Op.metadata (Side.loc, p)) with
  | some e => exact Or.inr ⟨e, [], rfl, Or.inl rfl, by simp⟩
  | none =>
    cases h2 : oracle (Op.metadata (Side.cld, p)) with
    | some e =>
      refine Or.inr ⟨e, [Op.metadata (Side.loc, p)], rfl, Or.inr rfl, ?_⟩
      intro op hop
      simp at hop
      subst hop
      exact ⟨rfl, h1⟩
    | none => exact Or.inl rfl

/-! ### Replay of a trace -/

theorem applyTrace_nil (st : St) : applyTrace st [] = st := rfl

theorem applyTrace_append (st : St) (t1 t2 : List Op) :
    applyTrace st (t1 ++ t2) = applyTrace (applyTrace st t1) t2 := by
  simp [applyTrace, List.foldl_append]

theorem applyTrace_cons (st : St) (op : Op) (t : List Op) :
    applyTrace st (op :: t) = applyTrace (applyOp st op) t := rfl

/-! ### Characterizations of `copyCounted` -/

theorem copyCounted_eq (oracle : IOOracle) (st : St) (src dst : AbsPath) :
    copyCounted oracle st src dst =
      ⟨(copy_file oracle st src dst).st, (copy_file oracle st src dst).ops,
        (copy_file oracle st src dst).res.map (fun _ => (1, []))⟩ := by
  unfold copyCounted
  rcases h : copy_file oracle st src dst with ⟨st', ops, res⟩
  cases res <;> simp [Except.map]

theorem copyCounted_ok {oracle : IOOracle} {st : St} {src dst : AbsPath}
    {v : Nat × List FileConflict}
    (h : (copyCounted oracle st src dst).res = Except.ok v) :
    v = (1, []) ∧ ∃ f, st.read src = some f ∧ oracle (Op.copy src dst) = none ∧
      copyCounted oracle st src dst =
        ⟨st.write dst f, [Op.copy src dst], Except.ok (1, [])⟩ := by
  rw [copyCounted_eq] at h
  cases hres : (copy_file oracle st src dst).res with
  | error e => rw [hres] at h; simp [Except.map] at h
  | ok u =>
    rw [hres] at h
    simp only [Except.map] at h
    have hv := (Except.ok.inj h).symm
    obtain ⟨f, hf, ho, hcf⟩ := copy_file_ok hres
    exact ⟨hv, f, hf, ho, by rw [copyCounted_eq, hcf]; simp [Except.map]⟩

theorem copyCounted_error {oracle : IOOracle} {st : St} {src dst : AbsPath} {e : String}
    (h : (copyCounted oracle st src dst).res = Except.error e) :
    copyCounted oracle st src dst = ⟨st, [], Except.error e⟩ ∧
      (oracle (Op.copy src dst) = some e ∨ st.read src = none) := by
  rw [copyCounted_eq] at h
  cases hres : (copy_file oracle st src dst).res with
  | ok u => rw [hres] at h; simp [Except.map] at h
  | error e' =>
    rw [hres] at h
    simp only [Except.map] at h
    have he := Except.error.inj h
    subst he
    obtain ⟨hcf, hcause⟩ := copy_file_error hres
    exact ⟨by rw [copyCounted_eq, hcf]; simp [Except.map], hcause⟩

theorem copyCounted_of_none {oracle : IOOracle} {st : St} {src dst : AbsPath} {f : File}
    (ho : oracle (Op.copy src dst) = none) (hr : st.read src = some f) :
    copyCounted oracle st src dst =
      ⟨st.write dst f, [Op.copy src dst], Except.ok (1, [])⟩ := by
  rw [copyCounted_eq, copy_file_of_none ho hr]
  simp [Except.map]

/-! ### Branch structure of the first-loop entry step -/

theorem syncEntry1_identical (oracle : IOOracle) (auto : Option String)
    (cmap : List (RelPath × Nat)) (st : St) (p : RelPath) (lm : Nat)
    (hc : findEntry p cmap = some lm) :
    syncEntry1 oracle auto cmap st p lm = ⟨st, [], Except.ok (0, [])⟩ := by
  unfold syncEntry1
  rw [hc]
  simp

theorem syncEntry1_divergent (oracle : IOOracle) (auto : Option String)
    (cmap : List (RelPath × Nat)) (st : St) (p : RelPath) {lm cm : Nat}
    (hc : findEntry p cmap = some cm) (hne : lm ≠ cm) :
    syncEntry1 oracle auto cmap st p lm =
      match resolveAction auto lm cm with
      | SyncAction.toCloud => copyCounted oracle st (Side.loc, p) (Side.cld, p)
      | SyncAction.toLocal => copyCounted oracle st (Side.cld, p) (Side.loc, p)
      | SyncAction.unresolved => recordConflict oracle st p lm cm := by
  unfold syncEntry1 resolveAction
  rw [hc]
  cases auto with
  | none => simp [hne]
  | some s =>
    by_cases h1 : s = "local"
    · simp [hne, h1]
    · by_cases h2 : s = "cloud"
      · simp [hne, h1, h2]
      · by_cases h3 : s = "newer"
        · by_cases h4 : lm > cm <;> simp [hne, h1, h2, h3, h4]
        · simp [hne, h1, h2, h3]

theorem syncEntry1_localOnly (oracle : IOOracle) (auto : Option String)
    (cmap : List (RelPath × Nat)) (st : St) (p : RelPath) (lm : Nat)
    (hc : findEntry p cmap = none) :
    syncEntry1 oracle auto cmap st p lm =
      match mkdir_all oracle st (Side.cld, p.dropLast) with
      | ⟨st', ops, Except.error e⟩ => ⟨st', ops, Except.error e⟩
      | ⟨st', ops, Except.ok _⟩ =>
        match copyCounted oracle st' (Side.loc, p) (Side.cld, p) with
        | ⟨st'', ops', r⟩ => ⟨st'', ops ++ ops', r⟩ := by
  unfold syncEntry1
  rw [hc]

/-- Divergent entry whose policy dispatch cannot resolve it. -/
def entryConflicts (auto : Option String) (cmap : List (RelPath × Nat))
    (p : RelPath) (lm : Nat) : Prop :=
  ∃ cm, findEntry p cmap = some cm ∧ lm ≠ cm ∧
    resolveAction auto lm cm = SyncAction.unresolved

/-- Exhaustive shape of one first-loop entry step. -/
theorem syncEntry1_shape (oracle : IOOracle) (auto : Option String)
    (cmap : List (RelPath × Nat)) (st : St) (p : RelPath) (lm : Nat) :
    (findEntry p cmap = some lm ∧
      syncEntry1 oracle auto cmap st p lm = ⟨st, [], Except.ok (0, [])⟩) ∨
    (∃ cm, findEntry p cmap = some cm ∧ lm ≠ cm ∧
      resolveAction auto lm cm = SyncAction.toCloud ∧
      syncEntry1 oracle auto cmap st p lm = copyCounted oracle st (Side.loc, p) (Side.cld, p)) ∨
    (∃ cm, findEntry p cmap = some cm ∧ lm ≠ cm ∧
      resolveAction auto lm cm = SyncAction.toLocal ∧
      syncEntry1 oracle auto cmap st p lm = copyCounted oracle st (Side.cld, p) (Side.loc, p)) ∨
    (∃ cm, findEntry p cmap = some cm ∧ lm ≠ cm ∧
      resolveAction auto lm cm = SyncAction.unresolved ∧
      syncEntry1 oracle auto cmap st p lm = recordConflict oracle st p lm cm) ∨
    (findEntry p cmap = none ∧
      syncEntry1 oracle auto cmap st p lm =
        match mkdir_all oracle st (Side.cld, p.dropLast) with
        | ⟨st', ops, Except.error e⟩ => ⟨st', ops, Except.error e⟩
        | ⟨st', ops, Except.ok _⟩ =>
          match copyCounted oracle st' (Side.loc, p) (Side.cld, p) with
          | ⟨st'', ops', r⟩ => ⟨st'', ops ++ ops', r⟩) := by
  rcases hc : findEntry p cmap with _ | cm
  · exact Or.inr (Or.inr (Or.inr (Or.inr ⟨rfl, syncEntry1_localOnly _ _ _ _ _ _ hc⟩)))
  · by_cases hne : lm = cm
    · subst hne
      exact Or.inl ⟨rfl, syncEntry1_identical _ _ _ _ _ _ hc⟩
    · have hd := syncEntry1_divergent oracle auto cmap st p hc hne
      rcases hra : resolveAction auto lm cm with _ | _ | _
      · rw [hra] at hd
        exact Or.inr (Or.inl ⟨cm, rfl, hne, hra, hd⟩)
      · rw [hra] at hd
        exact Or.inr (Or.inr (Or.inl ⟨cm, rfl, hne, hra, hd⟩))
      · rw [hra] at hd
        exact Or.inr (Or.inr (Or.inr (Or.inl ⟨cm, rfl, hne, hra, hd⟩)))

theorem copyCounted_cases (oracle : IOOracle) (st : St) (src dst : AbsPath) :
    (∃ f, st.read src = some f ∧ oracle (Op.copy src dst) = none ∧
      copyCounted oracle st src dst =
        ⟨st.write dst f, [Op.copy src dst], Except.ok (1, [])⟩) ∨
    (∃ e, copyCounted oracle st src dst = ⟨st, [], Except.error e⟩ ∧
      (oracle (Op.copy src dst) = some e ∨ st.read src = none)) := by
  cases hres : (copyCounted oracle st src dst).res with
  | ok v =>
    obtain ⟨hv, f, hf, ho, hcc⟩ := copyCounted_ok hres
    exact Or.inl ⟨f, hf, ho, hcc⟩
  | error e =>
    obtain ⟨hcc, hcause⟩ := copyCounted_error hres
    exact Or.inr ⟨e, hcc, hcause⟩

theorem syncEntry1_localOnly_cases (oracle : IOOracle) (auto : Option String)
    (cmap : List (RelPath × Nat)) (st : St) (p : RelPath) (lm : Nat)
    (hc : findEntry p cmap = none) :
    (∃ f, st.read (Side.loc, p) = some f ∧
      oracle (Op.mkdirAll (Side.cld, p.dropLast)) = none ∧
      oracle (Op.copy (Side.loc, p) (Side.cld, p)) = none ∧
      syncEntry1 oracle auto cmap st p lm =
        ⟨st.write (Side.cld, p) f,
          [Op.mkdirAll (Side.cld, p.dropLast), Op.copy (Side.loc, p) (Side.cld, p)],
          Except.ok (1, [])⟩) ∨
    (∃ e, syncEntry1 oracle auto cmap st p lm = ⟨st, [], Except.error e⟩ ∧
      oracle (Op.mkdirAll (Side.cld, p.dropLast)) = some e) ∨
    (∃ e, syncEntry1 oracle auto cmap st p lm =
        ⟨st, [Op.mkdirAll (Side.cld, p.dropLast)], Except.error e⟩ ∧
      oracle (Op.mkdirAll (Side.cld, p.dropLast)) = none ∧
      (oracle (Op.copy (Side.loc, p) (Side.cld, p)) = some e ∨
        st.read (Side.loc, p) = none)) := by
  rw [syncEntry1_localOnly oracle auto cmap st p lm hc]
  rcases mkdir_all_cases oracle st (Side.cld, p.dropLast) with ⟨hm, ho⟩ | ⟨e, hm, ho⟩
  · rw [hm]
    dsimp only
    rcases copyCounted_cases oracle st (Side.loc, p) (Side.cld, p) with
      ⟨f, hf, ho2, hcc⟩ | ⟨e, hcc, hcause⟩
    · rw [hcc]
      exact Or.inl ⟨f, hf, ho, ho2, rfl⟩
    · rw [hcc]
      exact Or.inr (Or.inr ⟨e, rfl, ho, hcause⟩)
  · rw [hm]
    dsimp only
    exact Or.inr (Or.inl ⟨e, rfl, ho⟩)

theorem syncEntry2_skip (oracle : IOOracle) (lmap : List (RelPath × Nat))
    (st : St) (p : RelPath) {m : Nat} (hl : findEntry p lmap = some m) :
    syncEntry2 oracle lmap st p = ⟨st, [], Except.ok 0⟩ := by
  unfold syncEntry2
  rw [hl]

theorem syncEntry2_cases (oracle : IOOracle) (lmap : List (RelPath × Nat))
    (st : St) (p : RelPath) (hl : findEntry p lmap = none) :
    (∃ f, st.read (Side.cld, p) = some f ∧
      oracle (Op.mkdirAll (Side.loc, p.dropLast)) = none ∧
      oracle (Op.copy (Side.cld, p) (Side.loc, p)) = none ∧
      syncEntry2 oracle lmap st p =
        ⟨st.write (Side.loc, p) f,
          [Op.mkdirAll (Side.loc, p.dropLast), Op.copy (Side.cld, p) (Side.loc, p)],
          Except.ok 1⟩) ∨
    (∃ e, syncEntry2 oracle lmap st p = ⟨st, [], Except.error e⟩ ∧
      oracle (Op.mkdirAll (Side.loc, p.dropLast)) = some e) ∨
    (∃ e, syncEntry2 oracle lmap st p =
        ⟨st, [Op.mkdirAll (Side.loc, p.dropLast)], Except.error e⟩ ∧
      oracle (Op.mkdirAll (Side.loc, p.dropLast)) = none ∧
      (oracle (Op.copy (Side.cld, p) (Side.loc, p)) = some e ∨
        st.read (Side.cld, p) = none)) := by
  unfold syncEntry2
  rw [hl]
  dsimp only
  rcases mkdir_all_cases oracle st (Side.loc, p.dropLast) with ⟨hm, ho⟩ | ⟨e, hm, ho⟩
  · rw [hm]
    dsimp only
    cases hres : (copy_file oracle st (Side.cld, p) (Side.loc, p)).res with
    | ok u =>
      obtain ⟨f, hf, ho2, hcf⟩ := copy_file_ok hres
      rw [hcf]
      exact Or.inl ⟨f, hf, ho, ho2, rfl⟩
    | error e =>
      obtain ⟨hcf, hcause⟩ := copy_file_error hres
      rw [hcf]
      exact Or.inr (Or.inr ⟨e, rfl, ho, hcause⟩)
  · rw [hm]
    dsimp only
    exact Or.inr (Or.inl ⟨e, rfl, ho⟩)

theorem recordConflict_res_ok {oracle : IOOracle} {st : St} {p : RelPath} {lm cm : Nat}
    {v : Nat × List FileConflict}
    (h : (recordConflict oracle st p lm cm).res = Except.ok v) :
    v = (0, [⟨p, (Side.loc, p), (Side.cld, p), lm, cm,
      sizeAt st (Side.loc, p), sizeAt st (Side.cld, p)⟩]) := by
  rcases recordConflict_cases oracle st p lm cm with hrc | ⟨e, ops, hrc, _, _⟩
  · rw [hrc] at h
    exact (Except.ok.inj h).symm
  · rw [hrc] at h
    simp at h

theorem applyOp_mkdir (st : St) (d : AbsPath) : applyOp st (Op.mkdirAll d) = st := rfl

theorem applyOp_metadata (st : St) (a : AbsPath) : applyOp st (Op.metadata a) = st := rfl

theorem applyOp_copy_of_read {st : St} {src dst : AbsPath} {f : File}
    (h : st.read src = some f) : applyOp st (Op.copy src dst) = st.write dst f := by
  simp [applyOp, h]

theorem recordConflict_trace (oracle : IOOracle) (st : St) (p : RelPath) (lm cm : Nat) :
    ∀ op ∈ (recordConflict oracle st p lm cm).ops,
      oracle op = none ∧ op.isCopyOp = false := by
  intro op hop
  unfold recordConflict at hop
  cases h1 : oracle (Op.metadata (Side.loc, p)) with
  | some e => rw [h1] at hop; simp at hop
  | none =>
    rw [h1] at hop
    cases h2 : oracle (Op.metadata (Side.cld, p)) with
    | some e =>
      rw [h2] at hop
      simp at hop
      subst hop
      exact ⟨h1, rfl⟩
    | none =>
      rw [h2] at hop
      simp at hop
      rcases hop with hop | hop <;> subst hop
      · exact ⟨h1, rfl⟩
      · exact ⟨h2, rfl⟩

theorem recordConflict_st (oracle : IOOracle) (st : St) (p : RelPath) (lm cm : Nat) :
    (recordConflict oracle st p lm cm).st = st := by
  rcases recordConflict_cases oracle st p lm cm with h | ⟨e, ops, h, _, _⟩ <;> rw [h]

theorem applyTrace_non_copy {st : St} {ops : List Op}
    (h : ∀ op ∈ ops, op.isCopyOp = false) : applyTrace st ops = st := by
  induction ops generalizing st with
  | nil => rfl
  | cons op rest ih =>
    rw [applyTrace_cons]
    have hop := h op (List.mem_cons_self op rest)
    have hrest : ∀ o ∈ rest, o.isCopyOp = false :=
      fun o ho => h o (List.mem_cons_of_mem op ho)
    cases op with
    | mkdirAll d => rw [applyOp_mkdir]; exact ih hrest
    | metadata a => rw [applyOp_metadata]; exact ih hrest
    | copy s d => simp [Op.isCopyOp] at hop

/-! ### Derived facts about one first-loop entry -/

theorem syncEntry1_ops (oracle : IOOracle) (auto : Option String)
    (cmap : List (RelPath × Nat)) (st : St) (p : RelPath) (lm : Nat) :
    ∀ op ∈ (syncEntry1 oracle auto cmap st p lm).ops,
      op = Op.copy (Side.loc, p) (Side.cld, p) ∨ op = Op.copy (Side.cld, p) (Side.loc, p) ∨
      op = Op.mkdirAll (Side.cld, p.dropLast) ∨ op = Op.metadata (Side.loc, p) ∨
      op = Op.metadata (Side.cld, p) := by
  intro op hop
  rcases syncEntry1_shape oracle auto cmap st p lm with
    ⟨hc, hs⟩ | ⟨cm, hc, hne, hra, hs⟩ | ⟨cm, hc, hne, hra, hs⟩ | ⟨cm, hc, hne, hra, hs⟩ | ⟨hc, hs⟩
  · rw [hs] at hop; simp at hop
  · rw [hs] at hop
    rcases copyCounted_cases oracle st (Side.loc, p) (Side.cld, p) with
      ⟨f, _, _, hcc⟩ | ⟨e, hcc, _⟩ <;> rw [hcc] at hop <;> simp at hop
    simp [hop]
  · rw [hs] at hop
    rcases copyCounted_cases oracle st (Side.cld, p) (Side.loc, p) with
      ⟨f, _, _, hcc⟩ | ⟨e, hcc, _⟩ <;> rw [hcc] at hop <;> simp at hop
    simp [hop]
  · rw [hs] at hop
    unfold recordConflict at hop
    cases h1 : oracle (Op.metadata (Side.loc, p)) with
    | some e => rw [h1] at hop; simp at hop
    | none =>
      rw [h1] at hop
      cases h2 : oracle (Op.metadata (Side.cld, p)) with
      | some e => rw [h2] at hop; simp at hop; simp [hop]
      | none => rw [h2] at hop; simp at hop; rcases hop with hop | hop <;> simp [hop]
  · rcases syncEntry1_localOnly_cases oracle auto cmap st p lm hc with
      ⟨f, _, _, _, hs'⟩ | ⟨e, hs', _⟩ | ⟨e, hs', _, _⟩ <;> rw [hs'] at hop <;> simp at hop
    · rcases hop with hop | hop <;> simp [hop]
    · simp [hop]

theorem syncEntry1_trace_ok (oracle : IOOracle) (auto : Option String)
    (cmap : List (RelPath × Nat)) (st : St) (p : RelPath) (lm : Nat) :
    ∀ op ∈ (syncEntry1 oracle auto cmap st p lm).ops, oracle op = none := by
  intro op hop
  rcases syncEntry1_shape oracle auto cmap st p lm with
    ⟨hc, hs⟩ | ⟨cm, hc, hne, hra, hs⟩ | ⟨cm, hc, hne, hra, hs⟩ | ⟨cm, hc, hne, hra, hs⟩ | ⟨hc, hs⟩
  · rw [hs] at hop; simp at hop
  · rw [hs] at hop
    rcases copyCounted_cases oracle st (Side.loc, p) (Side.cld, p) with
      ⟨f, _, ho, hcc⟩ | ⟨e, hcc, _⟩ <;> rw [hcc] at hop <;> simp at hop
    rw [hop]; exact ho
  · rw [hs] at hop
    rcases copyCounted_cases oracle st (Side.cld, p) (Side.loc, p) with
      ⟨f, _, ho, hcc⟩ | ⟨e, hcc, _⟩ <;> rw [hcc] at hop <;> simp at hop
    rw [hop]; exact ho
  · rw [hs] at hop
    exact (recordConflict_trace oracle st p lm cm op hop).1
  · rcases syncEntry1_localOnly_cases oracle auto cmap st p lm hc with
      ⟨f, _, ho, ho2, hs'⟩ | ⟨e, hs', _⟩ | ⟨e, hs', ho, _⟩ <;> rw [hs'] at hop <;> simp at hop
    · rcases hop with hop | hop <;> rw [hop]
      · exact ho
      · exact ho2
    · rw [hop]; exact ho

theorem syncEntry1_st_shape (oracle : IOOracle) (auto : Option String)
    (cmap : List (RelPath × Nat)) (st : St) (p : RelPath) (lm : Nat) :
    (syncEntry1 oracle auto cmap st p lm).st = st ∨
    ∃ (a : AbsPath) (f : File), a.2 = p ∧
      (syncEntry1 oracle auto cmap st p lm).st = st.write a f := by
  rcases syncEntry1_shape oracle auto cmap st p lm with
    ⟨hc, hs⟩ | ⟨cm, hc, hne, hra, hs⟩ | ⟨cm, hc, hne, hra, hs⟩ | ⟨cm, hc, hne, hra, hs⟩ | ⟨hc, hs⟩
  · rw [hs]; exact Or.inl rfl
  · rw [hs]
    rcases copyCounted_cases oracle st (Side.loc, p) (Side.cld, p) with
      ⟨f, _, _, hcc⟩ | ⟨e, hcc, _⟩ <;> rw [hcc]
    · exact Or.inr ⟨(Side.cld, p), f, rfl, rfl⟩
    · exact Or.inl rfl
  · rw [hs]
    rcases copyCounted_cases oracle st (Side.cld, p) (Side.loc, p) with
      ⟨f, _, _, hcc⟩ | ⟨e, hcc, _⟩ <;> rw [hcc]
    · exact Or.inr ⟨(Side.loc, p), f, rfl, rfl⟩
    · exact Or.inl rfl
  · rw [hs]
    exact Or.inl (recordConflict_st oracle st p lm cm)
  · rcases syncEntry1_localOnly_cases oracle auto cmap st p lm hc with
      ⟨f, _, _, _, hs'⟩ | ⟨e, hs', _⟩ | ⟨e, hs', _, _⟩ <;> rw [hs']
    · exact Or.inr ⟨(Side.cld, p), f, rfl, rfl⟩
    · exact Or.inl rfl
    · exact Or.inl rfl

theorem syncEntry1_applyTrace (oracle : IOOracle) (auto : Option String)
    (cmap : List (RelPath × Nat)) (st : St) (p : RelPath) (lm : Nat) :
    (syncEntry1 oracle auto cmap st p lm).st =
      applyTrace st (syncEntry1 oracle auto cmap st p lm).ops := by
  rcases syncEntry1_shape oracle auto cmap st p lm with
    ⟨hc, hs⟩ | ⟨cm, hc, hne, hra, hs⟩ | ⟨cm, hc, hne, hra, hs⟩ | ⟨cm, hc, hne, hra, hs⟩ | ⟨hc, hs⟩
  · rw [hs]; rfl
  · rw [hs]
    rcases copyCounted_cases oracle st (Side.loc, p) (Side.cld, p) with
      ⟨f, hf, _, hcc⟩ | ⟨e, hcc, _⟩ <;> rw [hcc]
    · simp [applyTrace, applyOp_copy_of_read hf]
    · rfl
  · rw [hs]
    rcases copyCounted_cases oracle st (Side.cld, p) (Side.loc, p) with
      ⟨f, hf, _, hcc⟩ | ⟨e, hcc, _⟩ <;> rw [hcc]
    · simp [applyTrace, applyOp_copy_of_read hf]
    · rfl
  · rw [hs]
    rw [recordConflict_st oracle st p lm cm]
    exact (applyTrace_non_copy
      (fun op hop => (recordConflict_trace oracle st p lm cm op hop).2)).symm
  · rcases syncEntry1_localOnly_cases oracle auto cmap st p lm hc with
      ⟨f, hf, _, _, hs'⟩ | ⟨e, hs', _⟩ | ⟨e, hs', _, _⟩ <;> rw [hs']
    · simp [applyTrace, applyOp_mkdir, applyOp_copy_of_read hf]
    · rfl
    · rfl

theorem syncEntry1_conflict_no_copy {auto : Option String} {cmap : List (RelPath × Nat)}
    {p : RelPath} {lm : Nat} (hec : entryConflicts auto cmap p lm)
    (oracle : IOOracle) (st : St) :
    ∀ op ∈ (syncEntry1 oracle auto cmap st p lm).ops, op.isCopyOp = false := by
  obtain ⟨cm, hc, hne, hra⟩ := hec
  have hd := syncEntry1_divergent oracle auto cmap st p hc hne
  rw [hra] at hd
  rw [hd]
  exact fun op hop => (recordConflict_trace oracle st p lm cm op hop).2

theorem syncEntry1_ok_facts {oracle : IOOracle} {auto : Option String}
    {cmap : List (RelPath × Nat)} {st : St} {p : RelPath} {lm : Nat}
    {k : Nat} {cs : List FileConflict}
    (h : (syncEntry1 oracle auto cmap st p lm).res = Except.ok (k, cs)) :
    k = ((syncEntry1 oracle auto cmap st p lm).ops.filter Op.isCopyOp).length ∧
    (cs = [] ∨ ∃ rec : FileConflict, cs = [rec] ∧ rec.relative_path = p ∧
      entryConflicts auto cmap p lm) := by
  rcases syncEntry1_shape oracle auto cmap st p lm with
    ⟨hc, hs⟩ | ⟨cm, hc, hne, hra, hs⟩ | ⟨cm, hc, hne, hra, hs⟩ | ⟨cm, hc, hne, hra, hs⟩ | ⟨hc, hs⟩
  · rw [hs] at h ⊢
    simp at h
    simp [h.1, h.2]
  · rw [hs] at h ⊢
    rcases copyCounted_cases oracle st (Side.loc, p) (Side.cld, p) with
      ⟨f, _, _, hcc⟩ | ⟨e, hcc, _⟩ <;> rw [hcc] at h ⊢
    · simp at h
      simp [h.1, h.2, Op.isCopyOp]
    · simp at h
  · rw [hs] at h ⊢
    rcases copyCounted_cases oracle st (Side.cld, p) (Side.loc, p) with
      ⟨f, _, _, hcc⟩ | ⟨e, hcc, _⟩ <;> rw [hcc] at h ⊢
    · simp at h
      simp [h.1, h.2, Op.isCopyOp]
    · simp at h
  · rw [hs] at h ⊢
    rcases recordConflict_cases oracle st p lm cm with hrc | ⟨e, ops, hrc, _, _⟩ <;>
      rw [hrc] at h ⊢
    · simp at h
      refine ⟨by simp [h.1, Op.isCopyOp], Or.inr ⟨_, h.2.symm, rfl, cm, hc, hne, hra⟩⟩
    · simp at h
  · rcases syncEntry1_localOnly_cases oracle auto cmap st p lm hc with
      ⟨f, _, _, _, hs'⟩ | ⟨e, hs', _⟩ | ⟨e, hs', _, _⟩ <;> rw [hs'] at h ⊢ <;> simp at h
    simp [h.1, h.2, Op.isCopyOp]

theorem syncEntry1_error {oracle : IOOracle} {auto : Option String}
    {cmap : List (RelPath × Nat)} {st : St} {p : RelPath} {lm : Nat} {e : String}
    (hploc : (st.read (Side.loc, p)).isSome)
    (hpcld : ∀ cm, findEntry p cmap = some cm → (st.read (Side.cld, p)).isSome)
    (h : (syncEntry1 oracle auto cmap st p lm).res = Except.error e) :
    ∃ op, oracle op = some e := by
  rcases syncEntry1_shape oracle auto cmap st p lm with
    ⟨hc, hs⟩ | ⟨cm, hc, hne, hra, hs⟩ | ⟨cm, hc, hne, hra, hs⟩ | ⟨cm, hc, hne, hra, hs⟩ | ⟨hc, hs⟩
  · rw [hs] at h; simp at h
  · rw [hs] at h
    rcases copyCounted_cases oracle st (Side.loc, p) (Side.cld, p) with
      ⟨f, _, _, hcc⟩ | ⟨e', hcc, hcause⟩ <;> rw [hcc] at h <;> simp at h
    subst h
    rcases hcause with hcause | hcause
    · exact ⟨_, hcause⟩
    · rw [hcause] at hploc; simp at hploc
  · rw [hs] at h
    rcases copyCounted_cases oracle st (Side.cld, p) (Side.loc, p) with
      ⟨f, _, _, hcc⟩ | ⟨e', hcc, hcause⟩ <;> rw [hcc] at h <;> simp at h
    subst h
    rcases hcause with hcause | hcause
    · exact ⟨_, hcause⟩
    · rw [hcause] at hpcld
      have := hpcld cm hc
      simp at this
  · rw [hs] at h
    rcases recordConflict_cases oracle st p lm cm with hrc | ⟨e', ops, hrc, hcause, _⟩ <;>
      rw [hrc] at h <;> simp at h
    subst h
    rcases hcause with hcause | hcause
    · exact ⟨_, hcause⟩
    · exact ⟨_, hcause⟩
  · rcases syncEntry1_localOnly_cases oracle auto cmap st p lm hc with
      ⟨f, _, _, _, hs'⟩ | ⟨e', hs', ho⟩ | ⟨e', hs', _, hcause⟩ <;> rw [hs'] at h <;> simp at h
    · subst h
      exact ⟨_, ho⟩
    · subst h
      rcases hcause with hcause | hcause
      · exact ⟨_, hcause⟩
      · rw [hcause] at hploc; simp at hploc

theorem syncEntry1_ok_total {oracle : IOOracle} {auto : Option String}
    {cmap : List (RelPath × Nat)} {st : St} {p : RelPath} {lm : Nat}
    (hall : ∀ op, oracle op = none)
    (hploc : (st.read (Side.loc, p)).isSome)
    (hpcld : ∀ cm, findEntry p cmap = some cm → (st.read (Side.cld, p)).isSome) :
    ∃ v, (syncEntry1 oracle auto cmap st p lm).res = Except.ok v := by
  cases hres : (syncEntry1 oracle auto cmap st p lm).res with
  | ok v => exact ⟨v, rfl⟩
  | error e =>
    obtain ⟨op, hop⟩ := syncEntry1_error hploc hpcld hres
    rw [hall op] at hop
    simp at hop

/-! ### Derived facts about one second-loop entry -/

theorem syncEntry2_ops (oracle : IOOracle) (lmap : List (RelPath × Nat))
    (st : St) (p : RelPath) :
    ∀ op ∈ (syncEntry2 oracle lmap st p).ops,
      findEntry p lmap = none ∧
      (op = Op.copy (Side.cld, p) (Side.loc, p) ∨
        op = Op.mkdirAll (Side.loc, p.dropLast)) := by
  intro op hop
  cases hl : findEntry p lmap with
  | some m => rw [syncEntry2_skip oracle lmap st p hl] at hop; simp at hop
  | none =>
    refine ⟨rfl, ?_⟩
    rcases syncEntry2_cases oracle lmap st p hl with
      ⟨f, _, _, _, hs⟩ | ⟨e, hs, _⟩ | ⟨e, hs, _, _⟩ <;> rw [hs] at hop <;> simp at hop
    · rcases hop with hop | hop <;> simp [hop]
    · simp [hop]

theorem syncEntry2_trace_ok (oracle : IOOracle) (lmap : List (RelPath × Nat))
    (st : St) (p : RelPath) :
    ∀ op ∈ (syncEntry2 oracle lmap st p).ops, oracle op = none := by
  intro op hop
  cases hl : findEntry p lmap with
  | some m => rw [syncEntry2_skip oracle lmap st p hl] at hop; simp at hop
  | none =>
    rcases syncEntry2_cases oracle lmap st p hl with
      ⟨f, _, ho, ho2, hs⟩ | ⟨e, hs, _⟩ | ⟨e, hs, ho, _⟩ <;> rw [hs] at hop <;> simp at hop
    · rcases hop with hop | hop <;> rw [hop]
      · exact ho
      · exact ho2
    · rw [hop]; exact ho

theorem syncEntry2_st_shape (oracle : IOOracle) (lmap : List (RelPath × Nat))
    (st : St) (p : RelPath) :
    (syncEntry2 oracle lmap st p).st = st ∨
    ∃ (f : File), (syncEntry2 oracle lmap st p).st = st.write (Side.loc, p) f := by
  cases hl : findEntry p lmap with
  | some m => rw [syncEntry2_skip oracle lmap st p hl]; exact Or.inl rfl
  | none =>
    rcases syncEntry2_cases oracle lmap st p hl with
      ⟨f, _, _, _, hs⟩ | ⟨e, hs, _⟩ | ⟨e, hs, _, _⟩ <;> rw [hs]
    · exact Or.inr ⟨f, rfl⟩
    · exact Or.inl rfl
    · exact Or.inl rfl

theorem syncEntry2_applyTrace (oracle : IOOracle) (lmap : List (RelPath × Nat))
    (st : St) (p : RelPath) :
    (syncEntry2 oracle lmap st p).st =
      applyTrace st (syncEntry2 oracle lmap st p).ops := by
  cases hl : findEntry p lmap with
  | some m => rw [syncEntry2_skip oracle lmap st p hl]; rfl
  | none =>
    rcases syncEntry2_cases oracle lmap st p hl with
      ⟨f, hf, _, _, hs⟩ | ⟨e, hs, _⟩ | ⟨e, hs, _, _⟩ <;> rw [hs]
    · simp [applyTrace, applyOp_mkdir, applyOp_copy_of_read hf]
    · rfl
    · rfl

theorem syncEntry2_count {oracle : IOOracle} {lmap : List (RelPath × Nat)}
    {st : St} {p : RelPath} {k : Nat}
    (h : (syncEntry2 oracle lmap st p).res = Except.ok k) :
    k = ((syncEntry2 oracle lmap st p).ops.filter Op.isCopyOp).length := by
  cases hl : findEntry p lmap with
  | some m =>
    rw [syncEntry2_skip oracle lmap st p hl] at h ⊢
    simp at h
    simp [h]
  | none =>
    rcases syncEntry2_cases oracle lmap st p hl with
      ⟨f, _, _, _, hs⟩ | ⟨e, hs, _⟩ | ⟨e, hs, _, _⟩ <;> rw [hs] at h ⊢ <;> simp at h
    simp [h, Op.isCopyOp]

theorem syncEntry2_error {oracle : IOOracle} {lmap : List (RelPath × Nat)}
    {st : St} {p : RelPath} {e : String}
    (hpcld : findEntry p lmap = none → (st.read (Side.cld, p)).isSome)
    (h : (syncEntry2 oracle lmap st p).res = Except.error e) :
    ∃ op, oracle op = some e := by
  cases hl : findEntry p lmap with
  | some m => rw [syncEntry2_skip oracle lmap st p hl] at h; simp at h
  | none =>
    rcases syncEntry2_cases oracle lmap st p hl with
      ⟨f, _, _, _, hs⟩ | ⟨e', hs, ho⟩ | ⟨e', hs, _, hcause⟩ <;> rw [hs] at h <;> simp at h
    · subst h
      exact ⟨_, ho⟩
    · subst h
      rcases hcause with hcause | hcause
      · exact ⟨_, hcause⟩
      · rw [hcause] at hpcld
        have := hpcld hl
        simp at this

theorem syncEntry2_ok_total {oracle : IOOracle} {lmap : List (RelPath × Nat)}
    {st : St} {p : RelPath}
    (hall : ∀ op, oracle op = none)
    (hpcld : findEntry p lmap = none → (st.read (Side.cld, p)).isSome) :
    ∃ k, (syncEntry2 oracle lmap st p).res = Except.ok k := by
  cases hres : (syncEntry2 oracle lmap st p).res with
  | ok k => exact ⟨k, rfl⟩
  | error e =>
    obtain ⟨op, hop⟩ := syncEntry2_error hpcld hres
    rw [hall op] at hop
    simp at hop

/-! ### Recursion equations for the loops -/

theorem runLoop1_nil (oracle : IOOracle) (auto : Option String)
    (cmap : List (RelPath × Nat)) (st : St) :
    runLoop1 oracle auto cmap [] st = ⟨st, [], Except.ok (0, [])⟩ := rfl

theorem combine1_error {st'' : St} {ops' : List Op} {e : String}
    (k : Nat) (cs : List FileConflict) (ops : List Op)
    {out : StepOut (Nat × List FileConflict)}
    (h : out = ⟨st'', ops', Except.error e⟩) :
    combine1 k cs ops out = ⟨st'', ops ++ ops', Except.error e⟩ := by
  rw [h]
  rfl

theorem combine1_ok {st'' : St} {ops' : List Op} {n : Nat} {cs' : List FileConflict}
    (k : Nat) (cs : List FileConflict) (ops : List Op)
    {out : StepOut (Nat × List FileConflict)}
    (h : out = ⟨st'', ops', Except.ok (n, cs')⟩) :
    combine1 k cs ops out = ⟨st'', ops ++ ops', Except.ok (k + n, cs ++ cs')⟩ := by
  rw [h]
  rfl

theorem combine2_error {st'' : St} {ops' : List Op} {e : String}
    (k : Nat) (ops : List Op) {out : StepOut Nat}
    (h : out = ⟨st'', ops', Except.error e⟩) :
    combine2 k ops out = ⟨st'', ops ++ ops', Except.error e⟩ := by
  rw [h]
  rfl

theorem combine2_ok {st'' : St} {ops' : List Op} {n : Nat}
    (k : Nat) (ops : List Op) {out : StepOut Nat}
    (h : out = ⟨st'', ops', Except.ok n⟩) :
    combine2 k ops out = ⟨st'', ops ++ ops', Except.ok (k + n)⟩ := by
  rw [h]
  rfl

theorem runLoop1_cons_error {oracle : IOOracle} {auto : Option String}
    {cmap : List (RelPath × Nat)} {st st' : St} {p : RelPath} {lm : Nat}
    {rest : List (RelPath × Nat)} {ops : List Op} {e : String}
    (he : syncEntry1 oracle auto cmap st p lm = ⟨st', ops, Except.error e⟩) :
    runLoop1 oracle auto cmap ((p, lm) :: rest) st = ⟨st', ops, Except.error e⟩ := by
  unfold runLoop1
  rw [he]

theorem runLoop1_cons_ok {oracle : IOOracle} {auto : Option String}
    {cmap : List (RelPath × Nat)} {st st' : St} {p : RelPath} {lm : Nat}
    {rest : List (RelPath × Nat)} {ops : List Op} {k : Nat} {cs : List FileConflict}
    (he : syncEntry1 oracle auto cmap st p lm = ⟨st', ops, Except.ok (k, cs)⟩) :
    runLoop1 oracle auto cmap ((p, lm) :: rest) st =
      combine1 k cs ops (runLoop1 oracle auto cmap rest st') := by
  conv_lhs => unfold runLoop1
  rw [he]

theorem runLoop1_cons_elim {oracle : IOOracle} {auto : Option String}
    {cmap : List (RelPath × Nat)} {st : St} {p : RelPath} {lm : Nat}
    {rest : List (RelPath × Nat)} {n : Nat} {cs : List FileConflict}
    (h : (runLoop1 oracle auto cmap ((p, lm) :: rest) st).res = Except.ok (n, cs)) :
    ∃ st' ops k cs1 st'' ops' n' cs2,
      syncEntry1 oracle auto cmap st p lm = ⟨st', ops, Except.ok (k, cs1)⟩ ∧
      runLoop1 oracle auto cmap rest st' = ⟨st'', ops', Except.ok (n', cs2)⟩ ∧
      runLoop1 oracle auto cmap ((p, lm) :: rest) st =
        ⟨st'', ops ++ ops', Except.ok (k + n', cs1 ++ cs2)⟩ ∧
      n = k + n' ∧ cs = cs1 ++ cs2 := by
  rcases hE : syncEntry1 oracle auto cmap st p lm with ⟨st', ops, res⟩
  cases res with
  | error e => rw [runLoop1_cons_error hE] at h; simp at h
  | ok v =>
    obtain ⟨k, cs1⟩ := v
    rw [runLoop1_cons_ok hE] at h
    rcases hL : runLoop1 oracle auto cmap rest st' with ⟨st'', ops', res'⟩
    cases res' with
    | error e => rw [combine1_error k cs1 ops hL] at h; simp at h
    | ok v' =>
      obtain ⟨n', cs2⟩ := v'
      rw [combine1_ok k cs1 ops hL] at h
      simp at h
      exact ⟨st', ops, k, cs1, st'', ops', n', cs2, rfl, hL,
        by rw [runLoop1_cons_ok hE, combine1_ok k cs1 ops hL], h.1.symm, h.2.symm⟩

theorem runLoop2_nil (oracle : IOOracle) (lmap : List (RelPath × Nat)) (st : St) :
    runLoop2 oracle lmap [] st = ⟨st, [], Except.ok 0⟩ := rfl

theorem runLoop2_cons_error {oracle : IOOracle} {lmap : List (RelPath × Nat)}
    {st st' : St} {p : RelPath} {cm : Nat} {rest : List (RelPath × Nat)}
    {ops : List Op} {e : String}
    (he : syncEntry2 oracle lmap st p = ⟨st', ops, Except.error e⟩) :
    runLoop2 oracle lmap ((p, cm) :: rest) st = ⟨st', ops, Except.error e⟩ := by
  unfold runLoop2
  rw [he]

theorem runLoop2_cons_ok {oracle : IOOracle} {lmap : List (RelPath × Nat)}
    {st st' : St} {p : RelPath} {cm : Nat} {rest : List (RelPath × Nat)}
    {ops : List Op} {k : Nat}
    (he : syncEntry2 oracle lmap st p = ⟨st', ops, Except.ok k⟩) :
    runLoop2 oracle lmap ((p, cm) :: rest) st =
      combine2 k ops (runLoop2 oracle lmap rest st') := by
  conv_lhs => unfold runLoop2
  rw [he]

theorem runLoop2_cons_elim {oracle : IOOracle} {lmap : List (RelPath × Nat)}
    {st : St} {p : RelPath} {cm : Nat} {rest : List (RelPath × Nat)} {n : Nat}
    (h : (runLoop2 oracle lmap ((p, cm) :: rest) st).res = Except.ok n) :
    ∃ st' ops k st'' ops' n',
      syncEntry2 oracle lmap st p = ⟨st', ops, Except.ok k⟩ ∧
      runLoop2 oracle lmap rest st' = ⟨st'', ops', Except.ok n'⟩ ∧
      runLoop2 oracle lmap ((p, cm) :: rest) st =
        ⟨st'', ops ++ ops', Except.ok (k + n')⟩ ∧
      n = k + n' := by
  rcases hE : syncEntry2 oracle lmap st p with ⟨st', ops, res⟩
  cases res with
  | error e => rw [runLoop2_cons_error hE] at h; simp at h
  | ok k =>
    rw [runLoop2_cons_ok hE] at h
    rcases hL : runLoop2 oracle lmap rest st' with ⟨st'', ops', res'⟩
    cases res' with
    | error e => rw [combine2_error k ops hL] at h; simp at h
    | ok n' =>
      rw [combine2_ok k ops hL] at h
      simp at h
      exact ⟨st', ops, k, st'', ops', n', rfl, hL,
        by rw [runLoop2_cons_ok hE, combine2_ok k ops hL], h.symm⟩

theorem runLoop1V0_nil (oracle : IOOracle) (cmap : List (RelPath × Nat)) (st : St) :
    runLoop1V0 oracle cmap [] st = ⟨st, [], Except.ok 0⟩ := rfl

theorem runLoop1V0_cons_error {oracle : IOOracle} {cmap : List (RelPath × Nat)}
    {st st' : St} {p : RelPath} {lm : Nat} {rest : List (RelPath × Nat)}
    {ops : List Op} {e : String}
    (he : syncEntry1V0 oracle cmap st p lm = ⟨st', ops, Except.error e⟩) :
    runLoop1V0 oracle cmap ((p, lm) :: rest) st = ⟨st', ops, Except.error e⟩ := by
  unfold runLoop1V0
  rw [he]

theorem runLoop1V0_cons_ok {oracle : IOOracle} {cmap : List (RelPath × Nat)}
    {st st' : St} {p : RelPath} {lm : Nat} {rest : List (RelPath × Nat)}
    {ops : List Op} {k : Nat}
    (he : syncEntry1V0 oracle cmap st p lm = ⟨st', ops, Except.ok k⟩) :
    runLoop1V0 oracle cmap ((p, lm) :: rest) st =
      combine2 k ops (runLoop1V0 oracle cmap rest st') := by
  conv_lhs => unfold runLoop1V0
  rw [he]

/-! ### Facts about the first loop, by induction -/

theorem runLoop1_trace_ok (oracle : IOOracle) (auto : Option String)
    (cmap : List (RelPath × Nat)) :
    ∀ (entries : List (RelPath × Nat)) (st : St),
      ∀ op ∈ (runLoop1 oracle auto cmap entries st).ops, oracle op = none := by
  intro entries
  induction entries with
  | nil => intro st op hop; rw [runLoop1_nil] at hop; simp at hop
  | cons hd rest ih =>
    obtain ⟨p, lm⟩ := hd
    intro st op hop
    have hent := syncEntry1_trace_ok oracle auto cmap st p lm
    rcases hE : syncEntry1 oracle auto cmap st p lm with ⟨st', ops, res⟩
    rw [hE] at hent
    cases res with
    | error e =>
      rw [runLoop1_cons_error hE] at hop
      exact hent op hop
    | ok v =>
      obtain ⟨k, cs1⟩ := v
      rw [runLoop1_cons_ok hE] at hop
      rcases hL : runLoop1 oracle auto cmap rest st' with ⟨st'', ops', res'⟩
      have hih := ih st'
      rw [hL] at hih
      cases res' with
      | error e =>
        rw [combine1_error k cs1 ops hL] at hop
        simp at hop
        rcases hop with hop | hop
        · exact hent op hop
        · exact hih op hop
      | ok v' =>
        obtain ⟨n', cs2⟩ := v'
        rw [combine1_ok k cs1 ops hL] at hop
        simp at hop
        rcases hop with hop | hop
        · exact hent op hop
        · exact hih op hop

theorem runLoop1_applyTrace (oracle : IOOracle) (auto : Option String)
    (cmap : List (RelPath × Nat)) :
    ∀ (entries : List (RelPath × Nat)) (st : St),
      (runLoop1 oracle auto cmap entries st).st =
        applyTrace st (runLoop1 oracle auto cmap entries st).ops := by
  intro entries
  induction entries with
  | nil => intro st; rw [runLoop1_nil]; rfl
  | cons hd rest ih =>
    obtain ⟨p, lm⟩ := hd
    intro st
    have hent := syncEntry1_applyTrace oracle auto cmap st p lm
    rcases hE : syncEntry1 oracle auto cmap st p lm with ⟨st', ops, res⟩
    rw [hE] at hent
    cases res with
    | error e => rw [runLoop1_cons_error hE]; exact hent
    | ok v =>
      obtain ⟨k, cs1⟩ := v
      rw [runLoop1_cons_ok hE]
      rcases hL : runLoop1 oracle auto cmap rest st' with ⟨st'', ops', res'⟩
      have hih := ih st'
      rw [hL] at hih
      cases res' with
      | error e =>
        dsimp only [combine1]
        dsimp only at hent hih
        rw [applyTrace_append, ← hent]
        exact hih
      | ok v' =>
        obtain ⟨n', cs2⟩ := v'
        dsimp only [combine1]
        dsimp only at hent hih
        rw [applyTrace_append, ← hent]
        exact hih

theorem runLoop1_frame (oracle : IOOracle) (auto : Option String)
    (cmap : List (RelPath × Nat)) :
    ∀ (entries : List (RelPath × Nat)) (st : St) (y : AbsPath),
      y.2 ∉ keysOf entries →
      ((runLoop1 oracle auto cmap entries st).st).read y = st.read y := by
  intro entries
  induction entries with
  | nil => intro st y _; rw [runLoop1_nil]
  | cons hd rest ih =>
    obtain ⟨p, lm⟩ := hd
    intro st y hy
    rw [show keysOf ((p, lm) :: rest) = p :: keysOf rest from rfl] at hy
    simp only [List.mem_cons] at hy
    push_neg at hy
    have hentry : ((syncEntry1 oracle auto cmap st p lm).st).read y = st.read y := by
      rcases syncEntry1_st_shape oracle auto cmap st p lm with hs | ⟨a, f, ha, hs⟩
      · rw [hs]
      · rw [hs]
        refine St.read_write_ne st f ?_
        intro hay
        apply hy.1
        rw [← hay, ha]
    rcases hE : syncEntry1 oracle auto cmap st p lm with ⟨st', ops, res⟩
    rw [hE] at hentry
    cases res with
    | error e => rw [runLoop1_cons_error hE]; exact hentry
    | ok v =>
      obtain ⟨k, cs1⟩ := v
      rw [runLoop1_cons_ok hE]
      rcases hL : runLoop1 oracle auto cmap rest st' with ⟨st'', ops', res'⟩
      have hih := ih st' y hy.2
      rw [hL] at hih
      cases res' with
      | error e =>
        dsimp only [combine1]
        dsimp only at hentry hih
        rw [hih]
        exact hentry
      | ok v' =>
        obtain ⟨n', cs2⟩ := v'
        dsimp only [combine1]
        dsimp only at hentry hih
        rw [hih]
        exact hentry

theorem syncEntry1_read_mono {oracle : IOOracle} {auto : Option String}
    {cmap : List (RelPath × Nat)} {st : St} {p : RelPath} {lm : Nat} {y : AbsPath}
    (h : (st.read y).isSome) :
    (((syncEntry1 oracle auto cmap st p lm).st).read y).isSome := by
  rcases syncEntry1_st_shape oracle auto cmap st p lm with hs | ⟨a, f, _, hs⟩
  · rw [hs]; exact h
  · rw [hs]; exact St.isSome_read_write st a y f h

theorem syncEntry2_read_mono {oracle : IOOracle} {lmap : List (RelPath × Nat)}
    {st : St} {p : RelPath} {y : AbsPath}
    (h : (st.read y).isSome) :
    (((syncEntry2 oracle lmap st p).st).read y).isSome := by
  rcases syncEntry2_st_shape oracle lmap st p with hs | ⟨f, hs⟩
  · rw [hs]; exact h
  · rw [hs]; exact St.isSome_read_write st (Side.loc, p) y f h

theorem runLoop1_nodup (oracle : IOOracle) (auto : Option String)
    (cmap : List (RelPath × Nat)) :
    ∀ (entries : List (RelPath × Nat)) (st : St), StNodup st →
      StNodup ((runLoop1 oracle auto cmap entries st).st) := by
  intro entries
  induction entries with
  | nil => intro st h; rw [runLoop1_nil]; exact h
  | cons hd rest ih =>
    obtain ⟨p, lm⟩ := hd
    intro st h
    have hentry : StNodup ((syncEntry1 oracle auto cmap st p lm).st) := by
      rcases syncEntry1_st_shape oracle auto cmap st p lm with hs | ⟨a, f, _, hs⟩
      · rw [hs]; exact h
      · rw [hs]; exact h.write a f
    rcases hE : syncEntry1 oracle auto cmap st p lm with ⟨st', ops, res⟩
    rw [hE] at hentry
    cases res with
    | error e => rw [runLoop1_cons_error hE]; exact hentry
    | ok v =>
      obtain ⟨k, cs1⟩ := v
      rw [runLoop1_cons_ok hE]
      rcases hL : runLoop1 oracle auto cmap rest st' with ⟨st'', ops', res'⟩
      have hih := ih st' hentry
      rw [hL] at hih
      cases res' with
      | error e =>
        dsimp only [combine1]
        dsimp only at hih
        exact hih
      | ok v' =>
        obtain ⟨n', cs2⟩ := v'
        dsimp only [combine1]
        dsimp only at hih
        exact hih

/-- Presence of every indexed file in the current state, for the paths
the first loop still has to process. -/
def covered1 (st : St) (entries cmap : List (RelPath × Nat)) : Prop :=
  ∀ e ∈ entries, (st.read (Side.loc, e.1)).isSome ∧
    (∀ cm, findEntry e.1 cmap = some cm → (st.read (Side.cld, e.1)).isSome)

theorem covered1_mono {st st2 : St} {entries cmap : List (RelPath × Nat)}
    (hmono : ∀ y : AbsPath, (st.read y).isSome → (st2.read y).isSome)
    (h : covered1 st entries cmap) : covered1 st2 entries cmap := by
  intro e he
  exact ⟨hmono _ (h e he).1, fun cm hcm => hmono _ ((h e he).2 cm hcm)⟩

theorem covered1_tail {st : St} {hd : RelPath × Nat} {rest cmap : List (RelPath × Nat)}
    (h : covered1 st (hd :: rest) cmap) : covered1 st rest cmap :=
  fun e he => h e (List.mem_cons_of_mem hd he)

theorem runLoop1_error_oracle (oracle : IOOracle) (auto : Option String)
    (cmap : List (RelPath × Nat)) :
    ∀ (entries : List (RelPath × Nat)) (st : St) (e : String),
      covered1 st entries cmap →
      (runLoop1 oracle auto cmap entries st).res = Except.error e →
      ∃ op, oracle op = some e := by
  intro entries
  induction entries with
  | nil => intro st e _ h; rw [runLoop1_nil] at h; simp at h
  | cons hd rest ih =>
    obtain ⟨p, lm⟩ := hd
    intro st e hcov h
    have hp := hcov (p, lm) (List.mem_cons_self _ _)
    rcases hE : syncEntry1 oracle auto cmap st p lm with ⟨st', ops, res⟩
    cases res with
    | error e' =>
      rw [runLoop1_cons_error hE] at h
      simp at h
      subst h
      exact syncEntry1_error hp.1 hp.2 (by rw [hE])
    | ok v =>
      obtain ⟨k, cs1⟩ := v
      rw [runLoop1_cons_ok hE] at h
      rcases hL : runLoop1 oracle auto cmap rest st' with ⟨st'', ops', res'⟩
      have hcov' : covered1 st' rest cmap := by
        have := covered1_tail hcov
        refine covered1_mono (fun y hy => ?_) this
        have := @syncEntry1_read_mono oracle auto cmap _ p lm _ hy
        rw [hE] at this
        exact this
      cases res' with
      | error e' =>
        rw [combine1_error k cs1 ops hL] at h
        simp at h
        subst h
        exact ih st' e' hcov' (by rw [hL])
      | ok v' =>
        obtain ⟨n', cs2⟩ := v'
        rw [combine1_ok k cs1 ops hL] at h
        simp at h

theorem runLoop1_ok_total (oracle : IOOracle) (auto : Option String)
    (cmap : List (RelPath × Nat)) (hall : ∀ op, oracle op = none) :
    ∀ (entries : List (RelPath × Nat)) (st : St),
      covered1 st entries cmap →
      ∃ v, (runLoop1 oracle auto cmap entries st).res = Except.ok v := by
  intro entries st hcov
  cases hres : (runLoop1 oracle auto cmap entries st).res with
  | ok v => exact ⟨v, rfl⟩
  | error e =>
    obtain ⟨op, hop⟩ := runLoop1_error_oracle oracle auto cmap entries st e hcov hres
    rw [hall op] at hop
    simp at hop

theorem runLoop1_count (oracle : IOOracle) (auto : Option String)
    (cmap : List (RelPath × Nat)) :
    ∀ (entries : List (RelPath × Nat)) (st : St) (n : Nat) (cs : List FileConflict),
      (runLoop1 oracle auto cmap entries st).res = Except.ok (n, cs) →
      n = (((runLoop1 oracle auto cmap entries st).ops).filter Op.isCopyOp).length := by
  intro entries
  induction entries with
  | nil => intro st n cs h; rw [runLoop1_nil] at h ⊢; simp at h; simp [h.1]
  | cons hd rest ih =>
    obtain ⟨p, lm⟩ := hd
    intro st n cs h
    obtain ⟨st', ops, k, cs1, st'', ops', n', cs2, hE, hL, hloop, hn, hcs⟩ :=
      runLoop1_cons_elim h
    rw [hloop]
    have hk : k = (ops.filter Op.isCopyOp).length := by
      have := syncEntry1_ok_facts (by rw [hE] : (syncEntry1 oracle auto cmap st p lm).res = Except.ok (k, cs1))
      rw [hE] at this
      exact this.1
    have hn' : n' = (ops'.filter Op.isCopyOp).length := by
      have := ih st' n' cs2 (by rw [hL])
      rw [hL] at this
      exact this
    subst hn
    simp [List.filter_append, hk, hn']

theorem runLoop1_conflicts (oracle : IOOracle) (auto : Option String)
    (cmap : List (RelPath × Nat)) :
    ∀ (entries : List (RelPath × Nat)) (st : St) (n : Nat) (cs : List FileConflict),
      (runLoop1 oracle auto cmap entries st).res = Except.ok (n, cs) →
      ∀ c ∈ cs, ∃ lm, (c.relative_path, lm) ∈ entries ∧
        entryConflicts auto cmap c.relative_path lm := by
  intro entries
  induction entries with
  | nil => intro st n cs h c hc; rw [runLoop1_nil] at h; simp at h; rw [h.2] at hc; simp at hc
  | cons hd rest ih =>
    obtain ⟨p, lm⟩ := hd
    intro st n cs h c hc
    obtain ⟨st', ops, k, cs1, st'', ops', n', cs2, hE, hL, hloop, hn, hcs⟩ :=
      runLoop1_cons_elim h
    rw [hcs] at hc
    rcases List.mem_append.mp hc with hc1 | hc2
    · have := syncEntry1_ok_facts
        (by rw [hE] : (syncEntry1 oracle auto cmap st p lm).res = Except.ok (k, cs1))
      rcases this.2 with hnil | ⟨rec, hrec, hrel, hec⟩
      · rw [hnil] at hc1; simp at hc1
      · rw [hrec] at hc1
        simp at hc1
        subst hc1
        exact ⟨lm, by rw [hrel]; exact List.mem_cons_self _ _, by rw [hrel]; exact hec⟩
    · obtain ⟨lm', hmem, hec⟩ := ih st' n' cs2 (by rw [hL]) c hc2
      exact ⟨lm', List.mem_cons_of_mem _ hmem, hec⟩

theorem runLoop1_conflict_nonempty (oracle : IOOracle) (auto : Option String)
    (cmap : List (RelPath × Nat)) :
    ∀ (entries : List (RelPath × Nat)) (st : St) (n : Nat) (cs : List FileConflict)
      (p : RelPath) (lm : Nat),
      (p, lm) ∈ entries → entryConflicts auto cmap p lm →
      (runLoop1 oracle auto cmap entries st).res = Except.ok (n, cs) →
      cs ≠ [] := by
  intro entries
  induction entries with
  | nil => intro st n cs p lm hmem; simp at hmem
  | cons hd rest ih =>
    obtain ⟨q, qm⟩ := hd
    intro st n cs p lm hmem hec h
    obtain ⟨st', ops, k, cs1, st'', ops', n', cs2, hE, hL, hloop, hn, hcs⟩ :=
      runLoop1_cons_elim h
    rcases List.mem_cons.mp hmem with hmem1 | hmem2
    · have hq : q = p ∧ qm = lm := by
        constructor
        · have := congrArg Prod.fst hmem1; simpa using this.symm
        · have := congrArg Prod.snd hmem1; simpa using this.symm
      obtain ⟨hq1, hq2⟩ := hq
      subst hq1
      subst hq2
      obtain ⟨cm, hcm, hne, hra⟩ := hec
      have hd := syncEntry1_divergent oracle auto cmap st q hcm hne
      rw [hra] at hd
      dsimp only at hd
      rw [hd] at hE
      have hres : (recordConflict oracle st q qm cm).res = Except.ok (k, cs1) := by
        rw [hE]
      have := recordConflict_res_ok hres
      have hcs1 : cs1 ≠ [] := by
        rw [show cs1 = ((k, cs1) : Nat × List FileConflict).2 from rfl, this]
        simp
      rw [hcs]
      intro habs
      exact hcs1 (List.append_eq_nil.mp habs).1
    · have hcs2 : cs2 ≠ [] := ih st' n' cs2 p lm hmem2 hec (by rw [hL])
      rw [hcs]
      intro habs
      exact hcs2 (List.append_eq_nil.mp habs).2

theorem runLoop1_copy_entries (oracle : IOOracle) (auto : Option String)
    (cmap : List (RelPath × Nat)) (r : RelPath) :
    ∀ (entries : List (RelPath × Nat)) (st : St),
      ∀ op ∈ (runLoop1 oracle auto cmap entries st).ops, op.copyTouches r = true →
      ∃ lm, (r, lm) ∈ entries ∧ ¬ entryConflicts auto cmap r lm ∧
        findEntry r cmap ≠ some lm := by
  intro entries
  induction entries with
  | nil => intro st op hop; rw [runLoop1_nil] at hop; simp at hop
  | cons hd rest ih =>
    obtain ⟨p, lm⟩ := hd
    intro st op hop htouch
    have hhead : op ∈ (syncEntry1 oracle auto cmap st p lm).ops →
        ∃ lm', (r, lm') ∈ (p, lm) :: rest ∧ ¬ entryConflicts auto cmap r lm' ∧
          findEntry r cmap ≠ some lm' := by
      intro hmem
      have hshape := syncEntry1_ops oracle auto cmap st p lm op hmem
      have hrp : r = p := by
        rcases hshape with hs | hs | hs | hs | hs <;> subst hs <;>
          simp [Op.copyTouches] at htouch <;> simp [htouch]
      subst hrp
      refine ⟨lm, List.mem_cons_self _ _, fun hec => ?_, fun hid => ?_⟩
      · have := syncEntry1_conflict_no_copy hec oracle st op hmem
        rcases hshape with hs | hs | hs | hs | hs <;> subst hs <;>
          simp [Op.isCopyOp] at this <;> simp [Op.copyTouches] at htouch
      · rw [syncEntry1_identical oracle auto cmap st r lm hid] at hmem
        simp at hmem
    rcases hE : syncEntry1 oracle auto cmap st p lm with ⟨st', ops, res⟩
    cases res with
    | error e =>
      rw [runLoop1_cons_error hE] at hop
      exact hhead (by rw [hE]; exact hop)
    | ok v =>
      obtain ⟨k, cs1⟩ := v
      rw [runLoop1_cons_ok hE] at hop
      rcases hL : runLoop1 oracle auto cmap rest st' with ⟨st'', ops', res'⟩
      have hih : op ∈ ops' → ∃ lm', (r, lm') ∈ rest ∧ ¬ entryConflicts auto cmap r lm' ∧
          findEntry r cmap ≠ some lm' := by
        intro hmem
        exact ih st' op (by rw [hL]; exact hmem) htouch
      cases res' with
      | error e =>
        rw [combine1_error k cs1 ops hL] at hop
        simp at hop
        rcases hop with hop | hop
        · exact hhead (by rw [hE]; exact hop)
        · obtain ⟨lm', hmem, hnec, hnid⟩ := hih hop
          exact ⟨lm', List.mem_cons_of_mem _ hmem, hnec, hnid⟩
      | ok v' =>
        obtain ⟨n', cs2⟩ := v'
        rw [combine1_ok k cs1 ops hL] at hop
        simp at hop
        rcases hop with hop | hop
        · exact hhead (by rw [hE]; exact hop)
        · obtain ⟨lm', hmem, hnec, hnid⟩ := hih hop
          exact ⟨lm', List.mem_cons_of_mem _ hmem, hnec, hnid⟩

theorem runLoop1_all_identical (oracle : IOOracle) (auto : Option String)
    (cmap : List (RelPath × Nat)) :
    ∀ (entries : List (RelPath × Nat)) (st : St),
      (∀ e ∈ entries, findEntry e.1 cmap = some e.2) →
      runLoop1 oracle auto cmap entries st = ⟨st, [], Except.ok (0, [])⟩ := by
  intro entries
  induction entries with
  | nil => intro st _; rw [runLoop1_nil]
  | cons hd rest ih =>
    obtain ⟨p, lm⟩ := hd
    intro st hall
    have hE := syncEntry1_identical oracle auto cmap st p lm
      (hall (p, lm) (List.mem_cons_self _ _))
    rw [runLoop1_cons_ok hE, ih st (fun e he => hall e (List.mem_cons_of_mem _ he))]
    rfl

theorem runLoop1_reads (oracle : IOOracle) (auto : Option String)
    (cmap : List (RelPath × Nat)) :
    ∀ (entries : List (RelPath × Nat)) (st : St) (n : Nat) (cs : List FileConflict),
      (keysOf entries).Nodup →
      covered1 st entries cmap →
      (runLoop1 oracle auto cmap entries st).res = Except.ok (n, cs) →
      ∀ (p : RelPath) (lm : Nat), (p, lm) ∈ entries →
        (findEntry p cmap = none →
          ((runLoop1 oracle auto cmap entries st).st).read (Side.loc, p) = st.read (Side.loc, p) ∧
          ((runLoop1 oracle auto cmap entries st).st).read (Side.cld, p) = st.read (Side.loc, p)) ∧
        (findEntry p cmap = some lm →
          ((runLoop1 oracle auto cmap entries st).st).read (Side.loc, p) = st.read (Side.loc, p) ∧
          ((runLoop1 oracle auto cmap entries st).st).read (Side.cld, p) = st.read (Side.cld, p)) ∧
        (∀ cm, findEntry p cmap = some cm → lm ≠ cm →
          (resolveAction auto lm cm = SyncAction.toCloud →
            ((runLoop1 oracle auto cmap entries st).st).read (Side.loc, p) = st.read (Side.loc, p) ∧
            ((runLoop1 oracle auto cmap entries st).st).read (Side.cld, p) = st.read (Side.loc, p)) ∧
          (resolveAction auto lm cm = SyncAction.toLocal →
            ((runLoop1 oracle auto cmap entries st).st).read (Side.loc, p) = st.read (Side.cld, p) ∧
            ((runLoop1 oracle auto cmap entries st).st).read (Side.cld, p) = st.read (Side.cld, p)) ∧
          (resolveAction auto lm cm = SyncAction.unresolved →
            ((runLoop1 oracle auto cmap entries st).st).read (Side.loc, p) = st.read (Side.loc, p) ∧
            ((runLoop1 oracle auto cmap entries st).st).read (Side.cld, p) = st.read (Side.cld, p))) := by
  intro entries
  induction entries with
  | nil => intro st n cs _ _ _ p lm hmem; simp at hmem
  | cons hd rest ih =>
    obtain ⟨q, qm⟩ := hd
    intro st n cs hnd hcov h p lm hmem
    have hndq : q ∉ keysOf rest ∧ (keysOf rest).Nodup := by
      rw [show keysOf ((q, qm) :: rest) = q :: keysOf rest from rfl] at hnd
      exact ⟨(List.nodup_cons.mp hnd).1, (List.nodup_cons.mp hnd).2⟩
    obtain ⟨st', ops, k, cs1, st'', ops', n', cs2, hE, hL, hloop, hn, hcs⟩ :=
      runLoop1_cons_elim h
    have hstout : ((runLoop1 oracle auto cmap ((q, qm) :: rest) st).st) = st'' := by
      rw [hloop]
    have hcov' : covered1 st' rest cmap := by
      refine covered1_mono (fun y hy => ?_) (covered1_tail hcov)
      have := @syncEntry1_read_mono oracle auto cmap _ q qm _ hy
      rw [hE] at this
      exact this
    have hframe : ∀ y : AbsPath, y.2 = q → st''.read y = st'.read y := by
      intro y hy
      have := runLoop1_frame oracle auto cmap rest st' y (by rw [hy]; exact hndq.1)
      rw [hL] at this
      exact this
    rcases List.mem_cons.mp hmem with hmem1 | hmem2
    · -- the head entry
      have hpq : q = p ∧ qm = lm := by
        constructor
        · have := congrArg Prod.fst hmem1; simpa using this.symm
        · have := congrArg Prod.snd hmem1; simpa using this.symm
      obtain ⟨hpq1, hpq2⟩ := hpq
      subst hpq1
      subst hpq2
      have hfl : st''.read (Side.loc, q) = st'.read (Side.loc, q) := hframe _ rfl
      have hfc : st''.read (Side.cld, q) = st'.read (Side.cld, q) := hframe _ rfl
      refine ⟨?_, ?_, ?_⟩
      · -- local-only
        intro hc
        rcases syncEntry1_localOnly_cases oracle auto cmap st q qm hc with
          ⟨f, hf, _, _, hs⟩ | ⟨e, hs, _⟩ | ⟨e, hs, _, _⟩ <;> rw [hs] at hE <;>
          simp at hE
        obtain ⟨hst', _, _⟩ := hE
        rw [hstout, hfl, hfc, ← hst']
        constructor
        · rw [St.read_write_ne st f (by simp)]
        · rw [St.read_write_self, hf]
      · -- identical
        intro hc
        have hs := syncEntry1_identical oracle auto cmap st q qm hc
        rw [hs] at hE
        simp at hE
        obtain ⟨hst', _, _⟩ := hE
        rw [hstout, hfl, hfc, ← hst']
        exact ⟨rfl, rfl⟩
      · -- divergent
        intro cm hc hne
        have hd := syncEntry1_divergent oracle auto cmap st q hc hne
        refine ⟨?_, ?_, ?_⟩
        · intro hra
          rw [hra] at hd
          dsimp only at hd
          rw [hd] at hE
          rcases copyCounted_cases oracle st (Side.loc, q) (Side.cld, q) with
            ⟨f, hf, _, hcc⟩ | ⟨e, hcc, _⟩ <;> rw [hcc] at hE <;> simp at hE
          obtain ⟨hst', _, _⟩ := hE
          rw [hstout, hfl, hfc, ← hst']
          constructor
          · rw [St.read_write_ne st f (by simp)]
          · rw [St.read_write_self, hf]
        · intro hra
          rw [hra] at hd
          dsimp only at hd
          rw [hd] at hE
          rcases copyCounted_cases oracle st (Side.cld, q) (Side.loc, q) with
            ⟨f, hf, _, hcc⟩ | ⟨e, hcc, _⟩ <;> rw [hcc] at hE <;> simp at hE
          obtain ⟨hst', _, _⟩ := hE
          rw [hstout, hfl, hfc, ← hst']
          constructor
          · rw [St.read_write_self, hf]
          · rw [St.read_write_ne st f (by simp)]
        · intro hra
          rw [hra] at hd
          dsimp only at hd
          rw [hd] at hE
          have hst' : st' = st := by
            have := recordConflict_st oracle st q qm cm
            rw [hE] at this
            exact this
          rw [hstout, hfl, hfc, hst']
          exact ⟨rfl, rfl⟩
    · -- an entry of the tail
      have hqp : q ≠ p := by
        intro habs
        apply hndq.1
        rw [habs, ← findEntry_isSome_iff]
        exact findEntry_isSome_of_mem hmem2
      have hpre : ∀ y : AbsPath, y.2 = p → st'.read y = st.read y := by
        intro y hy
        rcases syncEntry1_st_shape oracle auto cmap st q qm with hs | ⟨a, f, ha, hs⟩
        · rw [hE] at hs; dsimp only at hs; rw [hs]
        · rw [hE] at hs; dsimp only at hs; rw [hs]
          refine St.read_write_ne st f ?_
          intro hay
          apply hqp
          rw [← ha, hay, hy]
      have hih := ih st' n' cs2 hndq.2 hcov' (by rw [hL]) p lm hmem2
      have hstih : ((runLoop1 oracle auto cmap rest st').st) = st'' := by rw [hL]
      rw [hstih] at hih
      rw [hstout]
      rw [hpre (Side.loc, p) rfl, hpre (Side.cld, p) rfl] at hih
      exact hih

/-! ### Facts about the second loop, by induction -/

theorem runLoop2_trace_ok (oracle : IOOracle) (lmap : List (RelPath × Nat)) :
    ∀ (centries : List (RelPath × Nat)) (st : St),
      ∀ op ∈ (runLoop2 oracle lmap centries st).ops, oracle op = none := by
  intro centries
  induction centries with
  | nil => intro st op hop; rw [runLoop2_nil] at hop; simp at hop
  | cons hd rest ih =>
    obtain ⟨p, cm⟩ := hd
    intro st op hop
    have hent := syncEntry2_trace_ok oracle lmap st p
    rcases hE : syncEntry2 oracle lmap st p with ⟨st', ops, res⟩
    rw [hE] at hent
    cases res with
    | error e =>
      rw [runLoop2_cons_error hE] at hop
      exact hent op hop
    | ok k =>
      rw [runLoop2_cons_ok hE] at hop
      rcases hL : runLoop2 oracle lmap rest st' with ⟨st'', ops', res'⟩
      have hih := ih st'
      rw [hL] at hih
      cases res' with
      | error e =>
        rw [combine2_error k ops hL] at hop
        simp at hop
        rcases hop with hop | hop
        · exact hent op hop
        · exact hih op hop
      | ok n' =>
        rw [combine2_ok k ops hL] at hop
        simp at hop
        rcases hop with hop | hop
        · exact hent op hop
        · exact hih op hop

theorem runLoop2_applyTrace (oracle : IOOracle) (lmap : List (RelPath × Nat)) :
    ∀ (centries : List (RelPath × Nat)) (st : St),
      (runLoop2 oracle lmap centries st).st =
        applyTrace st (runLoop2 oracle lmap centries st).ops := by
  intro centries
  induction centries with
  | nil => intro st; rw [runLoop2_nil]; rfl
  | cons hd rest ih =>
    obtain ⟨p, cm⟩ := hd
    intro st
    have hent := syncEntry2_applyTrace oracle lmap st p
    rcases hE : syncEntry2 oracle lmap st p with ⟨st', ops, res⟩
    rw [hE] at hent
    cases res with
    | error e => rw [runLoop2_cons_error hE]; exact hent
    | ok k =>
      rw [runLoop2_cons_ok hE]
      rcases hL : runLoop2 oracle lmap rest st' with ⟨st'', ops', res'⟩
      have hih := ih st'
      rw [hL] at hih
      cases res' with
      | error e =>
        dsimp only [combine2]
        dsimp only at hent hih
        rw [applyTrace_append, ← hent]
        exact hih
      | ok n' =>
        dsimp only [combine2]
        dsimp only at hent hih
        rw [applyTrace_append, ← hent]
        exact hih

theorem runLoop2_frame (oracle : IOOracle) (lmap : List (RelPath × Nat)) :
    ∀ (centries : List (RelPath × Nat)) (st : St) (y : AbsPath),
      y.2 ∉ keysOf centries →
      ((runLoop2 oracle lmap centries st).st).read y = st.read y := by
  intro centries
  induction centries with
  | nil => intro st y _; rw [runLoop2_nil]
  | cons hd rest ih =>
    obtain ⟨p, cm⟩ := hd
    intro st y hy
    rw [show keysOf ((p, cm) :: rest) = p :: keysOf rest from rfl] at hy
    simp only [List.mem_cons] at hy
    push_neg at hy
    have hentry : ((syncEntry2 oracle lmap st p).st).read y = st.read y := by
      rcases syncEntry2_st_shape oracle lmap st p with hs | ⟨f, hs⟩
      · rw [hs]
      · rw [hs]
        refine St.read_write_ne st f ?_
        intro hay
        apply hy.1
        rw [← hay]
    rcases hE : syncEntry2 oracle lmap st p with ⟨st', ops, res⟩
    rw [hE] at hentry
    cases res with
    | error e => rw [runLoop2_cons_error hE]; exact hentry
    | ok k =>
      rw [runLoop2_cons_ok hE]
      rcases hL : runLoop2 oracle lmap rest st' with ⟨st'', ops', res'⟩
      have hih := ih st' y hy.2
      rw [hL] at hih
      cases res' with
      | error e =>
        dsimp only [combine2]
        dsimp only at hentry hih
        rw [hih]
        exact hentry
      | ok n' =>
        dsimp only [combine2]
        dsimp only at hentry hih
        rw [hih]
        exact hentry

theorem runLoop2_nodup (oracle : IOOracle) (lmap : List (RelPath × Nat)) :
    ∀ (centries : List (RelPath × Nat)) (st : St), StNodup st →
      StNodup ((runLoop2 oracle lmap centries st).st) := by
  intro centries
  induction centries with
  | nil => intro st h; rw [runLoop2_nil]; exact h
  | cons hd rest ih =>
    obtain ⟨p, cm⟩ := hd
    intro st h
    have hentry : StNodup ((syncEntry2 oracle lmap st p).st) := by
      rcases syncEntry2_st_shape oracle lmap st p with hs | ⟨f, hs⟩
      · rw [hs]; exact h
      · rw [hs]; exact h.write _ f
    rcases hE : syncEntry2 oracle lmap st p with ⟨st', ops, res⟩
    rw [hE] at hentry
    cases res with
    | error e => rw [runLoop2_cons_error hE]; exact hentry
    | ok k =>
      rw [runLoop2_cons_ok hE]
      rcases hL : runLoop2 oracle lmap rest st' with ⟨st'', ops', res'⟩
      have hih := ih st' hentry
      rw [hL] at hih
      cases res' with
      | error e =>
        dsimp only [combine2]
        dsimp only at hih
        exact hih
      | ok n' =>
        dsimp only [combine2]
        dsimp only at hih
        exact hih

/-- Presence of every indexed cloud file still to be processed by the
second loop. -/
def covered2 (st : St) (centries lmap : List (RelPath × Nat)) : Prop :=
  ∀ e ∈ centries, findEntry e.1 lmap = none → (st.read (Side.cld, e.1)).isSome

theorem covered2_mono {st st2 : St} {centries lmap : List (RelPath × Nat)}
    (hmono : ∀ y : AbsPath, (st.read y).isSome → (st2.read y).isSome)
    (h : covered2 st centries lmap) : covered2 st2 centries lmap :=
  fun e he hl => hmono _ (h e he hl)

theorem covered2_tail {st : St} {hd : RelPath × Nat} {rest lmap : List (RelPath × Nat)}
    (h : covered2 st (hd :: rest) lmap) : covered2 st rest lmap :=
  fun e he => h e (List.mem_cons_of_mem hd he)

theorem runLoop2_error_oracle (oracle : IOOracle) (lmap : List (RelPath × Nat)) :
    ∀ (centries : List (RelPath × Nat)) (st : St) (e : String),
      covered2 st centries lmap →
      (runLoop2 oracle lmap centries st).res = Except.error e →
      ∃ op, oracle op = some e := by
  intro centries
  induction centries with
  | nil => intro st e _ h; rw [runLoop2_nil] at h; simp at h
  | cons hd rest ih =>
    obtain ⟨p, cm⟩ := hd
    intro st e hcov h
    have hp := hcov (p, cm) (List.mem_cons_self _ _)
    rcases hE : syncEntry2 oracle lmap st p with ⟨st', ops, res⟩
    cases res with
    | error e' =>
      rw [runLoop2_cons_error hE] at h
      simp at h
      subst h
      exact syncEntry2_error hp (by rw [hE])
    | ok k =>
      rw [runLoop2_cons_ok hE] at h
      rcases hL : runLoop2 oracle lmap rest st' with ⟨st'', ops', res'⟩
      have hcov' : covered2 st' rest lmap := by
        refine covered2_mono (fun y hy => ?_) (covered2_tail hcov)
        have := @syncEntry2_read_mono oracle lmap _ p _ hy
        rw [hE] at this
        exact this
      cases res' with
      | error e' =>
        rw [combine2_error k ops hL] at h
        simp at h
        subst h
        exact ih st' e' hcov' (by rw [hL])
      | ok n' =>
        rw [combine2_ok k ops hL] at h
        simp at h

theorem runLoop2_ok_total (oracle : IOOracle) (lmap : List (RelPath × Nat))
    (hall : ∀ op, oracle op = none) :
    ∀ (centries : List (RelPath × Nat)) (st : St),
      covered2 st centries lmap →
      ∃ n, (runLoop2 oracle lmap centries st).res = Except.ok n := by
  intro centries st hcov
  cases hres : (runLoop2 oracle lmap centries st).res with
  | ok n => exact ⟨n, rfl⟩
  | error e =>
    obtain ⟨op, hop⟩ := runLoop2_error_oracle oracle lmap centries st e hcov hres
    rw [hall op] at hop
    simp at hop

theorem runLoop2_count (oracle : IOOracle) (lmap : List (RelPath × Nat)) :
    ∀ (centries : List (RelPath × Nat)) (st : St) (n : Nat),
      (runLoop2 oracle lmap centries st).res = Except.ok n →
      n = (((runLoop2 oracle lmap centries st).ops).filter Op.isCopyOp).length := by
  intro centries
  induction centries with
  | nil => intro st n h; rw [runLoop2_nil] at h ⊢; simp at h; simp [h]
  | cons hd rest ih =>
    obtain ⟨p, cm⟩ := hd
    intro st n h
    obtain ⟨st', ops, k, st'', ops', n', hE, hL, hloop, hn⟩ := runLoop2_cons_elim h
    rw [hloop]
    have hk : k = (ops.filter Op.isCopyOp).length := by
      have := syncEntry2_count (by rw [hE] : (syncEntry2 oracle lmap st p).res = Except.ok k)
      rw [hE] at this
      exact this
    have hn' : n' = (ops'.filter Op.isCopyOp).length := by
      have := ih st' n' (by rw [hL])
      rw [hL] at this
      exact this
    subst hn
    simp [List.filter_append, hk, hn']

theorem runLoop2_copy_entries (oracle : IOOracle) (lmap : List (RelPath × Nat))
    (r : RelPath) :
    ∀ (centries : List (RelPath × Nat)) (st : St),
      ∀ op ∈ (runLoop2 oracle lmap centries st).ops, op.copyTouches r = true →
      r ∈ keysOf centries ∧ findEntry r lmap = none := by
  intro centries
  induction centries with
  | nil => intro st op hop; rw [runLoop2_nil] at hop; simp at hop
  | cons hd rest ih =>
    obtain ⟨p, cm⟩ := hd
    intro st op hop htouch
    have hhead : op ∈ (syncEntry2 oracle lmap st p).ops →
        r ∈ keysOf ((p, cm) :: rest) ∧ findEntry r lmap = none := by
      intro hmem
      obtain ⟨hl, hshape⟩ := syncEntry2_ops oracle lmap st p op hmem
      have hrp : r = p := by
        rcases hshape with hs | hs <;> subst hs <;> simp [Op.copyTouches] at htouch <;>
          simp [htouch]
      subst hrp
      exact ⟨by rw [show keysOf ((r, cm) :: rest) = r :: keysOf rest from rfl]; simp, hl⟩
    rcases hE : syncEntry2 oracle lmap st p with ⟨st', ops, res⟩
    cases res with
    | error e =>
      rw [runLoop2_cons_error hE] at hop
      exact hhead (by rw [hE]; exact hop)
    | ok k =>
      rw [runLoop2_cons_ok hE] at hop
      rcases hL : runLoop2 oracle lmap rest st' with ⟨st'', ops', res'⟩
      have hih : op ∈ ops' → r ∈ keysOf rest ∧ findEntry r lmap = none := by
        intro hmem
        exact ih st' op (by rw [hL]; exact hmem) htouch
      cases res' with
      | error e =>
        rw [combine2_error k ops hL] at hop
        simp at hop
        rcases hop with hop | hop
        · exact hhead (by rw [hE]; exact hop)
        · obtain ⟨hmem, hl⟩ := hih hop
          exact ⟨by rw [show keysOf ((p, cm) :: rest) = p :: keysOf rest from rfl]; simp [hmem], hl⟩
      | ok n' =>
        rw [combine2_ok k ops hL] at hop
        simp at hop
        rcases hop with hop | hop
        · exact hhead (by rw [hE]; exact hop)
        · obtain ⟨hmem, hl⟩ := hih hop
          exact ⟨by rw [show keysOf ((p, cm) :: rest) = p :: keysOf rest from rfl]; simp [hmem], hl⟩

theorem runLoop2_all_skip (oracle : IOOracle) (lmap : List (RelPath × Nat)) :
    ∀ (centries : List (RelPath × Nat)) (st : St),
      (∀ e ∈ centries, (findEntry e.1 lmap).isSome) →
      runLoop2 oracle lmap centries st = ⟨st, [], Except.ok 0⟩ := by
  intro centries
  induction centries with
  | nil => intro st _; rw [runLoop2_nil]
  | cons hd rest ih =>
    obtain ⟨p, cm⟩ := hd
    intro st hall
    have hp := hall (p, cm) (List.mem_cons_self _ _)
    obtain ⟨m, hm⟩ := Option.isSome_iff_exists.mp hp
    have hE := syncEntry2_skip oracle lmap st p hm
    rw [runLoop2_cons_ok hE, ih st (fun e he => hall e (List.mem_cons_of_mem _ he))]
    rfl

theorem runLoop2_reads (oracle : IOOracle) (lmap : List (RelPath × Nat)) :
    ∀ (centries : List (RelPath × Nat)) (st : St) (n : Nat),
      (keysOf centries).Nodup →
      covered2 st centries lmap →
      (runLoop2 oracle lmap centries st).res = Except.ok n →
      ∀ (p : RelPath) (cm : Nat), (p, cm) ∈ centries →
        ((findEntry p lmap).isSome →
          ((runLoop2 oracle lmap centries st).st).read (Side.loc, p) = st.read (Side.loc, p) ∧
          ((runLoop2 oracle lmap centries st).st).read (Side.cld, p) = st.read (Side.cld, p)) ∧
        (findEntry p lmap = none →
          ((runLoop2 oracle lmap centries st).st).read (Side.loc, p) = st.read (Side.cld, p) ∧
          ((runLoop2 oracle lmap centries st).st).read (Side.cld, p) = st.read (Side.cld, p)) := by
  intro centries
  induction centries with
  | nil => intro st n _ _ _ p cm hmem; simp at hmem
  | cons hd rest ih =>
    obtain ⟨q, qcm⟩ := hd
    intro st n hnd hcov h p cm hmem
    have hndq : q ∉ keysOf rest ∧ (keysOf rest).Nodup := by
      rw [show keysOf ((q, qcm) :: rest) = q :: keysOf rest from rfl] at hnd
      exact ⟨(List.nodup_cons.mp hnd).1, (List.nodup_cons.mp hnd).2⟩
    obtain ⟨st', ops, k, st'', ops', n', hE, hL, hloop, hn⟩ := runLoop2_cons_elim h
    have hstout : ((runLoop2 oracle lmap ((q, qcm) :: rest) st).st) = st'' := by
      rw [hloop]
    have hcov' : covered2 st' rest lmap := by
      refine covered2_mono (fun y hy => ?_) (covered2_tail hcov)
      have := @syncEntry2_read_mono oracle lmap _ q _ hy
      rw [hE] at this
      exact this
    have hframe : ∀ y : AbsPath, y.2 = q → st''.read y = st'.read y := by
      intro y hy
      have := runLoop2_frame oracle lmap rest st' y (by rw [hy]; exact hndq.1)
      rw [hL] at this
      exact this
    rcases List.mem_cons.mp hmem with hmem1 | hmem2
    · have hpq : q = p := by
        have := congrArg Prod.fst hmem1; simpa using this.symm
      subst hpq
      have hfl : st''.read (Side.loc, q) = st'.read (Side.loc, q) := hframe _ rfl
      have hfc : st''.read (Side.cld, q) = st'.read (Side.cld, q) := hframe _ rfl
      refine ⟨?_, ?_⟩
      · intro hl
        obtain ⟨m, hm⟩ := Option.isSome_iff_exists.mp hl
        have hs := syncEntry2_skip oracle lmap st q hm
        rw [hs] at hE
        simp at hE
        obtain ⟨hst', _, _⟩ := hE
        rw [hstout, hfl, hfc, ← hst']
        exact ⟨rfl, rfl⟩
      · intro hl
        rcases syncEntry2_cases oracle lmap st q hl with
          ⟨f, hf, _, _, hs⟩ | ⟨e, hs, _⟩ | ⟨e, hs, _, _⟩ <;> rw [hs] at hE <;> simp at hE
        obtain ⟨hst', _, _⟩ := hE
        rw [hstout, hfl, hfc, ← hst']
        constructor
        · rw [St.read_write_self, hf]
        · rw [St.read_write_ne st f (by simp)]
    · have hqp : q ≠ p := by
        intro habs
        apply hndq.1
        rw [habs, ← findEntry_isSome_iff]
        exact findEntry_isSome_of_mem hmem2
      have hpre : ∀ y : AbsPath, y.2 = p → st'.read y = st.read y := by
        intro y hy
        rcases syncEntry2_st_shape oracle lmap st q with hs | ⟨f, hs⟩
        · rw [hE] at hs; dsimp only at hs; rw [hs]
        · rw [hE] at hs; dsimp only at hs; rw [hs]
          refine St.read_write_ne st f ?_
          intro hay
          apply hqp
          have := congrArg Prod.snd hay
          simpa [hy] using this
      have hih := ih st' n' hndq.2 hcov' (by rw [hL]) p cm hmem2
      have hstih : ((runLoop2 oracle lmap rest st').st) = st'' := by rw [hL]
      rw [hstih] at hih
      rw [hstout]
      rw [hpre (Side.loc, p) rfl, hpre (Side.cld, p) rfl] at hih
      exact hih

theorem runLoop1_read_mono (oracle : IOOracle) (auto : Option String)
    (cmap : List (RelPath × Nat)) :
    ∀ (entries : List (RelPath × Nat)) (st : St) (y : AbsPath),
      (st.read y).isSome →
      (((runLoop1 oracle auto cmap entries st).st).read y).isSome := by
  intro entries
  induction entries with
  | nil => intro st y h; rw [runLoop1_nil]; exact h
  | cons hd rest ih =>
    obtain ⟨p, lm⟩ := hd
    intro st y h
    have hentry := @syncEntry1_read_mono oracle auto cmap _ p lm _ h
    rcases hE : syncEntry1 oracle auto cmap st p lm with ⟨st', ops, res⟩
    rw [hE] at hentry
    cases res with
    | error e => rw [runLoop1_cons_error hE]; exact hentry
    | ok v =>
      obtain ⟨k, cs1⟩ := v
      rw [runLoop1_cons_ok hE]
      rcases hL : runLoop1 oracle auto cmap rest st' with ⟨st'', ops', res'⟩
      have hih := ih st' y hentry
      rw [hL] at hih
      cases res' with
      | error e =>
        dsimp only [combine1]
        dsimp only at hih
        exact hih
      | ok v' =>
        obtain ⟨n', cs2⟩ := v'
        dsimp only [combine1]
        dsimp only at hih
        exact hih

/-! ### Assembly of the whole run -/

theorem sync_missing_local {oracle : IOOracle} {lp cp : String}
    {lr cr : RootState} {auto : Option String} (hl : lr.pathExists = false) :
    sync_game_saves oracle lp cp lr cr auto =
      ⟨⟨lr.treeOf, cr.treeOf⟩, [], Except.error ("Local path does not exist: " ++ lp)⟩ := by
  unfold sync_game_saves
  rw [hl]
  rfl

theorem sync_missing_cloud {oracle : IOOracle} {lp cp : String}
    {lr cr : RootState} {auto : Option String}
    (hl : lr.pathExists = true) (hc : cr.pathExists = false) :
    sync_game_saves oracle lp cp lr cr auto =
      ⟨⟨lr.treeOf, cr.treeOf⟩, [], Except.error ("Cloud path does not exist: " ++ cp)⟩ := by
  unfold sync_game_saves
  rw [hl, hc]
  rfl

theorem sync_valid_loop1_err {oracle : IOOracle} {lp cp : String}
    {lr cr : RootState} {auto : Option String} {st1 : St} {ops1 : List Op} {e : String}
    (hl : lr.pathExists = true) (hc : cr.pathExists = true)
    (h1 : runLoop1 oracle auto (indexTree cr.treeOf) (indexTree lr.treeOf)
      ⟨lr.treeOf, cr.treeOf⟩ = ⟨st1, ops1, Except.error e⟩) :
    sync_game_saves oracle lp cp lr cr auto = ⟨st1, ops1, Except.error e⟩ := by
  unfold sync_game_saves
  simp only [hl, hc, Bool.true_eq_false, if_false]
  rw [h1]

theorem sync_valid_loop2_err {oracle : IOOracle} {lp cp : String}
    {lr cr : RootState} {auto : Option String} {st1 st2 : St}
    {ops1 ops2 : List Op} {n1 : Nat} {cs : List FileConflict} {e : String}
    (hl : lr.pathExists = true) (hc : cr.pathExists = true)
    (h1 : runLoop1 oracle auto (indexTree cr.treeOf) (indexTree lr.treeOf)
      ⟨lr.treeOf, cr.treeOf⟩ = ⟨st1, ops1, Except.ok (n1, cs)⟩)
    (h2 : runLoop2 oracle (indexTree lr.treeOf) (indexTree cr.treeOf) st1 =
      ⟨st2, ops2, Except.error e⟩) :
    sync_game_saves oracle lp cp lr cr auto = ⟨st2, ops1 ++ ops2, Except.error e⟩ := by
  unfold sync_game_saves
  simp only [hl, hc, Bool.true_eq_false, if_false]
  rw [h1]
  dsimp only
  rw [h2]

theorem sync_valid_ok {oracle : IOOracle} {lp cp : String}
    {lr cr : RootState} {auto : Option String} {st1 st2 : St}
    {ops1 ops2 : List Op} {n1 n2 : Nat} {cs : List FileConflict}
    (hl : lr.pathExists = true) (hc : cr.pathExists = true)
    (h1 : runLoop1 oracle auto (indexTree cr.treeOf) (indexTree lr.treeOf)
      ⟨lr.treeOf, cr.treeOf⟩ = ⟨st1, ops1, Except.ok (n1, cs)⟩)
    (h2 : runLoop2 oracle (indexTree lr.treeOf) (indexTree cr.treeOf) st1 =
      ⟨st2, ops2, Except.ok n2⟩) :
    sync_game_saves oracle lp cp lr cr auto =
      ⟨st2, ops1 ++ ops2, Except.ok
        { success := cs.isEmpty
          message :=
            if cs.isEmpty then
              "Successfully synced " ++ toString (n1 + n2) ++ " file(s)"
            else
              "Found " ++ toString cs.length ++ " conflict(s) - user resolution required"
          files_synced := n1 + n2
          conflicts := cs }⟩ := by
  unfold sync_game_saves
  simp only [hl, hc, Bool.true_eq_false, if_false]
  rw [h1]
  dsimp only
  rw [h2]

theorem sync_ok_elim {oracle : IOOracle} {lp cp : String}
    {lr cr : RootState} {auto : Option String} {r : SyncResult}
    (hl : lr.pathExists = true) (hc : cr.pathExists = true)
    (h : (sync_game_saves oracle lp cp lr cr auto).result = Except.ok r) :
    ∃ st1 ops1 n1 cs st2 ops2 n2,
      runLoop1 oracle auto (indexTree cr.treeOf) (indexTree lr.treeOf)
        ⟨lr.treeOf, cr.treeOf⟩ = ⟨st1, ops1, Except.ok (n1, cs)⟩ ∧
      runLoop2 oracle (indexTree lr.treeOf) (indexTree cr.treeOf) st1 =
        ⟨st2, ops2, Except.ok n2⟩ ∧
      sync_game_saves oracle lp cp lr cr auto = ⟨st2, ops1 ++ ops2, Except.ok r⟩ ∧
      r = { success := cs.isEmpty
            message :=
              if cs.isEmpty then
                "Successfully synced " ++ toString (n1 + n2) ++ " file(s)"
              else
                "Found " ++ toString cs.length ++ " conflict(s) - user resolution required"
            files_synced := n1 + n2
            conflicts := cs } := by
  rcases h1 : runLoop1 oracle auto (indexTree cr.treeOf) (indexTree lr.treeOf)
      ⟨lr.treeOf, cr.treeOf⟩ with ⟨st1, ops1, res1⟩
  cases res1 with
  | error e =>
    rw [sync_valid_loop1_err hl hc h1] at h
    simp at h
  | ok v =>
    obtain ⟨n1, cs⟩ := v
    rcases h2 : runLoop2 oracle (indexTree lr.treeOf) (indexTree cr.treeOf) st1 with
      ⟨st2, ops2, res2⟩
    cases res2 with
    | error e =>
      rw [sync_valid_loop2_err hl hc h1 h2] at h
      simp at h
    | ok n2 =>
      rw [sync_valid_ok hl hc h1 h2] at h
      dsimp only at h
      have hr := (Except.ok.inj h).symm
      exact ⟨st1, ops1, n1, cs, st2, ops2, n2, rfl, h2,
        by rw [sync_valid_ok hl hc h1 h2, ← hr], hr⟩

theorem covered1_init (lt ct : FsTree) :
    covered1 ⟨lt, ct⟩ (indexTree lt) (indexTree ct) := by
  intro e he
  obtain ⟨p, m⟩ := e
  constructor
  · obtain ⟨f, hf, _⟩ := mem_indexTree.mp he
    exact findEntry_isSome_of_mem hf
  · intro cm hcm
    rw [findEntry_indexTree] at hcm
    show (findEntry p ct).isSome
    cases hfc : findEntry p ct with
    | none => rw [hfc] at hcm; simp at hcm
    | some f => simp

theorem covered2_init (oracle : IOOracle) (auto : Option String) (lt ct : FsTree) :
    covered2 ((runLoop1 oracle auto (indexTree ct) (indexTree lt) ⟨lt, ct⟩).st)
      (indexTree ct) (indexTree lt) := by
  intro e he _
  obtain ⟨p, m⟩ := e
  apply runLoop1_read_mono
  obtain ⟨f, hf, _⟩ := mem_indexTree.mp he
  show (findEntry p ct).isSome
  exact findEntry_isSome_of_mem hf

theorem sync_trace_mem {oracle : IOOracle} {lp cp : String}
    {lr cr : RootState} {auto : Option String}
    (hl : lr.pathExists = true) (hc : cr.pathExists = true) :
    ∀ op ∈ (sync_game_saves oracle lp cp lr cr auto).trace,
      op ∈ (runLoop1 oracle auto (indexTree cr.treeOf) (indexTree lr.treeOf)
        ⟨lr.treeOf, cr.treeOf⟩).ops ∨
      op ∈ (runLoop2 oracle (indexTree lr.treeOf) (indexTree cr.treeOf)
        ((runLoop1 oracle auto (indexTree cr.treeOf) (indexTree lr.treeOf)
          ⟨lr.treeOf, cr.treeOf⟩).st)).ops := by
  intro op hop
  rcases h1 : runLoop1 oracle auto (indexTree cr.treeOf) (indexTree lr.treeOf)
      ⟨lr.treeOf, cr.treeOf⟩ with ⟨st1, ops1, res1⟩
  cases res1 with
  | error e =>
    rw [sync_valid_loop1_err hl hc h1] at hop
    exact Or.inl hop
  | ok v =>
    obtain ⟨n1, cs⟩ := v
    rcases h2 : runLoop2 oracle (indexTree lr.treeOf) (indexTree cr.treeOf) st1 with
      ⟨st2, ops2, res2⟩
    cases res2 with
    | error e =>
      rw [sync_valid_loop2_err hl hc h1 h2] at hop
      simp at hop
      rcases hop with hop | hop
      · exact Or.inl hop
      · exact Or.inr hop
    | ok n2 =>
      rw [sync_valid_ok hl hc h1 h2] at hop
      simp at hop
      rcases hop with hop | hop
      · exact Or.inl hop
      · exact Or.inr hop

/-- C1: for every relative path present in both tree indexes, the run
classifies it as identical exactly when the two modification times are
bit-for-bit equal (and no transfer ever touches such a path, whatever
the sizes or contents are) and as divergent otherwise; a path present in
only one index is classified local-only or cloud-only; and every path in
the union of both indexes falls in exactly one of the four classes,
never more than one, never zero. -/
theorem claim_c1 :
    (∀ (lmap cmap : List (RelPath × Nat)) (p : RelPath) (lm cm : Nat),
      findEntry p lmap = some lm → findEntry p cmap = some cm →
      ((classify lmap cmap p = some FileClass.identical) ↔ lm = cm) ∧
      ((classify lmap cmap p = some FileClass.divergent) ↔ lm ≠ cm)) ∧
    (∀ (lmap cmap : List (RelPath × Nat)) (p : RelPath),
      (findEntry p lmap).isSome → findEntry p cmap = none →
      classify lmap cmap p = some FileClass.local_only) ∧
    (∀ (lmap cmap : List (RelPath × Nat)) (p : RelPath),
      findEntry p lmap = none → (findEntry p cmap).isSome →
      classify lmap cmap p = some FileClass.cloud_only) ∧
    (∀ (lmap cmap : List (RelPath × Nat)) (p : RelPath),
      (((findEntry p lmap).isSome ∨ (findEntry p cmap).isSome) ↔
        ∃ c, classify lmap cmap p = some c) ∧
      (∀ c c', classify lmap cmap p = some c → classify lmap cmap p = some c' →
        c = c')) ∧
    (∀ (oracle : IOOracle) (lp cp : String) (ltree ctree : FsTree)
      (auto : Option String) (p : RelPath) (m : Nat),
      (keysOf ltree).Nodup → (keysOf ctree).Nodup →
      findEntry p (indexTree ltree) = some m →
      findEntry p (indexTree ctree) = some m →
      ∀ op ∈ (sync_game_saves oracle lp cp (RootState.dir ltree)
        (RootState.dir ctree) auto).trace, op.copyTouches p = false) := by
  refine ⟨?_, ?_, ?_, ?_, ?_⟩
  · intro lmap cmap p lm cm hl hc
    unfold classify
    rw [hl, hc]
    by_cases h : lm = cm <;> simp [h]
  · intro lmap cmap p hl hc
    obtain ⟨lm, hlm⟩ := Option.isSome_iff_exists.mp hl
    unfold classify
    rw [hlm, hc]
  · intro lmap cmap p hl hc
    obtain ⟨cm, hcm⟩ := Option.isSome_iff_exists.mp hc
    unfold classify
    rw [hl, hcm]
  · intro lmap cmap p
    constructor
    · unfold classify
      cases hl : findEntry p lmap <;> cases hc : findEntry p cmap <;> simp
    · intro c c' h1 h2
      rw [h1] at h2
      exact Option.some.inj h2
  · intro oracle lp cp ltree ctree auto p m hndl hndc hfl hfc op hop
    cases hb : op.copyTouches p with
    | false => rfl
    | true =>
      exfalso
      have hvalid := @sync_trace_mem oracle lp cp
        (RootState.dir ltree) (RootState.dir ctree) auto
        rfl rfl op hop
      rcases hvalid with hmem | hmem
      · obtain ⟨lm', hmem', _, hnid⟩ :=
          runLoop1_copy_entries oracle auto (indexTree (RootState.dir ctree).treeOf) p
            (indexTree (RootState.dir ltree).treeOf) ⟨(RootState.dir ltree).treeOf,
              (RootState.dir ctree).treeOf⟩ op hmem hb
        apply hnid
        have hnd' : (keysOf (indexTree (RootState.dir ltree).treeOf)).Nodup := by
          rw [keysOf_indexTree]
          exact hndl
        have := findEntry_of_nodup_mem hnd' hmem'
        rw [show (RootState.dir ltree).treeOf = ltree from rfl] at this
        rw [this] at hfl
        rw [show (RootState.dir ctree).treeOf = ctree from rfl]
        rw [← Option.some.inj hfl] at hfc
        exact hfc
      · obtain ⟨_, hnone⟩ :=
          runLoop2_copy_entries oracle (indexTree (RootState.dir ltree).treeOf) p
            (indexTree (RootState.dir ctree).treeOf) _ op hmem hb
        rw [show (RootState.dir ltree).treeOf = ltree from rfl] at hnone
        rw [hnone] at hfl
        simp at hfl

/-- Witness for C1 at concrete inputs: a path on both sides with equal
timestamps is identical and no copy in the run touches it, unequal
timestamps are divergent, and one-sided paths are local-only. -/
theorem claim_c1_witness :
    ((classify [(["a"], 1)] [(["a"], 1)] ["a"] = some FileClass.identical) ↔ (1 : Nat) = 1) ∧
    ((classify [(["a"], 5)] [(["a"], 7)] ["a"] = some FileClass.divergent) ↔ (5 : Nat) ≠ 7) ∧
    classify [(["a"], 1)] [] ["a"] = some FileClass.local_only ∧
    (Op.mkdirAll (Side.cld, [])).copyTouches ["a"] = false := by
  refine ⟨(claim_c1.1 [(["a"], 1)] [(["a"], 1)] ["a"] 1 1 (by decide) (by decide)).1,
    (claim_c1.1 [(["a"], 5)] [(["a"], 7)] ["a"] 5 7 (by decide) (by decide)).2,
    claim_c1.2.1 [(["a"], 1)] [] ["a"] (by decide) rfl, ?_⟩
  exact claim_c1.2.2.2.2 reliable "L" "C" [(["a"], ⟨1, 10, 100⟩), (["b"], ⟨2, 2, 2⟩)]
    [(["a"], ⟨1, 10, 100⟩)] none ["a"] 1 (by decide) (by decide) (by decide) (by decide)
    (Op.mkdirAll (Side.cld, [])) (by decide)

/-- C2: for every divergent entry the resolution decision is a pure
function of the run-wide policy: policy "local" always copies
local→cloud, policy "cloud" always copies cloud→local, policy "newer"
copies the strictly newer side, a timestamp tie falling back to copying
cloud→local; an absent or unrecognized policy yields an unresolved
conflict record, and under such a policy no copy ever touches a path
present in both indexes. -/
theorem claim_c2 :
    (∀ lm cm : Nat, resolveAction (some "local") lm cm = SyncAction.toCloud) ∧
    (∀ lm cm : Nat, resolveAction (some "cloud") lm cm = SyncAction.toLocal) ∧
    (∀ lm cm : Nat, lm > cm → resolveAction (some "newer") lm cm = SyncAction.toCloud) ∧
    (∀ lm cm : Nat, cm > lm → resolveAction (some "newer") lm cm = SyncAction.toLocal) ∧
    (∀ lm : Nat, resolveAction (some "newer") lm lm = SyncAction.toLocal) ∧
    (∀ lm cm : Nat, resolveAction none lm cm = SyncAction.unresolved) ∧
    (∀ s : String, s ≠ "local" → s ≠ "cloud" → s ≠ "newer" →
      ∀ lm cm : Nat, resolveAction (some s) lm cm = SyncAction.unresolved) ∧
    (∀ (oracle : IOOracle) (auto : Option String) (cmap : List (RelPath × Nat))
      (st : St) (p : RelPath) (lm cm : Nat),
      findEntry p cmap = some cm → lm ≠ cm →
      syncEntry1 oracle auto cmap st p lm =
        match resolveAction auto lm cm with
        | SyncAction.toCloud => copyCounted oracle st (Side.loc, p) (Side.cld, p)
        | SyncAction.toLocal => copyCounted oracle st (Side.cld, p) (Side.loc, p)
        | SyncAction.unresolved => recordConflict oracle st p lm cm) ∧
    (∀ (oracle : IOOracle) (lp cp : String) (lr cr : RootState) (auto : Option String),
      (auto = none ∨ ∃ s, auto = some s ∧ s ≠ "local" ∧ s ≠ "cloud" ∧ s ≠ "newer") →
      ∀ p : RelPath, (findEntry p (indexTree lr.treeOf)).isSome →
      (findEntry p (indexTree cr.treeOf)).isSome →
      ∀ op ∈ (sync_game_saves oracle lp cp lr cr auto).trace,
        op.copyTouches p = false) := by
  refine ⟨?_, ?_, ?_, ?_, ?_, ?_, ?_, ?_, ?_⟩
  · intro lm cm; simp [resolveAction]
  · intro lm cm; simp [resolveAction]
  · intro lm cm h; simp [resolveAction, h]
  · intro lm cm h; simp [resolveAction, Nat.lt_asymm h]
  · intro lm; simp [resolveAction]
  · intro lm cm; rfl
  · intro s h1 h2 h3 lm cm; simp [resolveAction, h1, h2, h3]
  · intro oracle auto cmap st p lm cm hc hne
    exact syncEntry1_divergent oracle auto cmap st p hc hne
  · intro oracle lp cp lr cr auto hpol p hl hcm op hop
    have hunres : ∀ lm' cm' : Nat, resolveAction auto lm' cm' = SyncAction.unresolved := by
      intro lm' cm'
      rcases hpol with h | ⟨s, hs, h1, h2, h3⟩
      · rw [h]; rfl
      · rw [hs]; simp [resolveAction, h1, h2, h3]
    cases hb : op.copyTouches p with
    | false => rfl
    | true =>
      exfalso
      have hlval : lr.pathExists = true := by
        cases hlr : lr <;> rw [hlr] at hl <;> simp [RootState.treeOf, indexTree, findEntry] at hl <;> rfl
      have hcval : cr.pathExists = true := by
        cases hcr : cr <;> rw [hcr] at hcm <;> simp [RootState.treeOf, indexTree, findEntry] at hcm <;> rfl
      have hvalid := @sync_trace_mem oracle lp cp lr cr auto hlval hcval op hop
      obtain ⟨cm', hcm'⟩ := Option.isSome_iff_exists.mp hcm
      rcases hvalid with hmem | hmem
      · obtain ⟨lm', hmem', hnec, hnid⟩ :=
          runLoop1_copy_entries oracle auto (indexTree cr.treeOf) p
            (indexTree lr.treeOf) ⟨lr.treeOf, cr.treeOf⟩ op hmem hb
        by_cases heq : lm' = cm'
        · exact hnid (by rw [heq]; exact hcm')
        · exact hnec ⟨cm', hcm', heq, hunres lm' cm'⟩
      · obtain ⟨_, hnone⟩ :=
          runLoop2_copy_entries oracle (indexTree lr.treeOf) p
            (indexTree cr.treeOf) _ op hmem hb
        rw [hnone] at hl
        simp at hl

/-- Witness for C2 at concrete timestamps and a concrete unrecognized
policy string. -/
theorem claim_c2_witness :
    resolveAction (some "newer") 9 4 = SyncAction.toCloud ∧
    resolveAction (some "newer") 4 9 = SyncAction.toLocal ∧
    resolveAction (some "merge") 9 4 = SyncAction.unresolved ∧
    syncEntry1 reliable (some "local") [(["a"], 2)] ⟨[(["a"], ⟨1, 1, 1⟩)], [(["a"], ⟨2, 2, 2⟩)]⟩ ["a"] 1 =
      copyCounted reliable ⟨[(["a"], ⟨1, 1, 1⟩)], [(["a"], ⟨2, 2, 2⟩)]⟩ (Side.loc, ["a"]) (Side.cld, ["a"]) := by
  refine ⟨claim_c2.2.2.1 9 4 (by decide), claim_c2.2.2.2.1 4 9 (by decide),
    claim_c2.2.2.2.2.2.2.1 "merge" (by decide) (by decide) (by decide) 9 4, ?_⟩
  have h := claim_c2.2.2.2.2.2.2.2.1 reliable (some "local") [(["a"], 2)]
    ⟨[(["a"], ⟨1, 1, 1⟩)], [(["a"], ⟨2, 2, 2⟩)]⟩ ["a"] 1 2 (by decide) (by decide)
  rw [h]
  rfl

/-- C3: the returned SyncResult has success true iff its conflicts list
is empty; its message is exactly "Successfully synced N file(s)" with N
= files_synced when there are no conflicts and "Found N conflict(s) -
user resolution required" with N = the number of conflicts otherwise;
and with both roots present and a failure-free environment the run
always completes with a report (conflicts included), never an error. -/
theorem claim_c3 :
    (∀ (oracle : IOOracle) (lp cp : String) (lr cr : RootState)
      (auto : Option String) (r : SyncResult),
      (sync_game_saves oracle lp cp lr cr auto).result = Except.ok r →
      ((r.success = true) ↔ r.conflicts = []) ∧
      r.message =
        (if r.conflicts.isEmpty then
          "Successfully synced " ++ toString r.files_synced ++ " file(s)"
        else
          "Found " ++ toString r.conflicts.length ++ " conflict(s) - user resolution required")) ∧
    (∀ (lp cp : String) (lr cr : RootState) (auto : Option String),
      lr.pathExists = true → cr.pathExists = true →
      ∃ r, (sync_game_saves reliable lp cp lr cr auto).result = Except.ok r) := by
  constructor
  · intro oracle lp cp lr cr auto r h
    cases hlval : lr.pathExists with
    | false => rw [sync_missing_local hlval] at h; simp at h
    | true =>
      cases hcval : cr.pathExists with
      | false => rw [sync_missing_cloud hlval hcval] at h; simp at h
      | true =>
        obtain ⟨st1, ops1, n1, cs, st2, ops2, n2, h1, h2, hrun, hr⟩ :=
          sync_ok_elim hlval hcval h
        subst hr
        constructor
        · simp [List.isEmpty_iff]
        · simp
  · intro lp cp lr cr auto hlval hcval
    have hall : ∀ op, reliable op = none := fun _ => rfl
    obtain ⟨v1, hres1⟩ := runLoop1_ok_total reliable auto (indexTree cr.treeOf)
      hall (indexTree lr.treeOf) ⟨lr.treeOf, cr.treeOf⟩
      (covered1_init lr.treeOf cr.treeOf)
    obtain ⟨n1, cs⟩ := v1
    rcases hL1 : runLoop1 reliable auto (indexTree cr.treeOf) (indexTree lr.treeOf)
      ⟨lr.treeOf, cr.treeOf⟩ with ⟨st1, ops1, res1⟩
    rw [hL1] at hres1
    simp at hres1
    subst hres1
    have hcov2 := covered2_init reliable auto lr.treeOf cr.treeOf
    rw [hL1] at hcov2
    obtain ⟨n2, hres2⟩ := runLoop2_ok_total reliable (indexTree lr.treeOf) hall
      (indexTree cr.treeOf) st1 hcov2
    rcases hL2 : runLoop2 reliable (indexTree lr.treeOf) (indexTree cr.treeOf) st1 with
      ⟨st2, ops2, res2⟩
    rw [hL2] at hres2
    simp at hres2
    subst hres2
    rw [sync_valid_ok hlval hcval hL1 hL2]
    exact ⟨_, rfl⟩

/-- Witness for C3: a concrete divergent run with no policy completes
with success false, one conflict, and the exact conflict message. -/
theorem claim_c3_witness :
    (∃ r, (sync_game_saves reliable "L" "C"
      (RootState.dir [(["a"], ⟨1, 1, 1⟩)]) (RootState.dir [(["a"], ⟨2, 2, 2⟩)])
      none).result = Except.ok r) ∧
    (((⟨false, "Found 1 conflict(s) - user resolution required", 0,
        [⟨["a"], (Side.loc, ["a"]), (Side.cld, ["a"]), 1, 2, 1, 2⟩]⟩ : SyncResult).success = true) ↔
      (⟨false, "Found 1 conflict(s) - user resolution required", 0,
        [⟨["a"], (Side.loc, ["a"]), (Side.cld, ["a"]), 1, 2, 1, 2⟩]⟩ : SyncResult).conflicts = []) := by
  constructor
  · exact claim_c3.2 "L" "C" (RootState.dir [(["a"], ⟨1, 1, 1⟩)])
      (RootState.dir [(["a"], ⟨2, 2, 2⟩)]) none rfl rfl
  · exact (claim_c3.1 reliable "L" "C" (RootState.dir [(["a"], ⟨1, 1, 1⟩)])
      (RootState.dir [(["a"], ⟨2, 2, 2⟩)]) none _ rfl).1

/-- Counterexample for C5: a cloud root that exists but is a plain file
(not a directory) is not rejected — the run returns a normal report
instead of failing with an error. -/
theorem claim_c5_counterexample :
    RootState.plainFile.pathExists = true ∧
    (sync_game_saves reliable "L" "C" (RootState.dir []) RootState.plainFile
      none).result = Except.ok ⟨true, "Successfully synced 0 file(s)", 0, []⟩ :=
  ⟨rfl, rfl⟩

/-- C5 (amended): if either root path does not exist the run fails, local
side checked first, with an error naming the side and the path, before
any filesystem side effect (empty trace, untouched trees) and without a
report; a root that exists but is not a directory is not rejected — it
passes validation and is indexed as an empty tree. -/
theorem claim_c5_amended :
    (∀ (oracle : IOOracle) (lp cp : String) (lr cr : RootState) (auto : Option String),
      lr.pathExists = false →
      sync_game_saves oracle lp cp lr cr auto =
        ⟨⟨lr.treeOf, cr.treeOf⟩, [], Except.error ("Local path does not exist: " ++ lp)⟩) ∧
    (∀ (oracle : IOOracle) (lp cp : String) (lr cr : RootState) (auto : Option String),
      lr.pathExists = true → cr.pathExists = false →
      sync_game_saves oracle lp cp lr cr auto =
        ⟨⟨lr.treeOf, cr.treeOf⟩, [], Except.error ("Cloud path does not exist: " ++ cp)⟩) ∧
    RootState.plainFile.pathExists = true ∧
    RootState.plainFile.treeOf = [] := by
  refine ⟨?_, ?_, rfl, rfl⟩
  · intro oracle lp cp lr cr auto hl
    exact sync_missing_local hl
  · intro oracle lp cp lr cr auto hl hc
    exact sync_missing_cloud hl hc

/-- Witness for C5 (amended) at a concrete missing local root. -/
theorem claim_c5_amended_witness :
    sync_game_saves reliable "savedir" "clouddir" RootState.missing
      (RootState.dir []) none =
      ⟨⟨[], []⟩, [], Except.error "Local path does not exist: savedir"⟩ :=
  claim_c5_amended.1 reliable "savedir" "clouddir" RootState.missing
    (RootState.dir []) none rfl

/-- Counterexample for C8: `resolve_conflict` is not the spec's Transfer
primitive — on the same nested conflict record the Transfer primitive
creates the destination's parent directories first, while
`resolve_conflict` performs the bare copy only. -/
theorem claim_c8_counterexample :
    (resolve_conflict reliable ⟨[(["a", "b"], ⟨1, 1, 1⟩)], []⟩
      (Side.loc, ["a", "b"]) (Side.cld, ["a", "b"]) true).ops =
      [Op.copy (Side.loc, ["a", "b"]) (Side.cld, ["a", "b"])] ∧
    (transferPrimitiveSpec reliable ⟨[(["a", "b"], ⟨1, 1, 1⟩)], []⟩
      (Side.loc, ["a", "b"]) (Side.cld, ["a", "b"])).ops =
      [Op.mkdirAll (Side.cld, ["a"]), Op.copy (Side.loc, ["a", "b"]) (Side.cld, ["a", "b"])] ∧
    (resolve_conflict reliable ⟨[(["a", "b"], ⟨1, 1, 1⟩)], []⟩
      (Side.loc, ["a", "b"]) (Side.cld, ["a", "b"]) true).ops ≠
    (transferPrimitiveSpec reliable ⟨[(["a", "b"], ⟨1, 1, 1⟩)], []⟩
      (Side.loc, ["a", "b"]) (Side.cld, ["a", "b"])).ops := by
  refine ⟨rfl, rfl, ?_⟩
  decide

/-- C8 (amended): `resolve_conflict` copies the local file over the
cloud path when `use_local` is true and the reverse otherwise,
overwriting an existing destination unconditionally, but it performs no
directory creation whatsoever — it is the bare copy, not the Transfer
primitive with its create-directories-first step. -/
theorem claim_c8_amended :
    (∀ (oracle : IOOracle) (st : St) (lp cp : AbsPath),
      resolve_conflict oracle st lp cp true = copy_file oracle st lp cp) ∧
    (∀ (oracle : IOOracle) (st : St) (lp cp : AbsPath),
      resolve_conflict oracle st lp cp false = copy_file oracle st cp lp) ∧
    (∀ (oracle : IOOracle) (st : St) (lp cp : AbsPath) (b : Bool),
      ∀ op ∈ (resolve_conflict oracle st lp cp b).ops, op.isMkdirOp = false) ∧
    (∀ (oracle : IOOracle) (st : St) (lp cp : AbsPath) (f g : File),
      st.read lp = some f → st.read cp = some g →
      oracle (Op.copy lp cp) = none →
      ((resolve_conflict oracle st lp cp true).st).read cp = some f) := by
  refine ⟨fun oracle st lp cp => rfl, fun oracle st lp cp => rfl, ?_, ?_⟩
  · intro oracle st lp cp b op hop
    have hcases : ∀ (src dst : AbsPath), op ∈ (copy_file oracle st src dst).ops →
        op.isMkdirOp = false := by
      intro src dst hmem
      unfold copy_file at hmem
      cases ho : oracle (Op.copy src dst) with
      | some e => rw [ho] at hmem; simp at hmem
      | none =>
        rw [ho] at hmem
        cases hr : st.read src with
        | none => rw [hr] at hmem; simp at hmem
        | some f =>
          rw [hr] at hmem
          simp at hmem
          rw [hmem]
          rfl
    cases b with
    | true => exact hcases lp cp hop
    | false => exact hcases cp lp hop
  · intro oracle st lp cp f g hf hg ho
    show ((copy_file oracle st lp cp).st).read cp = some f
    rw [copy_file_of_none ho hf]
    exact St.read_write_self st cp f

/-- Witness for C8 (amended): a concrete overwrite of an existing
destination file. -/
theorem claim_c8_amended_witness :
    ((resolve_conflict reliable ⟨[(["a"], ⟨5, 5, 5⟩)], [(["a"], ⟨9, 9, 9⟩)]⟩
      (Side.loc, ["a"]) (Side.cld, ["a"]) true).st).read (Side.cld, ["a"]) =
      some ⟨5, 5, 5⟩ :=
  claim_c8_amended.2.2.2 reliable ⟨[(["a"], ⟨5, 5, 5⟩)], [(["a"], ⟨9, 9, 9⟩)]⟩
    (Side.loc, ["a"]) (Side.cld, ["a"]) ⟨5, 5, 5⟩ ⟨9, 9, 9⟩ rfl rfl rfl

/-- C10: in every run of sync_game_saves that returns a SyncResult,
files_synced equals exactly the number of file-copy operations performed
during that run, and no relative path is both copied and reported in the
conflicts list of the same run. -/
theorem claim_c10 (oracle : IOOracle) (lp cp : String) (ltree ctree : FsTree)
    (auto : Option String) (r : SyncResult)
    (hndl : (keysOf ltree).Nodup) (hndc : (keysOf ctree).Nodup)
    (h : (sync_game_saves oracle lp cp (RootState.dir ltree) (RootState.dir ctree)
      auto).result = Except.ok r) :
    r.files_synced =
      (((sync_game_saves oracle lp cp (RootState.dir ltree) (RootState.dir ctree)
        auto).trace).filter Op.isCopyOp).length ∧
    ∀ c ∈ r.conflicts,
      ∀ op ∈ (sync_game_saves oracle lp cp (RootState.dir ltree) (RootState.dir ctree)
        auto).trace, op.copyTouches c.relative_path = false := by
  obtain ⟨st1, ops1, n1, cs, st2, ops2, n2, h1, h2, hrun, hr⟩ :=
    sync_ok_elim (rfl : (RootState.dir ltree).pathExists = true)
      (rfl : (RootState.dir ctree).pathExists = true) h
  simp only [RootState.treeOf] at h1 h2
  have htrace : (sync_game_saves oracle lp cp (RootState.dir ltree)
      (RootState.dir ctree) auto).trace = ops1 ++ ops2 := by rw [hrun]
  constructor
  · have hn1 : n1 = (ops1.filter Op.isCopyOp).length := by
      have := runLoop1_count oracle auto (indexTree ctree) (indexTree ltree)
        ⟨ltree, ctree⟩ n1 cs (by rw [h1])
      rw [h1] at this
      exact this
    have hn2 : n2 = (ops2.filter Op.isCopyOp).length := by
      have := runLoop2_count oracle (indexTree ltree) (indexTree ctree) st1 n2 (by rw [h2])
      rw [h2] at this
      exact this
    rw [htrace, hr]
    simp [List.filter_append, hn1, hn2]
  · intro c hc op hop
    rw [hr] at hc
    simp only at hc
    obtain ⟨lm, hmem, hec⟩ := runLoop1_conflicts oracle auto (indexTree ctree)
      (indexTree ltree) ⟨ltree, ctree⟩ n1 cs (by rw [h1]) c hc
    rw [htrace] at hop
    cases hb : op.copyTouches c.relative_path with
    | false => rfl
    | true =>
      exfalso
      rcases List.mem_append.mp hop with hop1 | hop2
      · obtain ⟨lm', hmem', hnec, _⟩ := runLoop1_copy_entries oracle auto
          (indexTree ctree) c.relative_path (indexTree ltree) ⟨ltree, ctree⟩ op
          (by rw [h1]; exact hop1) hb
        have hnd' : (keysOf (indexTree ltree)).Nodup := by
          rw [keysOf_indexTree]; exact hndl
        have : lm = lm' := keys_value_unique hnd' hmem hmem'
        subst this
        exact hnec hec
      · obtain ⟨_, hnone⟩ := runLoop2_copy_entries oracle (indexTree ltree)
          c.relative_path (indexTree ctree) st1 op (by rw [h2]; exact hop2) hb
        have : (findEntry c.relative_path (indexTree ltree)).isSome :=
          findEntry_isSome_of_mem hmem
        rw [hnone] at this
        simp at this

/-- Witness for C10 on a concrete mixed run: one local-only copy, one
cloud-only copy and one unresolved conflict. -/
theorem claim_c10_witness :
    (⟨false, "Found 1 conflict(s) - user resolution required", 2,
      [⟨["a"], (Side.loc, ["a"]), (Side.cld, ["a"]), 1, 2, 1, 2⟩]⟩ : SyncResult).files_synced =
      (((sync_game_saves reliable "L" "C"
        (RootState.dir [(["a"], ⟨1, 1, 1⟩), (["b"], ⟨3, 3, 3⟩)])
        (RootState.dir [(["a"], ⟨2, 2, 2⟩), (["c"], ⟨4, 4, 4⟩)]) none).trace).filter
          Op.isCopyOp).length :=
  (claim_c10 reliable "L" "C" [(["a"], ⟨1, 1, 1⟩), (["b"], ⟨3, 3, 3⟩)]
    [(["a"], ⟨2, 2, 2⟩), (["c"], ⟨4, 4, 4⟩)] none
    ⟨false, "Found 1 conflict(s) - user resolution required", 2,
      [⟨["a"], (Side.loc, ["a"]), (Side.cld, ["a"]), 1, 2, 1, 2⟩]⟩
    (by decide) (by decide) rfl).1

theorem filter_touches_nil {p : RelPath} {ops : List Op}
    (h : ∀ op ∈ ops, op.copyTouches p = false) :
    ops.filter (fun op => op.copyTouches p) = [] := by
  induction ops with
  | nil => rfl
  | cons op rest ih =>
    rw [List.filter_cons]
    simp only [h op (List.mem_cons_self _ _), Bool.false_eq_true, if_false]
    exact ih (fun o ho => h o (List.mem_cons_of_mem op ho))

theorem syncEntry1_not_touches {oracle : IOOracle} {auto : Option String}
    {cmap : List (RelPath × Nat)} {st : St} {q : RelPath} {lm : Nat} {p : RelPath}
    (hqp : q ≠ p) :
    ∀ op ∈ (syncEntry1 oracle auto cmap st q lm).ops, op.copyTouches p = false := by
  intro op hop
  have hshape := syncEntry1_ops oracle auto cmap st q lm op hop
  rcases hshape with hs | hs | hs | hs | hs <;> subst hs <;> simp [Op.copyTouches, hqp]

theorem syncEntry2_not_touches {oracle : IOOracle} {lmap : List (RelPath × Nat)}
    {st : St} {q : RelPath} {p : RelPath} (hqp : q ≠ p) :
    ∀ op ∈ (syncEntry2 oracle lmap st q).ops, op.copyTouches p = false := by
  intro op hop
  obtain ⟨_, hshape⟩ := syncEntry2_ops oracle lmap st q op hop
  rcases hshape with hs | hs <;> subst hs <;> simp [Op.copyTouches, hqp]

theorem runLoop1_not_touches (oracle : IOOracle) (auto : Option String)
    (cmap : List (RelPath × Nat)) {p : RelPath}
    (entries : List (RelPath × Nat)) (st : St) (hp : p ∉ keysOf entries) :
    ∀ op ∈ (runLoop1 oracle auto cmap entries st).ops, op.copyTouches p = false := by
  intro op hop
  cases hb : op.copyTouches p with
  | false => rfl
  | true =>
    exfalso
    obtain ⟨lm', hmem, _, _⟩ :=
      runLoop1_copy_entries oracle auto cmap p entries st op hop hb
    apply hp
    rw [← findEntry_isSome_iff]
    exact findEntry_isSome_of_mem hmem

theorem runLoop2_not_touches (oracle : IOOracle) (lmap : List (RelPath × Nat))
    {p : RelPath} (centries : List (RelPath × Nat)) (st : St)
    (hp : p ∉ keysOf centries) :
    ∀ op ∈ (runLoop2 oracle lmap centries st).ops, op.copyTouches p = false := by
  intro op hop
  cases hb : op.copyTouches p with
  | false => rfl
  | true =>
    exfalso
    obtain ⟨hmem, _⟩ := runLoop2_copy_entries oracle lmap p centries st op hop hb
    exact hp hmem

theorem runLoop1_count_at (oracle : IOOracle) (auto : Option String)
    (cmap : List (RelPath × Nat)) {p : RelPath} {lm : Nat} :
    ∀ (entries : List (RelPath × Nat)) (st : St) (n : Nat) (cs : List FileConflict),
      (keysOf entries).Nodup → (p, lm) ∈ entries → findEntry p cmap = none →
      (runLoop1 oracle auto cmap entries st).res = Except.ok (n, cs) →
      (((runLoop1 oracle auto cmap entries st).ops).filter
        (fun op => op.copyTouches p)).length = 1 := by
  intro entries
  induction entries with
  | nil => intro st n cs _ hmem; simp at hmem
  | cons hd rest ih =>
    obtain ⟨q, qm⟩ := hd
    intro st n cs hnd hmem hcnone h
    have hndq : q ∉ keysOf rest ∧ (keysOf rest).Nodup := by
      rw [show keysOf ((q, qm) :: rest) = q :: keysOf rest from rfl] at hnd
      exact ⟨(List.nodup_cons.mp hnd).1, (List.nodup_cons.mp hnd).2⟩
    obtain ⟨st', ops, k, cs1, st'', ops', n', cs2, hE, hL, hloop, hn, hcs⟩ :=
      runLoop1_cons_elim h
    rw [hloop]
    simp only [List.filter_append, List.length_append]
    rcases List.mem_cons.mp hmem with hmem1 | hmem2
    · have hq : q = p := by
        have := congrArg Prod.fst hmem1; simpa using this.symm
      subst hq
      have hqm : qm = lm := by
        have := congrArg Prod.snd hmem1; simpa using this.symm
      subst hqm
      have hrest : ops'.filter (fun op => op.copyTouches q) = [] := by
        refine filter_touches_nil (fun op hop => ?_)
        have := runLoop1_not_touches oracle auto cmap rest st' hndq.1 op
          (by rw [hL]; exact hop)
        exact this
      rw [hrest]
      rcases syncEntry1_localOnly_cases oracle auto cmap st q qm hcnone with
        ⟨f, _, _, _, hs⟩ | ⟨e, hs, _⟩ | ⟨e, hs, _, _⟩ <;> rw [hs] at hE <;> simp at hE
      obtain ⟨_, hops, _⟩ := hE
      rw [← hops]
      simp [Op.copyTouches]
    · have hqp : q ≠ p := by
        intro habs
        apply hndq.1
        rw [habs, ← findEntry_isSome_iff]
        exact findEntry_isSome_of_mem hmem2
      have hhd : ops.filter (fun op => op.copyTouches p) = [] := by
        refine filter_touches_nil (fun op hop => ?_)
        exact syncEntry1_not_touches hqp op (by rw [hE]; exact hop)
      rw [hhd]
      have := ih st' n' cs2 hndq.2 hmem2 hcnone (by rw [hL])
      rw [hL] at this
      simpa using this

theorem runLoop2_count_at (oracle : IOOracle) (lmap : List (RelPath × Nat))
    {p : RelPath} {cm : Nat} :
    ∀ (centries : List (RelPath × Nat)) (st : St) (n : Nat),
      (keysOf centries).Nodup → (p, cm) ∈ centries → findEntry p lmap = none →
      (runLoop2 oracle lmap centries st).res = Except.ok n →
      (((runLoop2 oracle lmap centries st).ops).filter
        (fun op => op.copyTouches p)).length = 1 := by
  intro centries
  induction centries with
  | nil => intro st n _ hmem; simp at hmem
  | cons hd rest ih =>
    obtain ⟨q, qm⟩ := hd
    intro st n hnd hmem hlnone h
    have hndq : q ∉ keysOf rest ∧ (keysOf rest).Nodup := by
      rw [show keysOf ((q, qm) :: rest) = q :: keysOf rest from rfl] at hnd
      exact ⟨(List.nodup_cons.mp hnd).1, (List.nodup_cons.mp hnd).2⟩
    obtain ⟨st', ops, k, st'', ops', n', hE, hL, hloop, hn⟩ := runLoop2_cons_elim h
    rw [hloop]
    simp only [List.filter_append, List.length_append]
    rcases List.mem_cons.mp hmem with hmem1 | hmem2
    · have hq : q = p := by
        have := congrArg Prod.fst hmem1; simpa using this.symm
      subst hq
      have hrest : ops'.filter (fun op => op.copyTouches q) = [] := by
        refine filter_touches_nil (fun op hop => ?_)
        exact runLoop2_not_touches oracle lmap rest st' hndq.1 op (by rw [hL]; exact hop)
      rw [hrest]
      rcases syncEntry2_cases oracle lmap st q hlnone with
        ⟨f, _, _, _, hs⟩ | ⟨e, hs, _⟩ | ⟨e, hs, _, _⟩ <;> rw [hs] at hE <;> simp at hE
      obtain ⟨_, hops, _⟩ := hE
      rw [← hops]
      simp [Op.copyTouches]
    · have hqp : q ≠ p := by
        intro habs
        apply hndq.1
        rw [habs, ← findEntry_isSome_iff]
        exact findEntry_isSome_of_mem hmem2
      have hhd : ops.filter (fun op => op.copyTouches p) = [] := by
        refine filter_touches_nil (fun op hop => ?_)
        exact syncEntry2_not_touches hqp op (by rw [hE]; exact hop)
      rw [hhd]
      have := ih st' n' hndq.2 hmem2 hlnone (by rw [hL])
      rw [hL] at this
      simpa using this

theorem runLoop1_entry_infix (oracle : IOOracle) (auto : Option String)
    (cmap : List (RelPath × Nat)) :
    ∀ (entries : List (RelPath × Nat)) (st : St) (n : Nat) (cs : List FileConflict),
      (runLoop1 oracle auto cmap entries st).res = Except.ok (n, cs) →
      ∀ (p : RelPath) (lm : Nat), (p, lm) ∈ entries →
      ∃ (st' : St) (pre post : List Op),
        (∃ v, (syncEntry1 oracle auto cmap st' p lm).res = Except.ok v) ∧
        (runLoop1 oracle auto cmap entries st).ops =
          pre ++ (syncEntry1 oracle auto cmap st' p lm).ops ++ post := by
  intro entries
  induction entries with
  | nil => intro st n cs _ p lm hmem; simp at hmem
  | cons hd rest ih =>
    obtain ⟨q, qm⟩ := hd
    intro st n cs h p lm hmem
    obtain ⟨st', ops, k, cs1, st'', ops', n', cs2, hE, hL, hloop, hn, hcs⟩ :=
      runLoop1_cons_elim h
    rcases List.mem_cons.mp hmem with hmem1 | hmem2
    · have hq : q = p := by
        have := congrArg Prod.fst hmem1; simpa using this.symm
      subst hq
      have hqm : qm = lm := by
        have := congrArg Prod.snd hmem1; simpa using this.symm
      subst hqm
      refine ⟨st, [], ops', ⟨(k, cs1), by rw [hE]⟩, ?_⟩
      rw [hloop, hE]
      simp
    · obtain ⟨stx, pre, post, hok, hopsx⟩ := ih st' n' cs2 (by rw [hL]) p lm hmem2
      rw [hL] at hopsx
      refine ⟨stx, ops ++ pre, post, hok, ?_⟩
      rw [hloop]
      simp only at hopsx ⊢
      rw [hopsx]
      simp [List.append_assoc]

theorem runLoop2_entry_infix (oracle : IOOracle) (lmap : List (RelPath × Nat)) :
    ∀ (centries : List (RelPath × Nat)) (st : St) (n : Nat),
      (runLoop2 oracle lmap centries st).res = Except.ok n →
      ∀ (p : RelPath) (cm : Nat), (p, cm) ∈ centries →
      ∃ (st' : St) (pre post : List Op),
        (∃ v, (syncEntry2 oracle lmap st' p).res = Except.ok v) ∧
        (runLoop2 oracle lmap centries st).ops =
          pre ++ (syncEntry2 oracle lmap st' p).ops ++ post := by
  intro centries
  induction centries with
  | nil => intro st n _ p cm hmem; simp at hmem
  | cons hd rest ih =>
    obtain ⟨q, qm⟩ := hd
    intro st n h p cm hmem
    obtain ⟨st', ops, k, st'', ops', n', hE, hL, hloop, hn⟩ := runLoop2_cons_elim h
    rcases List.mem_cons.mp hmem with hmem1 | hmem2
    · have hq : q = p := by
        have := congrArg Prod.fst hmem1; simpa using this.symm
      subst hq
      refine ⟨st, [], ops', ⟨k, by rw [hE]⟩, ?_⟩
      rw [hloop, hE]
      simp
    · obtain ⟨stx, pre, post, hok, hopsx⟩ := ih st' n' (by rw [hL]) p cm hmem2
      rw [hL] at hopsx
      refine ⟨stx, ops ++ pre, post, hok, ?_⟩
      rw [hloop]
      simp only at hopsx ⊢
      rw [hopsx]
      simp [List.append_assoc]

/-- C4: for every relative path present in exactly one root, after a run
that returns success, the path exists in both roots with the identical
file record: the run creates the missing destination parent directories
and then copies the file (the two operations appear consecutively in the
trace), the path is copied exactly once, and files_synced counts exactly
the copies performed. -/
theorem claim_c4 (oracle : IOOracle) (lp cp : String) (ltree ctree : FsTree)
    (auto : Option String) (r : SyncResult)
    (hndl : (keysOf ltree).Nodup) (hndc : (keysOf ctree).Nodup)
    (h : (sync_game_saves oracle lp cp (RootState.dir ltree) (RootState.dir ctree)
      auto).result = Except.ok r)
    (hsucc : r.success = true) :
    (∀ (p : RelPath) (lm : Nat),
      findEntry p (indexTree ltree) = some lm → findEntry p (indexTree ctree) = none →
      (∃ f, findEntry p ltree = some f ∧
        (((sync_game_saves oracle lp cp (RootState.dir ltree) (RootState.dir ctree)
          auto).state).read (Side.loc, p) = some f) ∧
        (((sync_game_saves oracle lp cp (RootState.dir ltree) (RootState.dir ctree)
          auto).state).read (Side.cld, p) = some f)) ∧
      (∃ pre post, (sync_game_saves oracle lp cp (RootState.dir ltree)
          (RootState.dir ctree) auto).trace =
        pre ++ [Op.mkdirAll (Side.cld, p.dropLast),
          Op.copy (Side.loc, p) (Side.cld, p)] ++ post) ∧
      (((sync_game_saves oracle lp cp (RootState.dir ltree) (RootState.dir ctree)
        auto).trace).filter (fun op => op.copyTouches p)).length = 1) ∧
    (∀ (p : RelPath) (cm : Nat),
      findEntry p (indexTree ltree) = none → findEntry p (indexTree ctree) = some cm →
      (∃ f, findEntry p ctree = some f ∧
        (((sync_game_saves oracle lp cp (RootState.dir ltree) (RootState.dir ctree)
          auto).state).read (Side.loc, p) = some f) ∧
        (((sync_game_saves oracle lp cp (RootState.dir ltree) (RootState.dir ctree)
          auto).state).read (Side.cld, p) = some f)) ∧
      (∃ pre post, (sync_game_saves oracle lp cp (RootState.dir ltree)
          (RootState.dir ctree) auto).trace =
        pre ++ [Op.mkdirAll (Side.loc, p.dropLast),
          Op.copy (Side.cld, p) (Side.loc, p)] ++ post) ∧
      (((sync_game_saves oracle lp cp (RootState.dir ltree) (RootState.dir ctree)
        auto).trace).filter (fun op => op.copyTouches p)).length = 1) ∧
    r.files_synced =
      (((sync_game_saves oracle lp cp (RootState.dir ltree) (RootState.dir ctree)
        auto).trace).filter Op.isCopyOp).length := by
  obtain ⟨st1, ops1, n1, cs, st2, ops2, n2, h1, h2, hrun, hr⟩ :=
    sync_ok_elim (rfl : (RootState.dir ltree).pathExists = true)
      (rfl : (RootState.dir ctree).pathExists = true) h
  simp only [RootState.treeOf] at h1 h2
  have htrace : (sync_game_saves oracle lp cp (RootState.dir ltree)
      (RootState.dir ctree) auto).trace = ops1 ++ ops2 := by rw [hrun]
  have hstate : (sync_game_saves oracle lp cp (RootState.dir ltree)
      (RootState.dir ctree) auto).state = st2 := by rw [hrun]
  have hndli : (keysOf (indexTree ltree)).Nodup := by rw [keysOf_indexTree]; exact hndl
  have hndci : (keysOf (indexTree ctree)).Nodup := by rw [keysOf_indexTree]; exact hndc
  have hcov2 : covered2 st1 (indexTree ctree) (indexTree ltree) := by
    have := covered2_init oracle auto ltree ctree
    rw [h1] at this
    exact this
  refine ⟨?_, ?_, ?_⟩
  · intro p lm hl hc
    have hmem : (p, lm) ∈ indexTree ltree := findEntry_mem hl
    have hf : ∃ f, findEntry p ltree = some f := by
      rw [findEntry_indexTree] at hl
      cases hft : findEntry p ltree with
      | none => rw [hft] at hl; simp at hl
      | some f => exact ⟨f, rfl⟩
    obtain ⟨f, hf⟩ := hf
    have hreads := runLoop1_reads oracle auto (indexTree ctree) (indexTree ltree)
      ⟨ltree, ctree⟩ n1 cs hndli (covered1_init ltree ctree) (by rw [h1]) p lm hmem
    rw [h1] at hreads
    have hr1 := hreads.1 hc
    simp only at hr1
    have hread0 : (⟨ltree, ctree⟩ : St).read (Side.loc, p) = some f := hf
    have hpnotc : p ∉ keysOf (indexTree ctree) := findEntry_eq_none_iff.mp hc
    have hfr2 : ∀ y : AbsPath, y.2 = p → st2.read y = st1.read y := by
      intro y hy
      have := runLoop2_frame oracle (indexTree ltree) (indexTree ctree) st1 y
        (by rw [hy]; exact hpnotc)
      rw [h2] at this
      exact this
    refine ⟨⟨f, hf, ?_, ?_⟩, ?_, ?_⟩
    · rw [hstate, hfr2 (Side.loc, p) rfl, hr1.1, hread0]
    · rw [hstate, hfr2 (Side.cld, p) rfl, hr1.2, hread0]
    · obtain ⟨st', pre, post, ⟨v, hok⟩, hops⟩ := runLoop1_entry_infix oracle auto
        (indexTree ctree) (indexTree ltree) ⟨ltree, ctree⟩ n1 cs (by rw [h1]) p lm hmem
      rw [h1] at hops
      simp only at hops
      rcases syncEntry1_localOnly_cases oracle auto (indexTree ctree) st' p lm hc with
        ⟨g, _, _, _, hs⟩ | ⟨e, hs, _⟩ | ⟨e, hs, _, _⟩ <;> rw [hs] at hok hops <;>
        simp at hok
      refine ⟨pre, post ++ ops2, ?_⟩
      rw [htrace, hops]
      simp [List.append_assoc]
    · rw [htrace]
      simp only [List.filter_append, List.length_append]
      have hc1 := runLoop1_count_at oracle auto (indexTree ctree) (indexTree ltree)
        ⟨ltree, ctree⟩ n1 cs hndli hmem hc (by rw [h1])
      rw [h1] at hc1
      simp only at hc1
      have hc2 : ops2.filter (fun op => op.copyTouches p) = [] := by
        refine filter_touches_nil (fun op hop => ?_)
        have := runLoop2_not_touches oracle (indexTree ltree) (indexTree ctree) st1
          hpnotc op (by rw [h2]; exact hop)
        exact this
      rw [hc1, hc2]
      rfl
  · intro p cm hl hc
    have hmem : (p, cm) ∈ indexTree ctree := findEntry_mem hc
    have hf : ∃ f, findEntry p ctree = some f := by
      rw [findEntry_indexTree] at hc
      cases hft : findEntry p ctree with
      | none => rw [hft] at hc; simp at hc
      | some f => exact ⟨f, rfl⟩
    obtain ⟨f, hf⟩ := hf
    have hpnotl : p ∉ keysOf (indexTree ltree) := findEntry_eq_none_iff.mp hl
    have hfr1 : ∀ y : AbsPath, y.2 = p → st1.read y = (⟨ltree, ctree⟩ : St).read y := by
      intro y hy
      have := runLoop1_frame oracle auto (indexTree ctree) (indexTree ltree)
        ⟨ltree, ctree⟩ y (by rw [hy]; exact hpnotl)
      rw [h1] at this
      exact this
    have hreads := runLoop2_reads oracle (indexTree ltree) (indexTree ctree) st1 n2
      hndci hcov2 (by rw [h2]) p cm hmem
    rw [h2] at hreads
    have hr2 := hreads.2 hl
    simp only at hr2
    have hread0 : (⟨ltree, ctree⟩ : St).read (Side.cld, p) = some f := hf
    refine ⟨⟨f, hf, ?_, ?_⟩, ?_, ?_⟩
    · rw [hstate, hr2.1, hfr1 (Side.cld, p) rfl, hread0]
    · rw [hstate, hr2.2, hfr1 (Side.cld, p) rfl, hread0]
    · obtain ⟨st', pre, post, ⟨v, hok⟩, hops⟩ := runLoop2_entry_infix oracle
        (indexTree ltree) (indexTree ctree) st1 n2 (by rw [h2]) p cm hmem
      rw [h2] at hops
      simp only at hops
      rcases syncEntry2_cases oracle (indexTree ltree) st' p hl with
        ⟨g, _, _, _, hs⟩ | ⟨e, hs, _⟩ | ⟨e, hs, _, _⟩ <;> rw [hs] at hok hops <;>
        simp at hok
      refine ⟨ops1 ++ pre, post, ?_⟩
      rw [htrace, hops]
      simp [List.append_assoc]
    · rw [htrace]
      simp only [List.filter_append, List.length_append]
      have hc2 := runLoop2_count_at oracle (indexTree ltree) (indexTree ctree) st1 n2
        hndci hmem hl (by rw [h2])
      rw [h2] at hc2
      simp only at hc2
      have hc1 : ops1.filter (fun op => op.copyTouches p) = [] := by
        refine filter_touches_nil (fun op hop => ?_)
        have := runLoop1_not_touches oracle auto (indexTree ctree) (indexTree ltree)
          ⟨ltree, ctree⟩ hpnotl op (by rw [h1]; exact hop)
        exact this
      rw [hc1, hc2]
      rfl
  · have hn1 : n1 = (ops1.filter Op.isCopyOp).length := by
      have := runLoop1_count oracle auto (indexTree ctree) (indexTree ltree)
        ⟨ltree, ctree⟩ n1 cs (by rw [h1])
      rw [h1] at this
      exact this
    have hn2 : n2 = (ops2.filter Op.isCopyOp).length := by
      have := runLoop2_count oracle (indexTree ltree) (indexTree ctree) st1 n2 (by rw [h2])
      rw [h2] at this
      exact this
    rw [htrace, hr]
    simp [List.filter_append, hn1, hn2]

/-- Witness for C4 on the nested-paths scenario: two local-only files
under a subdirectory are copied to the empty cloud root with their
parent directory created first, and files_synced is 2. -/
theorem claim_c4_witness :
    (∃ f, findEntry ["saves", "slot1"] [(["saves", "slot1"], ⟨1, 1, 1⟩),
        (["saves", "slot2"], ⟨2, 2, 2⟩)] = some f ∧
      (((sync_game_saves reliable "L" "C"
        (RootState.dir [(["saves", "slot1"], ⟨1, 1, 1⟩), (["saves", "slot2"], ⟨2, 2, 2⟩)])
        (RootState.dir []) none).state).read (Side.loc, ["saves", "slot1"]) = some f) ∧
      (((sync_game_saves reliable "L" "C"
        (RootState.dir [(["saves", "slot1"], ⟨1, 1, 1⟩), (["saves", "slot2"], ⟨2, 2, 2⟩)])
        (RootState.dir []) none).state).read (Side.cld, ["saves", "slot1"]) = some f)) ∧
    (∃ pre post, (sync_game_saves reliable "L" "C"
        (RootState.dir [(["saves", "slot1"], ⟨1, 1, 1⟩), (["saves", "slot2"], ⟨2, 2, 2⟩)])
        (RootState.dir []) none).trace =
      pre ++ [Op.mkdirAll (Side.cld, ["saves"]),
        Op.copy (Side.loc, ["saves", "slot1"]) (Side.cld, ["saves", "slot1"])] ++ post) :=
  ⟨((claim_c4 reliable "L" "C"
      [(["saves", "slot1"], ⟨1, 1, 1⟩), (["saves", "slot2"], ⟨2, 2, 2⟩)] [] none
      ⟨true, "Successfully synced 2 file(s)", 2, []⟩ (by decide) (by decide) rfl rfl).1
      ["saves", "slot1"] 1 (by decide) (by decide)).1,
    ((claim_c4 reliable "L" "C"
      [(["saves", "slot1"], ⟨1, 1, 1⟩), (["saves", "slot2"], ⟨2, 2, 2⟩)] [] none
      ⟨true, "Successfully synced 2 file(s)", 2, []⟩ (by decide) (by decide) rfl rfl).1
      ["saves", "slot1"] 1 (by decide) (by decide)).2.1⟩

/-- C7: if any directory creation or file copy fails during a run, the
run aborts with an error carrying the failing call's operating-system
message and returns no report (the result is an error, which excludes a
SyncResult); the final state is exactly the replay of the operations
actually performed — transfers committed before the failure remain, and
nothing past the trace was processed — and every traced operation
succeeded, so the failing call contributed nothing. -/
theorem claim_c7 (oracle : IOOracle) (lp cp : String) (lr cr : RootState)
    (auto : Option String)
    (hl : lr.pathExists = true) (hc : cr.pathExists = true) :
    ((sync_game_saves oracle lp cp lr cr auto).state =
      applyTrace ⟨lr.treeOf, cr.treeOf⟩ (sync_game_saves oracle lp cp lr cr auto).trace) ∧
    (∀ op ∈ (sync_game_saves oracle lp cp lr cr auto).trace, oracle op = none) ∧
    (∀ e, (sync_game_saves oracle lp cp lr cr auto).result = Except.error e →
      ∃ op, oracle op = some e) := by
  refine ⟨?_, ?_, ?_⟩
  · rcases h1 : runLoop1 oracle auto (indexTree cr.treeOf) (indexTree lr.treeOf)
        ⟨lr.treeOf, cr.treeOf⟩ with ⟨st1, ops1, res1⟩
    have ha1 : st1 = applyTrace ⟨lr.treeOf, cr.treeOf⟩ ops1 := by
      have := runLoop1_applyTrace oracle auto (indexTree cr.treeOf)
        (indexTree lr.treeOf) ⟨lr.treeOf, cr.treeOf⟩
      rw [h1] at this
      exact this
    cases res1 with
    | error e =>
      rw [sync_valid_loop1_err hl hc h1]
      exact ha1
    | ok v =>
      obtain ⟨n1, cs⟩ := v
      rcases h2 : runLoop2 oracle (indexTree lr.treeOf) (indexTree cr.treeOf) st1 with
        ⟨st2, ops2, res2⟩
      have ha2 : st2 = applyTrace st1 ops2 := by
        have := runLoop2_applyTrace oracle (indexTree lr.treeOf)
          (indexTree cr.treeOf) st1
        rw [h2] at this
        exact this
      cases res2 with
      | error e =>
        rw [sync_valid_loop2_err hl hc h1 h2]
        show st2 = applyTrace ⟨lr.treeOf, cr.treeOf⟩ (ops1 ++ ops2)
        rw [applyTrace_append, ← ha1, ha2]
      | ok n2 =>
        rw [sync_valid_ok hl hc h1 h2]
        show st2 = applyTrace ⟨lr.treeOf, cr.treeOf⟩ (ops1 ++ ops2)
        rw [applyTrace_append, ← ha1, ha2]
  · intro op hop
    rcases sync_trace_mem hl hc op hop with hmem | hmem
    · exact runLoop1_trace_ok oracle auto (indexTree cr.treeOf)
        (indexTree lr.treeOf) ⟨lr.treeOf, cr.treeOf⟩ op hmem
    · exact runLoop2_trace_ok oracle (indexTree lr.treeOf) (indexTree cr.treeOf) _ op hmem
  · intro e herr
    rcases h1 : runLoop1 oracle auto (indexTree cr.treeOf) (indexTree lr.treeOf)
        ⟨lr.treeOf, cr.treeOf⟩ with ⟨st1, ops1, res1⟩
    cases res1 with
    | error e' =>
      rw [sync_valid_loop1_err hl hc h1] at herr
      simp at herr
      subst herr
      exact runLoop1_error_oracle oracle auto (indexTree cr.treeOf)
        (indexTree lr.treeOf) ⟨lr.treeOf, cr.treeOf⟩ e'
        (covered1_init lr.treeOf cr.treeOf) (by rw [h1])
    | ok v =>
      obtain ⟨n1, cs⟩ := v
      rcases h2 : runLoop2 oracle (indexTree lr.treeOf) (indexTree cr.treeOf) st1 with
        ⟨st2, ops2, res2⟩
      cases res2 with
      | error e' =>
        rw [sync_valid_loop2_err hl hc h1 h2] at herr
        simp at herr
        subst herr
        have hcov2 : covered2 st1 (indexTree cr.treeOf) (indexTree lr.treeOf) := by
          have := covered2_init oracle auto lr.treeOf cr.treeOf
          rw [h1] at this
          exact this
        exact runLoop2_error_oracle oracle (indexTree lr.treeOf)
          (indexTree cr.treeOf) st1 e' hcov2 (by rw [h2])
      | ok n2 =>
        rw [sync_valid_ok hl hc h1 h2] at herr
        simp at herr

/-- Witness for C7 with an environment that fails every copy: the run
aborts with the copy's OS message and the trace holds only the
successful directory creation. -/
theorem claim_c7_witness :
    ∃ op, (fun o => match o with
      | Op.copy _ _ => some "disk full (os error 28)"
      | _ => none : IOOracle) op = some "disk full (os error 28)" :=
  (claim_c7 (fun o => match o with
      | Op.copy _ _ => some "disk full (os error 28)"
      | _ => none) "L" "C" (RootState.dir [(["a"], ⟨1, 1, 1⟩)]) (RootState.dir [])
    none rfl rfl).2.2 "disk full (os error 28)" rfl

/-! ### The earlier desktop-app engine against policy "newer" -/

theorem newer_never_unresolved (lm cm : Nat) :
    resolveAction (some "newer") lm cm ≠ SyncAction.unresolved := by
  by_cases h : lm > cm <;> simp [resolveAction, h]

theorem syncEntry1V0_eq (oracle : IOOracle) (cmap : List (RelPath × Nat))
    (st : St) (p : RelPath) (lm : Nat) :
    syncEntry1V0 oracle cmap st p lm =
      ⟨(syncEntry1 oracle (some "newer") cmap st p lm).st,
       (syncEntry1 oracle (some "newer") cmap st p lm).ops,
       ((syncEntry1 oracle (some "newer") cmap st p lm).res).map Prod.fst⟩ := by
  cases hc : findEntry p cmap with
  | some cm =>
    unfold syncEntry1V0
    rw [hc]
    by_cases hgt : lm > cm
    · have hne : lm ≠ cm := Nat.ne_of_gt hgt
      have hd := syncEntry1_divergent oracle (some "newer") cmap st p hc hne
      have hra : resolveAction (some "newer") lm cm = SyncAction.toCloud := by
        simp [resolveAction, hgt]
      rw [hra] at hd
      dsimp only at hd
      rw [hd, copyCounted_eq]
      simp only [hgt, if_true]
      rcases hcf : copy_file oracle st (Side.loc, p) (Side.cld, p) with ⟨st', ops, res⟩
      cases res <;> simp [Except.map]
    · by_cases hlt : cm > lm
      · have hne : lm ≠ cm := Nat.ne_of_lt hlt
        have hd := syncEntry1_divergent oracle (some "newer") cmap st p hc hne
        have hra : resolveAction (some "newer") lm cm = SyncAction.toLocal := by
          simp [resolveAction, hgt]
        rw [hra] at hd
        dsimp only at hd
        rw [hd, copyCounted_eq]
        simp only [hgt, if_false, hlt, if_true]
        rcases hcf : copy_file oracle st (Side.cld, p) (Side.loc, p) with ⟨st', ops, res⟩
        cases res <;> simp [Except.map]
      · have heq : lm = cm := Nat.le_antisymm (Nat.le_of_not_lt hgt) (Nat.le_of_not_lt hlt)
        subst heq
        rw [syncEntry1_identical oracle (some "newer") cmap st p lm hc]
        simp [Except.map]
    | none =>
      unfold syncEntry1V0
      rw [hc, syncEntry1_localOnly oracle (some "newer") cmap st p lm hc]
      rcases mkdir_all_cases oracle st (Side.cld, p.dropLast) with ⟨hm, _⟩ | ⟨e, hm, _⟩
      · rw [hm]
        dsimp only
        rw [copyCounted_eq]
        rcases hcf : copy_file oracle st (Side.loc, p) (Side.cld, p) with ⟨st', ops, res⟩
        cases res <;> simp [Except.map]
      · rw [hm]
        dsimp only
        simp [Except.map]

theorem runLoop1V0_eq (oracle : IOOracle) (cmap : List (RelPath × Nat)) :
    ∀ (entries : List (RelPath × Nat)) (st : St),
      runLoop1V0 oracle cmap entries st =
        ⟨(runLoop1 oracle (some "newer") cmap entries st).st,
         (runLoop1 oracle (some "newer") cmap entries st).ops,
         ((runLoop1 oracle (some "newer") cmap entries st).res).map Prod.fst⟩ := by
  intro entries
  induction entries with
  | nil => intro st; rw [runLoop1V0_nil, runLoop1_nil]; rfl
  | cons hd rest ih =>
    obtain ⟨p, lm⟩ := hd
    intro st
    have hv0 := syncEntry1V0_eq oracle cmap st p lm
    rcases hE : syncEntry1 oracle (some "newer") cmap st p lm with ⟨st', ops, res⟩
    rw [hE] at hv0
    cases res with
    | error e =>
      rw [runLoop1_cons_error hE, runLoop1V0_cons_error (by simpa [Except.map] using hv0)]
      simp [Except.map]
    | ok v =>
      obtain ⟨k, cs1⟩ := v
      have hv0' : syncEntry1V0 oracle cmap st p lm = ⟨st', ops, Except.ok k⟩ := by
        simpa [Except.map] using hv0
      rw [runLoop1_cons_ok hE, runLoop1V0_cons_ok hv0']
      have hih := ih st'
      rcases hL : runLoop1 oracle (some "newer") cmap rest st' with ⟨st'', ops', res'⟩
      rw [hL] at hih
      cases res' with
      | error e =>
        rw [combine1_error k cs1 ops rfl,
          combine2_error k ops (by simpa [Except.map] using hih)]
        simp [Except.map]
      | ok v' =>
        obtain ⟨n', cs2⟩ := v'
        rw [combine1_ok k cs1 ops rfl,
          combine2_ok k ops (by simpa [Except.map] using hih)]
        simp [Except.map]

theorem sync_v0_missing_local {oracle : IOOracle} {lp cp : String}
    {lr cr : RootState} (hl : lr.pathExists = false) :
    sync_game_saves_v0 oracle lp cp lr cr =
      ⟨⟨lr.treeOf, cr.treeOf⟩, [], Except.error ("Local path does not exist: " ++ lp)⟩ := by
  unfold sync_game_saves_v0
  rw [hl]
  rfl

theorem sync_v0_missing_cloud {oracle : IOOracle} {lp cp : String}
    {lr cr : RootState} (hl : lr.pathExists = true) (hc : cr.pathExists = false) :
    sync_game_saves_v0 oracle lp cp lr cr =
      ⟨⟨lr.treeOf, cr.treeOf⟩, [], Except.error ("Cloud path does not exist: " ++ cp)⟩ := by
  unfold sync_game_saves_v0
  rw [hl, hc]
  rfl

theorem sync_v0_valid_loop1_err {oracle : IOOracle} {lp cp : String}
    {lr cr : RootState} {st1 : St} {ops1 : List Op} {e : String}
    (hl : lr.pathExists = true) (hc : cr.pathExists = true)
    (h1 : runLoop1V0 oracle (indexTree cr.treeOf) (indexTree lr.treeOf)
      ⟨lr.treeOf, cr.treeOf⟩ = ⟨st1, ops1, Except.error e⟩) :
    sync_game_saves_v0 oracle lp cp lr cr = ⟨st1, ops1, Except.error e⟩ := by
  unfold sync_game_saves_v0
  simp only [hl, hc, Bool.true_eq_false, if_false]
  rw [h1]

theorem sync_v0_valid_loop2_err {oracle : IOOracle} {lp cp : String}
    {lr cr : RootState} {st1 st2 : St} {ops1 ops2 : List Op} {n1 : Nat} {e : String}
    (hl : lr.pathExists = true) (hc : cr.pathExists = true)
    (h1 : runLoop1V0 oracle (indexTree cr.treeOf) (indexTree lr.treeOf)
      ⟨lr.treeOf, cr.treeOf⟩ = ⟨st1, ops1, Except.ok n1⟩)
    (h2 : runLoop2 oracle (indexTree lr.treeOf) (indexTree cr.treeOf) st1 =
      ⟨st2, ops2, Except.error e⟩) :
    sync_game_saves_v0 oracle lp cp lr cr = ⟨st2, ops1 ++ ops2, Except.error e⟩ := by
  unfold sync_game_saves_v0
  simp only [hl, hc, Bool.true_eq_false, if_false]
  rw [h1]
  dsimp only
  rw [h2]

theorem sync_v0_valid_ok {oracle : IOOracle} {lp cp : String}
    {lr cr : RootState} {st1 st2 : St} {ops1 ops2 : List Op} {n1 n2 : Nat}
    (hl : lr.pathExists = true) (hc : cr.pathExists = true)
    (h1 : runLoop1V0 oracle (indexTree cr.treeOf) (indexTree lr.treeOf)
      ⟨lr.treeOf, cr.treeOf⟩ = ⟨st1, ops1, Except.ok n1⟩)
    (h2 : runLoop2 oracle (indexTree lr.treeOf) (indexTree cr.treeOf) st1 =
      ⟨st2, ops2, Except.ok n2⟩) :
    sync_game_saves_v0 oracle lp cp lr cr =
      ⟨st2, ops1 ++ ops2, Except.ok
        { success := true
          message := "Successfully synced " ++ toString (n1 + n2) ++ " file(s)"
          files_synced := n1 + n2 }⟩ := by
  unfold sync_game_saves_v0
  simp only [hl, hc, Bool.true_eq_false, if_false]
  rw [h1]
  dsimp only
  rw [h2]

theorem runLoop1_newer_conflicts_nil {oracle : IOOracle}
    {cmap entries : List (RelPath × Nat)} {st : St} {n : Nat} {cs : List FileConflict}
    (h : (runLoop1 oracle (some "newer") cmap entries st).res = Except.ok (n, cs)) :
    cs = [] := by
  apply List.eq_nil_iff_forall_not_mem.mpr
  intro c hc
  obtain ⟨lm, _, cm, _, _, hra⟩ :=
    runLoop1_conflicts oracle (some "newer") cmap entries st n cs h c hc
  exact newer_never_unresolved lm cm hra

theorem sync_v0_eq_newer (oracle : IOOracle) (lp cp : String) (lr cr : RootState) :
    sync_game_saves_v0 oracle lp cp lr cr =
      ⟨(sync_game_saves oracle lp cp lr cr (some "newer")).state,
       (sync_game_saves oracle lp cp lr cr (some "newer")).trace,
       ((sync_game_saves oracle lp cp lr cr (some "newer")).result).map
         (fun r => ⟨r.success, r.message, r.files_synced⟩)⟩ := by
  by_cases hl : lr.pathExists = true
  · by_cases hc : cr.pathExists = true
    · have hv0 := runLoop1V0_eq oracle (indexTree cr.treeOf) (indexTree lr.treeOf)
        ⟨lr.treeOf, cr.treeOf⟩
      rcases hL1 : runLoop1 oracle (some "newer") (indexTree cr.treeOf)
          (indexTree lr.treeOf) ⟨lr.treeOf, cr.treeOf⟩ with ⟨st1, ops1, res1⟩
      rw [hL1] at hv0
      cases res1 with
      | error e =>
        rw [sync_valid_loop1_err hl hc hL1,
          sync_v0_valid_loop1_err hl hc (by simpa [Except.map] using hv0)]
        simp [Except.map]
      | ok v =>
        obtain ⟨n1, cs⟩ := v
        have hcs : cs = [] := runLoop1_newer_conflicts_nil (by rw [hL1])
        subst hcs
        rcases hL2 : runLoop2 oracle (indexTree lr.treeOf) (indexTree cr.treeOf) st1
          with ⟨st2, ops2, res2⟩
        cases res2 with
        | error e =>
          rw [sync_valid_loop2_err hl hc hL1 hL2,
            sync_v0_valid_loop2_err hl hc (by simpa [Except.map] using hv0) hL2]
          simp [Except.map]
        | ok n2 =>
          rw [sync_valid_ok hl hc hL1 hL2,
            sync_v0_valid_ok hl hc (by simpa [Except.map] using hv0) hL2]
          simp [Except.map]
    · have hc' : cr.pathExists = false := by simpa using hc
      rw [sync_missing_cloud hl hc', sync_v0_missing_cloud hl hc']
      simp [Except.map]
  · have hl' : lr.pathExists = false := by simpa using hl
    rw [sync_missing_local hl', sync_v0_missing_local hl']
    simp [Except.map]

theorem sync_v0_success_true {oracle : IOOracle} {lp cp : String}
    {lr cr : RootState} {r0 : SyncResultV0}
    (h : (sync_game_saves_v0 oracle lp cp lr cr).result = Except.ok r0) :
    r0.success = true := by
  by_cases hl : lr.pathExists = true
  · by_cases hc : cr.pathExists = true
    · rcases hL1 : runLoop1V0 oracle (indexTree cr.treeOf) (indexTree lr.treeOf)
          ⟨lr.treeOf, cr.treeOf⟩ with ⟨st1, ops1, res1⟩
      cases res1 with
      | error e => rw [sync_v0_valid_loop1_err hl hc hL1] at h; simp at h
      | ok n1 =>
        rcases hL2 : runLoop2 oracle (indexTree lr.treeOf) (indexTree cr.treeOf) st1
          with ⟨st2, ops2, res2⟩
        cases res2 with
        | error e => rw [sync_v0_valid_loop2_err hl hc hL1 hL2] at h; simp at h
        | ok n2 =>
          rw [sync_v0_valid_ok hl hc hL1 hL2] at h
          simp only [Except.ok.injEq] at h
          rw [← h]
    · have hc' : cr.pathExists = false := by simpa using hc
      rw [sync_v0_missing_cloud hl hc'] at h
      simp at h
  · have hl' : lr.pathExists = false := by simpa using hl
    rw [sync_v0_missing_local hl'] at h
    simp at h

/-- C9: the earlier desktop-app engine against the policy-aware engine run
with policy "newer". Per entry, the earlier loop body is exactly the
"newer"-policy loop body with the (necessarily empty) conflict list
stripped: the strictly newer side is copied over the other, counted once,
and a tie does nothing. At run level the two revisions produce the same
final filesystem state, the same operation trace, and the same result up
to dropping the conflicts field; the policy-aware run under "newer" never
reports a conflict, and every report of the earlier engine has
success = true. -/
theorem claim_c9 (oracle : IOOracle) (lp cp : String) (lr cr : RootState)
    (cmap : List (RelPath × Nat)) (st : St) (p : RelPath) (lm : Nat) :
    (syncEntry1V0 oracle cmap st p lm =
      ⟨(syncEntry1 oracle (some "newer") cmap st p lm).st,
       (syncEntry1 oracle (some "newer") cmap st p lm).ops,
       ((syncEntry1 oracle (some "newer") cmap st p lm).res).map Prod.fst⟩) ∧
    (sync_game_saves_v0 oracle lp cp lr cr =
      ⟨(sync_game_saves oracle lp cp lr cr (some "newer")).state,
       (sync_game_saves oracle lp cp lr cr (some "newer")).trace,
       ((sync_game_saves oracle lp cp lr cr (some "newer")).result).map
         (fun r => ⟨r.success, r.message, r.files_synced⟩)⟩) ∧
    (∀ r1 : SyncResult,
      (sync_game_saves oracle lp cp lr cr (some "newer")).result = Except.ok r1 →
      r1.conflicts = []) ∧
    (∀ r0 : SyncResultV0,
      (sync_game_saves_v0 oracle lp cp lr cr).result = Except.ok r0 →
      r0.success = true) := by
  refine ⟨syncEntry1V0_eq oracle cmap st p lm, sync_v0_eq_newer oracle lp cp lr cr, ?_, ?_⟩
  · intro r1 h
    by_cases hl : lr.pathExists = true
    · by_cases hc : cr.pathExists = true
      · obtain ⟨st1, ops1, n1, cs, st2, ops2, n2, h1, h2, _, hr⟩ := sync_ok_elim hl hc h
        have hcs : cs = [] := runLoop1_newer_conflicts_nil (by rw [h1])
        rw [hr]
        exact hcs
      · have hc' : cr.pathExists = false := by simpa using hc
        rw [sync_missing_cloud hl hc'] at h
        simp at h
    · have hl' : lr.pathExists = false := by simpa using hl
      rw [sync_missing_local hl'] at h
      simp at h
  · intro r0 h
    exact sync_v0_success_true h

theorem claim_c9_witness :
    (sync_game_saves_v0 reliable "L" "C"
        (RootState.dir [(["a"], (⟨5, 1, 1⟩ : File))])
        (RootState.dir [(["a"], (⟨3, 1, 1⟩ : File))]) =
      ⟨(sync_game_saves reliable "L" "C"
          (RootState.dir [(["a"], (⟨5, 1, 1⟩ : File))])
          (RootState.dir [(["a"], (⟨3, 1, 1⟩ : File))]) (some "newer")).state,
       (sync_game_saves reliable "L" "C"
          (RootState.dir [(["a"], (⟨5, 1, 1⟩ : File))])
          (RootState.dir [(["a"], (⟨3, 1, 1⟩ : File))]) (some "newer")).trace,
       ((sync_game_saves reliable "L" "C"
          (RootState.dir [(["a"], (⟨5, 1, 1⟩ : File))])
          (RootState.dir [(["a"], (⟨3, 1, 1⟩ : File))]) (some "newer")).result).map
         (fun r => ⟨r.success, r.message, r.files_synced⟩)⟩) ∧
    ({ success := true
       message := "Successfully synced 1 file(s)"
       files_synced := 1
       conflicts := [] } : SyncResult).conflicts = [] ∧
    ({ success := true
       message := "Successfully synced 1 file(s)"
       files_synced := 1 } : SyncResultV0).success = true :=
  ⟨(claim_c9 reliable "L" "C"
      (RootState.dir [(["a"], (⟨5, 1, 1⟩ : File))])
      (RootState.dir [(["a"], (⟨3, 1, 1⟩ : File))]) [] ⟨[], []⟩ [] 0).2.1,
   (claim_c9 reliable "L" "C"
      (RootState.dir [(["a"], (⟨5, 1, 1⟩ : File))])
      (RootState.dir [(["a"], (⟨3, 1, 1⟩ : File))]) [] ⟨[], []⟩ [] 0).2.2.1
      _ (by rfl),
   (claim_c9 reliable "L" "C"
      (RootState.dir [(["a"], (⟨5, 1, 1⟩ : File))])
      (RootState.dir [(["a"], (⟨3, 1, 1⟩ : File))]) [] ⟨[], []⟩ [] 0).2.2.2
      _ (by rfl)⟩

/-! ### Idempotence -/

theorem sync_state_nodup {oracle : IOOracle} {lp cp : String}
    {lr cr : RootState} {auto : Option String}
    (hn : StNodup ⟨lr.treeOf, cr.treeOf⟩) :
    StNodup ((sync_game_saves oracle lp cp lr cr auto).state) := by
  by_cases hl : lr.pathExists = true
  · by_cases hc : cr.pathExists = true
    · rcases hL1 : runLoop1 oracle auto (indexTree cr.treeOf) (indexTree lr.treeOf)
          ⟨lr.treeOf, cr.treeOf⟩ with ⟨st1, ops1, res1⟩
      have h1n := runLoop1_nodup oracle auto (indexTree cr.treeOf) (indexTree lr.treeOf)
        ⟨lr.treeOf, cr.treeOf⟩ hn
      rw [hL1] at h1n
      cases res1 with
      | error e =>
        rw [sync_valid_loop1_err hl hc hL1]
        exact h1n
      | ok v =>
        obtain ⟨n1, cs⟩ := v
        have h2n := runLoop2_nodup oracle (indexTree lr.treeOf) (indexTree cr.treeOf)
          st1 h1n
        rcases hL2 : runLoop2 oracle (indexTree lr.treeOf) (indexTree cr.treeOf) st1
          with ⟨st2, ops2, res2⟩
        rw [hL2] at h2n
        cases res2 with
        | error e =>
          rw [sync_valid_loop2_err hl hc hL1 hL2]
          exact h2n
        | ok n2 =>
          rw [sync_valid_ok hl hc hL1 hL2]
          exact h2n
    · have hc' : cr.pathExists = false := by simpa using hc
      rw [sync_missing_cloud hl hc']
      exact hn
  · have hl' : lr.pathExists = false := by simpa using hl
    rw [sync_missing_local hl']
    exact hn

theorem sync_success_mtime_agree {oracle : IOOracle} {lp cp : String}
    {lt ct : FsTree} {auto : Option String} {r : SyncResult}
    (hnl : (keysOf lt).Nodup) (hnc : (keysOf ct).Nodup)
    (h : (sync_game_saves oracle lp cp (RootState.dir lt) (RootState.dir ct) auto).result
      = Except.ok r)
    (hs : r.success = true) (p : RelPath) :
    ((((sync_game_saves oracle lp cp (RootState.dir lt) (RootState.dir ct) auto).state).read
        (Side.loc, p)).map File.modified) =
    ((((sync_game_saves oracle lp cp (RootState.dir lt) (RootState.dir ct) auto).state).read
        (Side.cld, p)).map File.modified) := by
  have hl : (RootState.dir lt).pathExists = true := rfl
  have hc : (RootState.dir ct).pathExists = true := rfl
  obtain ⟨st1, ops1, n1, cs, st2, ops2, n2, h1, h2, heq, hr⟩ := sync_ok_elim hl hc h
  simp only [RootState.treeOf] at h1 h2
  have hcs : cs = [] := by
    rw [hr] at hs
    dsimp only at hs
    cases cs with
    | nil => rfl
    | cons a l => simp [List.isEmpty] at hs
  subst hcs
  have hndl : (keysOf (indexTree lt)).Nodup := by rw [keysOf_indexTree]; exact hnl
  have hndc : (keysOf (indexTree ct)).Nodup := by rw [keysOf_indexTree]; exact hnc
  have hres1 : (runLoop1 oracle auto (indexTree ct) (indexTree lt) ⟨lt, ct⟩).res
      = Except.ok (n1, []) := by rw [h1]
  have hres2 : (runLoop2 oracle (indexTree lt) (indexTree ct) st1).res = Except.ok n2 := by
    rw [h2]
  have hcov1 : covered1 ⟨lt, ct⟩ (indexTree lt) (indexTree ct) := covered1_init lt ct
  have hcov2 : covered2 st1 (indexTree ct) (indexTree lt) := by
    have hcv := covered2_init oracle auto lt ct
    rw [h1] at hcv
    exact hcv
  rw [heq]
  dsimp only
  cases hfl : findEntry p (indexTree lt) with
  | some lm =>
    have hmem1 : (p, lm) ∈ indexTree lt := findEntry_mem hfl
    have hreads := runLoop1_reads oracle auto (indexTree ct) (indexTree lt)
      ⟨lt, ct⟩ n1 [] hndl hcov1 hres1 p lm hmem1
    rw [h1] at hreads
    dsimp only at hreads
    cases hfc : findEntry p (indexTree ct) with
    | some cm =>
      have hmem2 : (p, cm) ∈ indexTree ct := findEntry_mem hfc
      have hreads2 := runLoop2_reads oracle (indexTree lt) (indexTree ct) st1 n2
        hndc hcov2 hres2 p cm hmem2
      rw [h2] at hreads2
      dsimp only at hreads2
      have hsome : (findEntry p (indexTree lt)).isSome := by rw [hfl]; rfl
      obtain ⟨hskipL, hskipC⟩ := hreads2.1 hsome
      by_cases hlc : lm = cm
      · subst hlc
        obtain ⟨hIl, hIc⟩ := hreads.2.1 hfc
        rw [hskipL, hskipC, hIl, hIc]
        show (findEntry p lt).map File.modified = (findEntry p ct).map File.modified
        rw [← findEntry_indexTree, ← findEntry_indexTree, hfl, hfc]
      · cases hra : resolveAction auto lm cm with
        | toCloud =>
          obtain ⟨hDl, hDc⟩ := (hreads.2.2 cm hfc hlc).1 hra
          rw [hskipL, hskipC, hDl, hDc]
        | toLocal =>
          obtain ⟨hDl, hDc⟩ := (hreads.2.2 cm hfc hlc).2.1 hra
          rw [hskipL, hskipC, hDl, hDc]
        | unresolved =>
          exfalso
          exact runLoop1_conflict_nonempty oracle auto (indexTree ct) (indexTree lt)
            ⟨lt, ct⟩ n1 [] p lm hmem1 ⟨cm, hfc, hlc, hra⟩ hres1 rfl
    | none =>
      obtain ⟨hLl, hLc⟩ := hreads.1 hfc
      have hnotc : p ∉ keysOf (indexTree ct) := findEntry_eq_none_iff.mp hfc
      have hf2l := runLoop2_frame oracle (indexTree lt) (indexTree ct) st1 (Side.loc, p) hnotc
      have hf2c := runLoop2_frame oracle (indexTree lt) (indexTree ct) st1 (Side.cld, p) hnotc
      rw [h2] at hf2l hf2c
      dsimp only at hf2l hf2c
      rw [hf2l, hf2c, hLl, hLc]
  | none =>
    have hnotl : p ∉ keysOf (indexTree lt) := findEntry_eq_none_iff.mp hfl
    have hf1l := runLoop1_frame oracle auto (indexTree ct) (indexTree lt) ⟨lt, ct⟩
      (Side.loc, p) hnotl
    have hf1c := runLoop1_frame oracle auto (indexTree ct) (indexTree lt) ⟨lt, ct⟩
      (Side.cld, p) hnotl
    rw [h1] at hf1l hf1c
    dsimp only at hf1l hf1c
    cases hfc : findEntry p (indexTree ct) with
    | some cm =>
      have hmem2 : (p, cm) ∈ indexTree ct := findEntry_mem hfc
      have hreads2 := runLoop2_reads oracle (indexTree lt) (indexTree ct) st1 n2
        hndc hcov2 hres2 p cm hmem2
      rw [h2] at hreads2
      dsimp only at hreads2
      obtain ⟨hCl, hCc⟩ := hreads2.2 hfl
      rw [hCl, hCc]
    | none =>
      have hnotc : p ∉ keysOf (indexTree ct) := findEntry_eq_none_iff.mp hfc
      have hf2l := runLoop2_frame oracle (indexTree lt) (indexTree ct) st1 (Side.loc, p) hnotc
      have hf2c := runLoop2_frame oracle (indexTree lt) (indexTree ct) st1 (Side.cld, p) hnotc
      rw [h2] at hf2l hf2c
      dsimp only at hf2l hf2c
      rw [hf2l, hf2c, hf1l, hf1c]
      show (findEntry p lt).map File.modified = (findEntry p ct).map File.modified
      rw [← findEntry_indexTree, ← findEntry_indexTree, hfl, hfc]

theorem sync_agree_zero_run (oracle : IOOracle) (lp cp : String) (auto : Option String)
    (lt2 ct2 : FsTree) (hnl : (keysOf lt2).Nodup)
    (hagree : ∀ q : RelPath,
      (findEntry q lt2).map File.modified = (findEntry q ct2).map File.modified) :
    sync_game_saves oracle lp cp (RootState.dir lt2) (RootState.dir ct2) auto =
      ⟨⟨lt2, ct2⟩, [], Except.ok
        { success := true
          message := "Successfully synced 0 file(s)"
          files_synced := 0
          conflicts := [] }⟩ := by
  have hfind : ∀ q : RelPath, findEntry q (indexTree lt2) = findEntry q (indexTree ct2) := by
    intro q
    rw [findEntry_indexTree, findEntry_indexTree, hagree q]
  have h1 : runLoop1 oracle auto (indexTree ct2) (indexTree lt2) ⟨lt2, ct2⟩ =
      ⟨⟨lt2, ct2⟩, [], Except.ok (0, [])⟩ := by
    apply runLoop1_all_identical
    intro e he
    obtain ⟨q, m⟩ := e
    have hm : findEntry q (indexTree lt2) = some m := by
      apply findEntry_of_nodup_mem _ he
      rw [keysOf_indexTree]
      exact hnl
    show findEntry q (indexTree ct2) = some m
    rw [← hfind q]
    exact hm
  have h2 : runLoop2 oracle (indexTree lt2) (indexTree ct2) ⟨lt2, ct2⟩ =
      ⟨⟨lt2, ct2⟩, [], Except.ok 0⟩ := by
    apply runLoop2_all_skip
    intro e he
    obtain ⟨q, m⟩ := e
    show (findEntry q (indexTree lt2)).isSome
    rw [hfind q]
    exact findEntry_isSome_of_mem he
  have hl : (RootState.dir lt2).pathExists = true := rfl
  have hc : (RootState.dir ct2).pathExists = true := rfl
  have h1' : runLoop1 oracle auto (indexTree (RootState.dir ct2).treeOf)
      (indexTree (RootState.dir lt2).treeOf)
      ⟨(RootState.dir lt2).treeOf, (RootState.dir ct2).treeOf⟩ =
      ⟨⟨lt2, ct2⟩, [], Except.ok (0, [])⟩ := h1
  have h2' : runLoop2 oracle (indexTree (RootState.dir lt2).treeOf)
      (indexTree (RootState.dir ct2).treeOf) ⟨lt2, ct2⟩ =
      ⟨⟨lt2, ct2⟩, [], Except.ok 0⟩ := h2
  rw [sync_valid_ok hl hc h1' h2']
  rfl

/-- C6: idempotence. If a run over duplicate-free directory roots returns
a report with success = true, an immediately repeated run on the resulting
trees with the same arguments (under any I/O environment, since it never
attempts an operation) performs no filesystem operation at all, leaves
both trees untouched, and returns files_synced = 0 with an empty conflicts
list. -/
theorem claim_c6 (oracle oracle2 : IOOracle) (lp cp : String) (lt ct : FsTree)
    (auto : Option String) (r : SyncResult)
    (hnl : (keysOf lt).Nodup) (hnc : (keysOf ct).Nodup)
    (h : (sync_game_saves oracle lp cp (RootState.dir lt) (RootState.dir ct) auto).result
      = Except.ok r)
    (hs : r.success = true) :
    sync_game_saves oracle2 lp cp
      (RootState.dir (((sync_game_saves oracle lp cp (RootState.dir lt)
        (RootState.dir ct) auto).state).ltree))
      (RootState.dir (((sync_game_saves oracle lp cp (RootState.dir lt)
        (RootState.dir ct) auto).state).ctree)) auto =
      ⟨⟨((sync_game_saves oracle lp cp (RootState.dir lt)
          (RootState.dir ct) auto).state).ltree,
        ((sync_game_saves oracle lp cp (RootState.dir lt)
          (RootState.dir ct) auto).state).ctree⟩,
       [], Except.ok
        { success := true
          message := "Successfully synced 0 file(s)"
          files_synced := 0
          conflicts := [] }⟩ := by
  apply sync_agree_zero_run
  · exact (@sync_state_nodup oracle lp cp (RootState.dir lt) (RootState.dir ct) auto
      ⟨hnl, hnc⟩).1
  · intro q
    exact sync_success_mtime_agree hnl hnc h hs q

theorem claim_c6_witness :
    (keysOf [((["a"] : RelPath), (⟨5, 1, 1⟩ : File))]).Nodup ∧
    (keysOf ([] : FsTree)).Nodup ∧
    (sync_game_saves reliable "L" "C"
        (RootState.dir [(["a"], (⟨5, 1, 1⟩ : File))]) (RootState.dir ([] : FsTree))
        none).result = Except.ok
      { success := true
        message := "Successfully synced 1 file(s)"
        files_synced := 1
        conflicts := [] } ∧
    sync_game_saves reliable "L" "C"
      (RootState.dir (((sync_game_saves reliable "L" "C"
        (RootState.dir [(["a"], (⟨5, 1, 1⟩ : File))]) (RootState.dir ([] : FsTree))
        none).state).ltree))
      (RootState.dir (((sync_game_saves reliable "L" "C"
        (RootState.dir [(["a"], (⟨5, 1, 1⟩ : File))]) (RootState.dir ([] : FsTree))
        none).state).ctree)) none =
      ⟨⟨((sync_game_saves reliable "L" "C"
          (RootState.dir [(["a"], (⟨5, 1, 1⟩ : File))]) (RootState.dir ([] : FsTree))
          none).state).ltree,
        ((sync_game_saves reliable "L" "C"
          (RootState.dir [(["a"], (⟨5, 1, 1⟩ : File))]) (RootState.dir ([] : FsTree))
          none).state).ctree⟩,
       [], Except.ok
        { success := true
          message := "Successfully synced 0 file(s)"
          files_synced := 0
          conflicts := [] }⟩ :=
  ⟨by decide, by decide, rfl,
   claim_c6 reliable reliable "L" "C" [(["a"], ⟨5, 1, 1⟩)] [] none
     { success := true
       message := "Successfully synced 1 file(s)"
       files_synced := 1
       conflicts := [] }
     (by decide) (by decide) rfl rfl⟩
